import Mathlib

/-!
# g810-led: the protocol core of `LedKeyboard` (src/classes/Keyboard.cpp)

A shallow embedding of the frame encoders of `LedKeyboard` and proofs about
the frames they hand to the transport.

Conventions of the embedding:

* a `byte_buffer_t` is a `List Nat` whose entries are byte values; every
  narrowing conversion of the source is written as an explicit `% 256`
  (or `% 65536`, `% 2 ^ 32`, `% 2 ^ 64`);
* the keyboard object is threaded explicitly: an operation receives the model
  of the current device, the transport and the list of frames handed to the
  transport so far, and returns its `bool` together with the extended list;
* loops driven by an 8-bit counter are iterated with explicit fuel and wrap
  their counter modulo 256; `none` means that the fuel ran out;
* the class is built with one of two back ends.  The encoders are embedded for
  sends that leave `currentDevice` untouched: the libusb branch of
  `sendDataInternal`, and the hidapi branch as long as its re-open finds the
  device again.  `setKeys`, which goes on after a failed send and reads the
  model again for every group frame, is embedded a second time with the hidapi
  branch, carrying `currentDevice` through the sends (`setKeysHidapi`).
-/

namespace LedKeyboard

/-! ## Data model -/

/-- The buffer type `byte_buffer_t` (a vector of unsigned chars). -/
abbrev Frame := List Nat

/-- The enumeration `KeyboardModel`; the `default:` branches of the source are
the wildcard branches of the embedding. -/
inductive KeyboardModel where
  | unknown | g213 | g410 | g413 | g512 | g513 | g610 | g810 | g815 | g910 | g915 | gpro
  deriving DecidableEq

/-- The struct `Color`: three 8-bit channels, each stored as its value below 256. -/
structure Color where
  red : Nat
  green : Nat
  blue : Nat
  deriving DecidableEq

/-- The struct `KeyValue`: a 16-bit key code and its colour. -/
structure KeyValue where
  key : Nat
  color : Color
  deriving DecidableEq

/-- The enumerators of `KeyAddressGroup`, as names. -/
inductive KeyAddressGroup where
  | logo | indicators | multimedia | gkeys | keys
  deriving DecidableEq

/-- The numeric values of the enumerators of `Key` that the encoders compare
against.  The enumeration is declared in the header of the class, so the values
are a parameter of the embedding. -/
structure Key where
  logo : Nat
  logo2 : Nat
  game : Nat
  caps : Nat
  scroll : Nat
  num : Nat
  stop : Nat
  g6 : Nat
  g7 : Nat
  g8 : Nat
  g9 : Nat
  play : Nat
  mute : Nat
  next : Nat
  prev : Nat
  ctrl_left : Nat
  shift_left : Nat
  alt_left : Nat
  win_left : Nat
  ctrl_right : Nat
  shift_right : Nat
  alt_right : Nat
  win_right : Nat
  num_lock : Nat
  num_dot : Nat

/-- The declarations of the class header that the encoders depend on: the
values of the `Key` enumerators and the numeric value of every
`KeyAddressGroup` enumerator. -/
structure Declarations where
  key : Key
  group : KeyAddressGroup → Nat

/-- Modelled from the spec: the declaration of `KeyAddressGroup` is in the class
header; the spec packs the address group into one byte of the key code
("an address group in its high byte"), so a `static_cast` to the enumeration
keeps the low eight bits of the value. -/
def toKeyAddressGroup (n : Nat) : Nat := n % 256

/-! ## Transport -/

/-- The transport seen from the encoders: the outcome of handing over a frame,
given how many frames were handed over before it and the frame itself. -/
abbrev Transport := Nat → Frame → Bool

/-- The method `vector::resize(n, v)`: truncate to `n` entries or pad with `v`. -/
def resize (data : Frame) (n : Nat) (v : Nat) : Frame :=
  data.take n ++ List.replicate (n - data.length) v

/-- The method `sendDataInternal` as the encoders see it when the send leaves
`currentDevice` untouched: a non-empty buffer is handed to the transport, whose
outcome is the result; an empty buffer yields `false` without any transfer.
This is the libusb branch of the method, where a session that is not open and
a failed control transfer are the outcome `false`.  The hidapi branch opens the
device again before every write, which can reset `currentDevice.model`: it is
embedded as `sendDataInternalHidapi`, and agrees with this definition as long
as the re-open leaves `currentDevice` as it was. -/
def sendDataInternal (t : Transport) (data : Frame) (sent : List Frame) :
    Bool × List Frame :=
  if data.length > 0 then (t sent.length data, sent ++ [data]) else (false, sent)

/-! ## Fixed-frame commands -/

/-- The method `commit`. -/
def commit (model : KeyboardModel) (t : Transport) (sent : List Frame) :
    Bool × List Frame :=
  match model with
  | .g213 | .g413 => (true, sent)
  | .g410 | .g512 | .g513 | .g610 | .g810 | .gpro =>
    sendDataInternal t (resize [0x11, 0xff, 0x0c, 0x5a] 20 0x00) sent
  | .g815 => sendDataInternal t (resize [0x11, 0xff, 0x10, 0x7f] 20 0x00) sent
  | .g910 => sendDataInternal t (resize [0x11, 0xff, 0x0f, 0x5d] 20 0x00) sent
  | .g915 => sendDataInternal t (resize [0x11, 0x01, 0x0b, 0x7f] 20 0x00) sent
  | _ => (false, sent)

/-- The method `setMRKey`; `value` is the `uint8_t` argument. -/
def setMRKey (model : KeyboardModel) (value : Nat) (t : Transport)
    (sent : List Frame) : Bool × List Frame :=
  match model with
  | .g815 | .g915 =>
    let g815_target := match model with | .g915 => 0x01 | _ => 0xff
    let g815_feat_idx := match model with | .g915 => 0x13 | _ => 0x0c
    match value with
    | 0x00 | 0x01 =>
      sendDataInternal t (resize [0x11, g815_target, g815_feat_idx, 0x0c, value] 20 0x00) sent
    | _ => (false, sent)
  | .g910 =>
    match value with
    | 0x00 | 0x01 => sendDataInternal t (resize [0x11, 0xff, 0x0a, 0x0e, value] 20 0x00) sent
    | _ => (false, sent)
  | _ => (false, sent)

/-- The method `setMNKey`; `value` is the `uint8_t` argument. -/
def setMNKey (model : KeyboardModel) (value : Nat) (t : Transport)
    (sent : List Frame) : Bool × List Frame :=
  match model with
  | .g815 | .g915 =>
    let g815_target := match model with | .g915 => 0x01 | _ => 0xff
    let g815_feat_idx := match model with | .g915 => 0x12 | _ => 0x0b
    match value with
    | 0x01 =>
      sendDataInternal t (resize [0x11, g815_target, g815_feat_idx, 0x1c, 0x01] 20 0x00) sent
    | 0x02 =>
      sendDataInternal t (resize [0x11, g815_target, g815_feat_idx, 0x1c, 0x02] 20 0x00) sent
    | 0x03 =>
      sendDataInternal t (resize [0x11, g815_target, g815_feat_idx, 0x1c, 0x04] 20 0x00) sent
    | _ => (false, sent)
  | .g910 =>
    match value with
    | 0x00 | 0x01 | 0x02 | 0x03 | 0x04 | 0x05 | 0x06 | 0x07 =>
      sendDataInternal t (resize [0x11, 0xff, 0x09, 0x1e, value] 20 0x00) sent
    | _ => (false, sent)
  | _ => (false, sent)

/-- The method `setGKeysMode`; `value` is the `uint8_t` argument. -/
def setGKeysMode (model : KeyboardModel) (value : Nat) (t : Transport)
    (sent : List Frame) : Bool × List Frame :=
  match model with
  | .g815 | .g915 =>
    let g815_target := match model with | .g915 => 0x01 | _ => 0xff
    let g815_feat_idx := match model with | .g915 => 0x11 | _ => 0x0a
    match value with
    | 0x00 | 0x01 =>
      sendDataInternal t (resize [0x11, g815_target, g815_feat_idx, 0x2b, value] 20 0x00) sent
    | _ => (false, sent)
  | .g910 =>
    match value with
    | 0x00 | 0x01 => sendDataInternal t (resize [0x11, 0xff, 0x08, 0x2e, value] 20 0x00) sent
    | _ => (false, sent)
  | _ => (false, sent)

/-- The method `setStartupMode`; `startupMode` is the numeric value of the
enumerator passed in, and the cast to `unsigned char` keeps its low byte. -/
def setStartupMode (model : KeyboardModel) (startupMode : Nat) (t : Transport)
    (sent : List Frame) : Bool × List Frame :=
  match model with
  | .g213 | .g410 | .g610 | .g810 | .gpro =>
    sendDataInternal t
      (resize ([0x11, 0xff, 0x0d, 0x5a, 0x00, 0x01] ++ [startupMode % 256]) 20 0x00) sent
  | .g910 =>
    sendDataInternal t
      (resize ([0x11, 0xff, 0x10, 0x5e, 0x00, 0x01] ++ [startupMode % 256]) 20 0x00) sent
  | _ => (false, sent)

/-! ## Per-key colour: the colour-batched encoder (g815, g915) -/

/-- The map `KeyByColors` (a `std::map` from the colour key to the keys of that
colour): an association list kept in ascending key order, the order in which
the range-for of the source visits it. -/
abbrev ColorMap := List (Nat × List KeyValue)

/-- The method `map::count`. -/
def ColorMap.count (m : ColorMap) (k : Nat) : Nat :=
  (m.filter (fun x => x.1 = k)).length

/-- The method `map::insert`: adds the pair at its place in key order unless the
key is present already. -/
def ColorMap.insert : ColorMap → Nat → List KeyValue → ColorMap
  | [], k, v => [(k, v)]
  | x :: rest, k, v =>
    if k < x.1 then (k, v) :: x :: rest
    else if k = x.1 then x :: rest
    else x :: ColorMap.insert rest k v

/-- The statement `KeyByColors[k].push_back(kv)`: the subscript creates an empty
entry when the key is absent, then the key value is appended to the entry. -/
def ColorMap.pushBack : ColorMap → Nat → KeyValue → ColorMap
  | [], k, kv => [(k, [kv])]
  | x :: rest, k, kv =>
    if k < x.1 then (k, [kv]) :: x :: rest
    else if k = x.1 then (x.1, x.2 ++ [kv]) :: rest
    else x :: ColorMap.pushBack rest k kv

/-- The local `colorkey`: `red | green << 8 | blue << 16` converted to
`uint32_t`.  For 8-bit channels the value is below `2 ^ 24`, so the conversion
to the `int32_t` key of the map keeps it. -/
def colorkey (c : Color) : Nat :=
  (c.red ||| (c.green <<< 8) ||| (c.blue <<< 16)) % 2 ^ 32

/-- The body of the first loop of the colour-batched branch of `setKeys`: an
empty entry is inserted when the colour key is new, then the key value is
appended to the entry of its colour key. -/
def fileKey (KeyByColors : ColorMap) (kv : KeyValue) : ColorMap :=
  let ck := colorkey kv.color
  let m := if KeyByColors.count ck = 0 then KeyByColors.insert ck [] else KeyByColors
  m.pushBack ck kv

/-- The first loop of the colour-batched branch of `setKeys`,
`for (uint8_t i = 0; i < keyValues.size(); i++)`: files every key value under
its colour key. -/
def groupByColor (keyValues : List KeyValue) : Nat → Nat → ColorMap → Option ColorMap
  | 0, _, _ => none
  | fuel + 1, i, KeyByColors =>
    if h : i < keyValues.length then
      groupByColor keyValues fuel ((i + 1) % 256) (fileKey KeyByColors keyValues[i])
    else some KeyByColors

/-- The body of the switch on `x.second[gi+i].key` in the colour-batched
branch: the bytes appended to `data` for one key. -/
def pushColorKey (D : Declarations) (data : Frame) (key : Nat) : Frame :=
  if key = D.key.logo2 ∨ key = D.key.game ∨ key = D.key.caps ∨ key = D.key.scroll ∨
      key = D.key.num ∨ key = D.key.stop ∨ key = D.key.g6 ∨ key = D.key.g7 ∨
      key = D.key.g8 ∨ key = D.key.g9 then data
  else if key = D.key.play then data ++ [0x9b]
  else if key = D.key.mute then data ++ [0x9c]
  else if key = D.key.next then data ++ [0x9d]
  else if key = D.key.prev then data ++ [0x9e]
  else if key = D.key.ctrl_left ∨ key = D.key.shift_left ∨ key = D.key.alt_left ∨
      key = D.key.win_left ∨ key = D.key.ctrl_right ∨ key = D.key.shift_right ∨
      key = D.key.alt_right ∨ key = D.key.win_right then
    data ++ [(((key % 256) &&& 0x00ff) + 256 - 0x78) % 256]
  else
    let g := toKeyAddressGroup ((((key % 65536) &&& 0xff00)) / 0xff)
    if g = D.group .logo then data ++ [(((key % 256) &&& 0x00ff) + 0xd1) % 256]
    else if g = D.group .indicators then data ++ [(((key % 256) &&& 0x00ff) + 0x98) % 256]
    else if g = D.group .gkeys then data ++ [(((key % 256) &&& 0x00ff) + 0xb3) % 256]
    else if g = D.group .keys then data ++ [(((key % 256) &&& 0x00ff) + 256 - 0x03) % 256]
    else data

/-- The frame built by one pass of the `while` loop of the colour-batched
branch: header, colour of the first key of the entry, the bytes of the keys
`gi .. gi+12` that exist, the `0xff` marker when the buffer is still shorter
than 20, and the resize to 20. -/
def colorFrame (D : Declarations) (g815_target g815_feat_idx : Nat)
    (keys : List KeyValue) (gi : Nat) : Frame :=
  let data_size := 20
  let data := [0x11, g815_target, g815_feat_idx, 0x6c]
  let first := keys.getD 0 ⟨0, ⟨0, 0, 0⟩⟩
  let data := data ++ [first.color.red]
  let data := data ++ [first.color.green]
  let data := data ++ [first.color.blue]
  let data := (List.range 13).foldl
    (fun d i => if h : gi + i < keys.length then pushColorKey D d keys[gi + i].key else d) data
  let data := if data.length < data_size then data ++ [0xff] else data
  resize data data_size 0x00

/-- The `while (gi < x.second.size())` loop of the colour-batched branch; the
counter `gi` is a `uint8_t` advanced by `maxKeyPerColor = 13`. -/
def sendColorChunks (D : Declarations) (t : Transport) (g815_target g815_feat_idx : Nat)
    (keys : List KeyValue) : Nat → Nat → Bool → List Frame → Option (Bool × List Frame)
  | 0, _, _, _ => none
  | fuel + 1, gi, retval, sent =>
    if gi < keys.length then
      let r := sendDataInternal t (colorFrame D g815_target g815_feat_idx keys gi) sent
      let retval := if retval then r.1 else retval
      sendColorChunks D t g815_target g815_feat_idx keys fuel ((gi + 13) % 256) retval r.2
    else some (retval, sent)

/-- The range-for over `KeyByColors` of the colour-batched branch. -/
def sendColors (D : Declarations) (t : Transport) (g815_target g815_feat_idx : Nat)
    (fuel : Nat) : ColorMap → Bool → List Frame → Option (Bool × List Frame)
  | [], retval, sent => some (retval, sent)
  | x :: rest, retval, sent =>
    if x.2.length > 0 then
      match sendColorChunks D t g815_target g815_feat_idx x.2 fuel 0 retval sent with
      | none => none
      | some r => sendColors D t g815_target g815_feat_idx fuel rest r.1 r.2
    else sendColors D t g815_target g815_feat_idx fuel rest retval sent

/-! ## Per-key colour: the group-addressed encoder (all other models) -/

/-- The method `getKeyGroupAddress`. -/
def getKeyGroupAddress (model : KeyboardModel) (keyAddressGroup : KeyAddressGroup) : Frame :=
  match model with
  | .g213 | .g413 => []
  | .g410 | .g512 | .g513 | .gpro =>
    match keyAddressGroup with
    | .logo => [0x11, 0xff, 0x0c, 0x3a, 0x00, 0x10, 0x00, 0x01]
    | .indicators => [0x12, 0xff, 0x0c, 0x3a, 0x00, 0x40, 0x00, 0x05]
    | .gkeys => []
    | .multimedia => []
    | .keys => [0x12, 0xff, 0x0c, 0x3a, 0x00, 0x01, 0x00, 0x0e]
  | .g610 | .g810 =>
    match keyAddressGroup with
    | .logo => [0x11, 0xff, 0x0c, 0x3a, 0x00, 0x10, 0x00, 0x01]
    | .indicators => [0x12, 0xff, 0x0c, 0x3a, 0x00, 0x40, 0x00, 0x05]
    | .gkeys => []
    | .multimedia => [0x12, 0xff, 0x0c, 0x3a, 0x00, 0x02, 0x00, 0x05]
    | .keys => [0x12, 0xff, 0x0c, 0x3a, 0x00, 0x01, 0x00, 0x0e]
  | .g815 | .g915 =>
    let g815_target := match model with | .g915 => 0x01 | _ => 0xff
    let g815_feat_idx := match model with | .g915 => 0x0b | _ => 0x10
    match keyAddressGroup with
    | .logo => [0x11, g815_target, g815_feat_idx, 0x1c]
    | .indicators => [0x11, g815_target, g815_feat_idx, 0x1c]
    | .gkeys => [0x11, g815_target, g815_feat_idx, 0x1c]
    | .multimedia => [0x11, g815_target, g815_feat_idx, 0x1c]
    | .keys => [0x11, g815_target, g815_feat_idx, 0x1c]
  | .g910 =>
    match keyAddressGroup with
    | .logo => [0x11, 0xff, 0x0f, 0x3a, 0x00, 0x10, 0x00, 0x02]
    | .indicators => [0x12, 0xff, 0x0c, 0x3a, 0x00, 0x40, 0x00, 0x05]
    | .gkeys => [0x12, 0xff, 0x0f, 0x3e, 0x00, 0x04, 0x00, 0x09]
    | .multimedia => []
    | .keys => [0x12, 0xff, 0x0f, 0x3d, 0x00, 0x01, 0x00, 0x0e]
  | _ => []

/-- The local `SortedKeys`: the vector of the five per-group vectors (index 0
logo, 1 indicators, 2 multimedia, 3 gkeys, 4 keys). -/
abbrev SortedKeys := List (List KeyValue)

/-- The expression `SortedKeys[idx]`. -/
def SortedKeys.at (s : SortedKeys) (idx : Nat) : List KeyValue :=
  s.getD idx []

/-- The statement `SortedKeys[idx].push_back(kv)`. -/
def SortedKeys.pushBack : SortedKeys → Nat → KeyValue → SortedKeys
  | [], _, _ => []
  | v :: rest, 0, kv => (v ++ [kv]) :: rest
  | v :: rest, idx + 1, kv => v :: SortedKeys.pushBack rest idx kv

/-- The body of the partition loop of the group-addressed branch: the switch on
the address group of one key value, with the capacity tests of every model. -/
def sortKey (D : Declarations) (model : KeyboardModel) (s : SortedKeys) (kv : KeyValue) :
    SortedKeys :=
  let g := toKeyAddressGroup ((kv.key % 65536) >>> 8)
  if g = D.group .logo then
    match model with
    | .g610 | .g810 | .gpro =>
      if (s.at 0).length ≤ 1 ∧ kv.key = D.key.logo then s.pushBack 0 kv else s
    | .g910 => if (s.at 0).length ≤ 2 then s.pushBack 0 kv else s
    | _ => s
  else if g = D.group .indicators then
    if (s.at 1).length ≤ 5 then s.pushBack 1 kv else s
  else if g = D.group .multimedia then
    match model with
    | .g610 | .g810 | .gpro => if (s.at 2).length ≤ 5 then s.pushBack 2 kv else s
    | _ => s
  else if g = D.group .gkeys then
    match model with
    | .g910 => if (s.at 3).length ≤ 9 then s.pushBack 3 kv else s
    | _ => s
  else if g = D.group .keys then
    match model with
    | .g512 | .g513 | .g610 | .g810 | .g910 | .gpro =>
      if (s.at 4).length ≤ 120 then s.pushBack 4 kv else s
    | .g410 =>
      if (s.at 4).length ≤ 120 then
        if kv.key < D.key.num_lock ∨ kv.key > D.key.num_dot then s.pushBack 4 kv else s
      else s
    | _ => s
  else s

/-- The partition loop `for (uint8_t i = 0; i < keyValues.size(); i++)` of the
group-addressed branch. -/
def partitionKeys (D : Declarations) (model : KeyboardModel) (keyValues : List KeyValue) :
    Nat → Nat → SortedKeys → Option SortedKeys
  | 0, _, _ => none
  | fuel + 1, i, s =>
    if h : i < keyValues.length then
      partitionKeys D model keyValues fuel ((i + 1) % 256) (sortKey D model s keyValues[i])
    else some s

/-- The switch on `kag` in the emission loop: the frame length. -/
def groupDataSize (kag : Nat) : Nat :=
  match kag with
  | 0 => 20
  | 1 => 64
  | 2 => 64
  | 3 => 64
  | 4 => 64
  | _ => 0

/-- The switch on `kag` in the emission loop: the group header. -/
def groupData (model : KeyboardModel) (kag : Nat) : Frame :=
  match kag with
  | 0 => getKeyGroupAddress model .logo
  | 1 => getKeyGroupAddress model .indicators
  | 2 => getKeyGroupAddress model .multimedia
  | 3 => getKeyGroupAddress model .gkeys
  | 4 => getKeyGroupAddress model .keys
  | _ => []

/-- The local `maxKeyCount = (data_size - 8) / 4`, computed in `size_t` and
stored in a `uint8_t`. -/
def maxKeyCount (data_size : Nat) : Nat :=
  ((data_size + 2 ^ 64 - 8) % 2 ^ 64 / 4) % 256

/-- The frame built by one pass of the emission loop for a group with a
non-empty header: the header, the quadruples of the entries
`gi .. gi+maxKeyCount-1` that exist, and the resize to `data_size`. -/
def groupFrame (model : KeyboardModel) (kag : Nat) (keys : List KeyValue) (gi : Nat) : Frame :=
  let data_size := groupDataSize kag
  let data := groupData model kag
  let data := (List.range (maxKeyCount data_size)).foldl
    (fun d i =>
      if h : gi + i < keys.length then
        d ++ [((keys[gi + i].key % 65536) &&& 0x00ff) % 256] ++ [keys[gi + i].color.red] ++
          [keys[gi + i].color.green] ++ [keys[gi + i].color.blue]
      else d) data
  resize data data_size 0x00

/-- The `while (gi < SortedKeys[kag].size())` loop of the group-addressed
branch; the counter `gi` is a `uint8_t` advanced by `maxKeyCount`. -/
def sendGroupChunks (model : KeyboardModel) (t : Transport) (kag : Nat)
    (keys : List KeyValue) : Nat → Nat → Bool → List Frame → Option (Bool × List Frame)
  | 0, _, _, _ => none
  | fuel + 1, gi, retval, sent =>
    if gi < keys.length then
      if (groupData model kag).length > 0 then
        let r := sendDataInternal t (groupFrame model kag keys gi) sent
        let retval := if retval then r.1 else retval
        sendGroupChunks model t kag keys fuel
          ((gi + maxKeyCount (groupDataSize kag)) % 256) retval r.2
      else
        sendGroupChunks model t kag keys fuel
          ((gi + maxKeyCount (groupDataSize kag)) % 256) retval sent
    else some (retval, sent)

/-- The loop `for (uint8_t kag = 0; kag < 5; kag++)` of the group-addressed
branch, run over the list of the remaining values of `kag`. -/
def sendGroups (model : KeyboardModel) (t : Transport) (s : SortedKeys) (fuel : Nat) :
    List Nat → Bool → List Frame → Option (Bool × List Frame)
  | [], retval, sent => some (retval, sent)
  | kag :: rest, retval, sent =>
    if (s.at kag).length > 0 then
      match sendGroupChunks model t kag (s.at kag) fuel 0 retval sent with
      | none => none
      | some r => sendGroups model t s fuel rest r.1 r.2
    else sendGroups model t s fuel rest retval sent

/-! ## `setKeys` -/

/-- The method `setKeys`.  Every loop with an 8-bit counter may take `fuel`
iterations; the result is `none` when one of them needs more. -/
def setKeys (D : Declarations) (fuel : Nat) (model : KeyboardModel)
    (keyValues : List KeyValue) (t : Transport) (sent : List Frame) :
    Option (Bool × List Frame) :=
  if keyValues.isEmpty then some (false, sent)
  else
    let retval := true
    match model with
    | .g815 | .g915 =>
      let g815_target := match model with | .g915 => 0x01 | _ => 0xff
      let g815_feat_idx := match model with | .g915 => 0x0b | _ => 0x10
      match groupByColor keyValues fuel 0 [] with
      | none => none
      | some KeyByColors => sendColors D t g815_target g815_feat_idx fuel KeyByColors retval sent
    | _ =>
      match partitionKeys D model keyValues fuel 0 [[], [], [], [], []] with
      | none => none
      | some s => sendGroups model t s fuel [0, 1, 2, 3, 4] retval sent

/-! ## A concrete key table -/

/-- Modelled from the spec: the enumerations `KeyAddressGroup` and `Key` are
declared in the class header; this table follows the packing of the spec (the
address group in the high byte of a key code, the offset in the low byte), with
the groups numbered in the order the spec lists them (logo, indicators,
multimedia, gkeys, keys) and USB usage codes as offsets of the keys group. -/
def sampleDeclarations : Declarations where
  group := fun g =>
    match g with
    | .logo => 0
    | .indicators => 1
    | .multimedia => 2
    | .gkeys => 3
    | .keys => 4
  key := {
    logo := 0x0001, logo2 := 0x0002,
    game := 0x0102, caps := 0x0103, scroll := 0x0104, num := 0x0105,
    next := 0x02b5, prev := 0x02b6, stop := 0x02b7, play := 0x02cd, mute := 0x02e2,
    g6 := 0x0306, g7 := 0x0307, g8 := 0x0308, g9 := 0x0309,
    num_lock := 0x0453, num_dot := 0x0463,
    ctrl_left := 0x04e0, shift_left := 0x04e1, alt_left := 0x04e2, win_left := 0x04e3,
    ctrl_right := 0x04e4, shift_right := 0x04e5, alt_right := 0x04e6, win_right := 0x04e7 }

/-- Key code of the letter key `a` in `sampleDeclarations` (keys group, offset 4). -/
def sampleKeyA : Nat := 0x0404

/-! ## Auxiliary definitions for the proofs

The loops of `setKeys` are factored into a transport-free plan (which frames
are built, in which order) and the sending of the planned frames. -/

/-- The statement `if (retval) retval = sendDataInternal(data); else
sendDataInternal(data);` of `setKeys`, run over a list of frames in order. -/
def sendAll (t : Transport) : List Frame → Bool → List Frame → Bool × List Frame
  | [], retval, sent => (retval, sent)
  | data :: rest, retval, sent =>
    sendAll t rest (if retval then (sendDataInternal t data sent).1 else retval)
      (sendDataInternal t data sent).2

/-- The loop header `for (uint8_t i = 0; i < keyValues.size(); i++)` shared by
the two first passes of `setKeys`, with the loop body as a parameter. -/
def indexLoop {σ : Type} (body : σ → KeyValue → σ) (keyValues : List KeyValue) :
    Nat → Nat → σ → Option σ
  | 0, _, _ => none
  | fuel + 1, i, s =>
    if h : i < keyValues.length then
      indexLoop body keyValues fuel ((i + 1) % 256) (body s keyValues[i])
    else some s

/-- The values taken by the 8-bit counter `gi` of a chunk loop
`while (gi < size) { ...; gi = gi + step; }`, in order. -/
def chunkStarts (step size : Nat) : Nat → Nat → Option (List Nat)
  | 0, _ => none
  | fuel + 1, gi =>
    if gi < size then (chunkStarts step size fuel ((gi + step) % 256)).map (fun gis => gi :: gis)
    else some []

/-- The frames built by the range-for over `KeyByColors`, in order. -/
def colorPlan (D : Declarations) (g815_target g815_feat_idx : Nat) (fuel : Nat) :
    ColorMap → Option (List Frame)
  | [] => some []
  | x :: rest =>
    if x.2.length > 0 then
      match chunkStarts 13 x.2.length fuel 0 with
      | none => none
      | some gis =>
        (colorPlan D g815_target g815_feat_idx fuel rest).map
          (fun frames => gis.map (colorFrame D g815_target g815_feat_idx x.2) ++ frames)
    else colorPlan D g815_target g815_feat_idx fuel rest

/-- The frames built by the loop over `kag`, in order. -/
def groupPlan (model : KeyboardModel) (s : SortedKeys) (fuel : Nat) :
    List Nat → Option (List Frame)
  | [] => some []
  | kag :: rest =>
    if (s.at kag).length > 0 then
      match chunkStarts (maxKeyCount (groupDataSize kag)) (s.at kag).length fuel 0 with
      | none => none
      | some gis =>
        (groupPlan model s fuel rest).map
          (fun frames =>
            (if (groupData model kag).length > 0 then gis.map (groupFrame model kag (s.at kag))
              else []) ++ frames)
    else groupPlan model s fuel rest

/-- The frames built by `setKeys` for a non-empty list, in order. -/
def setKeysPlan (D : Declarations) (fuel : Nat) (model : KeyboardModel)
    (keyValues : List KeyValue) : Option (List Frame) :=
  match model with
  | .g815 | .g915 =>
    let g815_target := match model with | .g915 => 0x01 | _ => 0xff
    let g815_feat_idx := match model with | .g915 => 0x0b | _ => 0x10
    match groupByColor keyValues fuel 0 [] with
    | none => none
    | some KeyByColors => colorPlan D g815_target g815_feat_idx fuel KeyByColors
  | _ =>
    match partitionKeys D model keyValues fuel 0 [[], [], [], [], []] with
    | none => none
    | some s => groupPlan model s fuel [0, 1, 2, 3, 4]

/-- The group vector that the switch of the partition loop offers a key value
to, before the capacity test: the index of `SortedKeys`, or `none` when the
key value is skipped on this model. -/
def sortSlot (D : Declarations) (model : KeyboardModel) (kv : KeyValue) : Option Nat :=
  let g := toKeyAddressGroup ((kv.key % 65536) >>> 8)
  if g = D.group .logo then
    match model with
    | .g610 | .g810 | .gpro => if kv.key = D.key.logo then some 0 else none
    | .g910 => some 0
    | _ => none
  else if g = D.group .indicators then some 1
  else if g = D.group .multimedia then
    match model with
    | .g610 | .g810 | .gpro => some 2
    | _ => none
  else if g = D.group .gkeys then
    match model with
    | .g910 => some 3
    | _ => none
  else if g = D.group .keys then
    match model with
    | .g512 | .g513 | .g610 | .g810 | .g910 | .gpro => some 4
    | .g410 => if kv.key < D.key.num_lock ∨ kv.key > D.key.num_dot then some 4 else none
    | _ => none
  else none

/-- The number of entries at which the capacity tests of the partition loop
stop appending to a group vector (`size() <= 1`, `<= 2`, `<= 5`, `<= 9`,
`<= 120`). -/
def sortCapacity (model : KeyboardModel) (idx : Nat) : Nat :=
  match idx with
  | 0 => match model with
    | .g910 => 3
    | _ => 2
  | 1 => 6
  | 2 => 6
  | 3 => 10
  | _ => 121

/-! ## Key groups, regions and native effects -/

/-- The enumerators of `KeyGroup`, as names. -/
inductive KeyGroup where
  | logo | indicators | gkeys | multimedia | fkeys | modifiers | arrows | numeric
  | functions | keys
  deriving DecidableEq

/-- The key arrays `keyGroupLogo`, ..., `keyGroupKeys` of the class header, as
lists of key codes; the arrays are a parameter of the embedding. -/
structure KeyGroups where
  keyGroupLogo : List Nat
  keyGroupIndicators : List Nat
  keyGroupMultimedia : List Nat
  keyGroupGKeys : List Nat
  keyGroupFKeys : List Nat
  keyGroupModifiers : List Nat
  keyGroupFunctions : List Nat
  keyGroupArrows : List Nat
  keyGroupNumeric : List Nat
  keyGroupKeys : List Nat

/-- The enumerators of `NativeEffectPart`, as names. -/
inductive NativeEffectPart where
  | all | keys | logo
  deriving DecidableEq

/-- The numeric values of the enumerators of `NativeEffectGroup` that the
encoder compares against. -/
structure NativeEffectGroup where
  color : Nat
  breathing : Nat
  cycle : Nat
  waves : Nat
  ripple : Nat

/-- The numeric values of the enumerators of `NativeEffect` that the encoder
compares against. -/
structure NativeEffect where
  off : Nat
  color : Nat
  breathing : Nat
  cycle : Nat
  waves : Nat
  hwave : Nat
  vwave : Nat
  cwave : Nat
  ripple : Nat

/-- The declarations of the class header that the effect encoder depends on:
the values of the `NativeEffect` and `NativeEffectGroup` enumerators, the
numeric value of every `NativeEffectPart` enumerator and the value of
`NativeEffectStorage::none`. -/
structure EffectDeclarations where
  effect : NativeEffect
  group : NativeEffectGroup
  part : NativeEffectPart → Nat
  storageNone : Nat

/-- The switch on `keyGroup` in `setGroupKeys`: the key array of a group. -/
def keyArrayOf (G : KeyGroups) (keyGroup : KeyGroup) : List Nat :=
  match keyGroup with
  | .logo => G.keyGroupLogo
  | .indicators => G.keyGroupIndicators
  | .gkeys => G.keyGroupGKeys
  | .multimedia => G.keyGroupMultimedia
  | .fkeys => G.keyGroupFKeys
  | .modifiers => G.keyGroupModifiers
  | .arrows => G.keyGroupArrows
  | .numeric => G.keyGroupNumeric
  | .functions => G.keyGroupFunctions
  | .keys => G.keyGroupKeys

/-- The loop `for (uint8_t i = 0; i < keyArray.size(); i++)
keyValues.push_back({keyArray[i], color});` of `setGroupKeys` and
`setAllKeys`. -/
def pushKeyArray (keyArray : List Nat) (color : Color) :
    Nat → Nat → List KeyValue → Option (List KeyValue)
  | 0, _, _ => none
  | fuel + 1, i, keyValues =>
    if h : i < keyArray.length then
      pushKeyArray keyArray color fuel ((i + 1) % 256) (keyValues ++ [⟨keyArray[i], color⟩])
    else some keyValues

/-- The method `setGroupKeys`. -/
def setGroupKeys (D : Declarations) (G : KeyGroups) (fuel : Nat) (model : KeyboardModel)
    (keyGroup : KeyGroup) (color : Color) (t : Transport) (sent : List Frame) :
    Option (Bool × List Frame) :=
  match pushKeyArray (keyArrayOf G keyGroup) color fuel 0 [] with
  | none => none
  | some keyValues => setKeys D fuel model keyValues t sent

/-- The method `setRegion`; `region` is the `uint8_t` argument. -/
def setRegion (model : KeyboardModel) (region : Nat) (color : Color) (t : Transport)
    (sent : List Frame) : Bool × List Frame :=
  match model with
  | .g213 =>
    sendDataInternal t
      (resize [0x11, 0xff, 0x0c, 0x3a, region, 0x01, color.red, color.green, color.blue] 20
        0x00) sent
  | _ => (false, sent)

/-- The loop `for (uint8_t rIndex=0x01; rIndex <= 0x05; rIndex++) if (!
setRegion(rIndex, color)) return false;` of `setAllKeys` followed by `return
true`, run over the list of the remaining values of `rIndex`. -/
def setRegions (model : KeyboardModel) (color : Color) (t : Transport) :
    List Nat → List Frame → Bool × List Frame
  | [], sent => (true, sent)
  | rIndex :: rest, sent =>
    if (setRegion model rIndex color t sent).1 then
      setRegions model color t rest (setRegion model rIndex color t sent).2
    else (false, (setRegion model rIndex color t sent).2)

/-- The indicator step of `setNativeEffect` for `part == all`: the switch on
the effect group.  The result `(false, _)` stands for the `return false` of the
switch, `(true, _)` for falling out of it. -/
def setNativeEffectIndicators (D : Declarations) (G : KeyGroups) (E : EffectDeclarations)
    (fuel : Nat) (model : KeyboardModel) (effectGroup : Nat) (color : Color) (t : Transport)
    (sent : List Frame) : Option (Bool × List Frame) :=
  if effectGroup = E.group.color ∨ effectGroup = E.group.breathing then
    match setGroupKeys D G fuel model .indicators color t sent with
    | none => none
    | some r =>
      if r.1 then
        if (commit model t r.2).1 then some (true, (commit model t r.2).2)
        else some (false, (commit model t r.2).2)
      else some (false, r.2)
  else if effectGroup = E.group.cycle ∨ effectGroup = E.group.waves ∨
      effectGroup = E.group.ripple then
    match setGroupKeys D G fuel model .indicators ⟨0xff, 0xff, 0xff⟩ t sent with
    | none => none
    | some r =>
      if r.1 then
        if (commit model t r.2).1 then some (true, (commit model t r.2).2)
        else some (false, (commit model t r.2).2)
      else some (false, r.2)
  else some (true, sent)

/-- The initial value of `data` in `setNativeEffect`; `period` is the count of
the 16-bit duration and `storage` the numeric value of the storage argument. -/
def nativeEffectData (E : EffectDeclarations) (target pb0 pb1 : Nat) (effect : Nat)
    (part : NativeEffectPart) (period : Nat) (color : Color) (storage : Nat) : Frame :=
  [0x11, target, pb0, pb1,
    E.part part % 256, ((effect % 65536) >>> 8) % 256,
    color.red, color.green, color.blue,
    ((period % 65536) >>> 8) % 256, ((period % 65536) &&& 0xff) % 256,
    ((period % 65536) >>> 8) % 256, ((period % 65536) &&& 0xff) % 256,
    ((effect % 65536) &&& 0xff) % 256,
    0x64,
    ((period % 65536) >>> 8) % 256,
    storage % 256,
    0,
    0,
    0]

/-- The byte overwrites that `setNativeEffect` applies to `data` on a g815 or
g915, after the setup frame: `data[16] = 0x01` and the switch on `part`. -/
def nativeEffectG815Data (E : EffectDeclarations) (data : Frame) (effect : Nat)
    (part : NativeEffectPart) (period : Nat) : Frame :=
  let data := data.set 16 0x01
  match part with
  | .keys =>
    let data := data.set 4 0x01
    if effect = E.effect.ripple then
      let data := data.set 9 0x00
      let data := data.set 10 ((((period % 65536) >>> 8) &&& 0xff) % 256)
      let data := data.set 11 (((period % 65536) &&& 0xff) % 256)
      data.set 12 0x00
    else data
  | .logo =>
    let data := data.set 4 0x00
    if effect = E.effect.breathing then data.set 5 0x03
    else if effect = E.effect.cwave ∨ effect = E.effect.vwave ∨ effect = E.effect.hwave then
      (data.set 5 0x02).set 13 0x64
    else if effect = E.effect.waves ∨ effect = E.effect.cycle then data.set 5 0x02
    else if effect = E.effect.ripple ∨ effect = E.effect.off then data.set 5 0x00
    else data.set 5 0x01
  | .all => data

/-- The body of the method `setNativeEffect`, with `self` standing for the
method itself in the three recursive calls; `effect` is the numeric value of
the effect, `period` the count of the 16-bit millisecond duration, `storage`
the numeric value of the storage argument.  The two switches on the model of
the source are merged: on a g213 or g413 the test for a wave effect on the logo
is not reached with `part == logo`. -/
def setNativeEffectBody (D : Declarations) (G : KeyGroups) (E : EffectDeclarations)
    (model : KeyboardModel)
    (self : Nat → NativeEffectPart → Nat → Color → Nat → Transport → List Frame →
      Option (Bool × List Frame))
    (fuel : Nat) (effect : Nat) (part : NativeEffectPart) (period : Nat) (color : Color)
    (storage : Nat) (t : Transport) (sent : List Frame) : Option (Bool × List Frame) :=
  let effectGroup := (effect % 65536) >>> 8
  if part = .all then
    match setNativeEffectIndicators D G E fuel model effectGroup color t sent with
    | none => none
    | some pre =>
      if pre.1 then
        match self effect .keys period color storage t pre.2 with
        | none => none
        | some k =>
          if k.1 then self effect .logo period color storage t k.2
          else some (false, k.2)
      else some (false, pre.2)
  else
    match model with
    | .g213 | .g413 =>
      if part = .logo then some (true, sent)
      else
        some (sendDataInternal t
          (nativeEffectData E 0xff 0x0c 0x3c effect part period color storage) sent)
    | .g410 | .g512 | .g513 | .g610 | .g810 | .gpro =>
      if effectGroup = E.group.waves ∧ part = .logo then
        self E.effect.color part 0 ⟨0x00, 0xff, 0xff⟩ storage t sent
      else
        some (sendDataInternal t
          (nativeEffectData E 0xff 0x0d 0x3c effect part period color storage) sent)
    | .g910 =>
      if effectGroup = E.group.waves ∧ part = .logo then
        self E.effect.color part 0 ⟨0x00, 0xff, 0xff⟩ storage t sent
      else
        some (sendDataInternal t
          (nativeEffectData E 0xff 0x10 0x3c effect part period color storage) sent)
    | .g815 =>
      let setup := sendDataInternal t
        (resize [0x11, 0xff, 0x0f, 0x5c, 0x01, 0x03, 0x03] 20 0x00) sent
      some (sendDataInternal t
        (nativeEffectG815Data E
          (nativeEffectData E 0xff 0x0f 0x1c effect part period color storage) effect part
          period) setup.2)
    | .g915 =>
      let setup := sendDataInternal t
        (resize [0x11, 0x01, 0x0a, 0x5c, 0x01, 0x03, 0x03] 20 0x00) sent
      some (sendDataInternal t
        (nativeEffectG815Data E
          (nativeEffectData E 0x01 0x0a 0x1c effect part period color storage) effect part
          period) setup.2)
    | _ => some (false, sent)

/-- The method `setNativeEffect`.  The fuel bounds the depth of the recursive
calls and the iterations of every 8-bit loop reached; `none` means that it ran
out. -/
def setNativeEffect (D : Declarations) (G : KeyGroups) (E : EffectDeclarations)
    (model : KeyboardModel) :
    Nat → Nat → NativeEffectPart → Nat → Color → Nat → Transport → List Frame →
      Option (Bool × List Frame)
  | 0 => fun _ _ _ _ _ _ _ => none
  | fuel + 1 => setNativeEffectBody D G E model (setNativeEffect D G E model fuel) fuel

/-- The key values collected by `setAllKeys` on the per-key models: the ten
key arrays in the order of the source, each with the colour. -/
def allKeyValues (G : KeyGroups) (color : Color) (fuel : Nat) : Option (List KeyValue) :=
  (pushKeyArray G.keyGroupLogo color fuel 0 []).bind fun kv =>
  (pushKeyArray G.keyGroupIndicators color fuel 0 kv).bind fun kv =>
  (pushKeyArray G.keyGroupMultimedia color fuel 0 kv).bind fun kv =>
  (pushKeyArray G.keyGroupGKeys color fuel 0 kv).bind fun kv =>
  (pushKeyArray G.keyGroupFKeys color fuel 0 kv).bind fun kv =>
  (pushKeyArray G.keyGroupFunctions color fuel 0 kv).bind fun kv =>
  (pushKeyArray G.keyGroupArrows color fuel 0 kv).bind fun kv =>
  (pushKeyArray G.keyGroupNumeric color fuel 0 kv).bind fun kv =>
  (pushKeyArray G.keyGroupModifiers color fuel 0 kv).bind fun kv =>
  pushKeyArray G.keyGroupKeys color fuel 0 kv

/-- The method `setAllKeys`. -/
def setAllKeys (D : Declarations) (G : KeyGroups) (E : EffectDeclarations) (fuel : Nat)
    (model : KeyboardModel) (color : Color) (t : Transport) (sent : List Frame) :
    Option (Bool × List Frame) :=
  match model with
  | .g213 => some (setRegions model color t [0x01, 0x02, 0x03, 0x04, 0x05] sent)
  | .g413 =>
    match setNativeEffect D G E model fuel E.effect.color .keys 0 color E.storageNone t sent with
    | none => none
    | some r => some (true, r.2)
  | .g410 | .g512 | .g513 | .g610 | .g810 | .g815 | .g910 | .gpro =>
    match allKeyValues G color fuel with
    | none => none
    | some keyValues => setKeys D fuel model keyValues t sent
  | _ => some (false, sent)

/-- Modelled from the spec: the key arrays are declared in the class header;
the spec describes a key group as a "named logical grouping (logo, indicators,
gkeys, fkeys, modifiers, multimedia, arrows, numeric, functions, keys)" that
"resolves to a fixed ordered set of KeyIds", without listing the members.  A
sample table in the packing of `sampleDeclarations` (address group in the high
byte, USB usage code in the low byte): the arrays hold the keys named by
`sampleDeclarations` and a few neighbouring codes, and `keyGroupKeys` only
four letters. -/
def sampleKeyGroups : KeyGroups where
  keyGroupLogo := [0x0001, 0x0002]
  keyGroupIndicators := [0x0105, 0x0103, 0x0104, 0x0102, 0x0101]
  keyGroupMultimedia := [0x02b5, 0x02b6, 0x02b7, 0x02cd, 0x02e2]
  keyGroupGKeys := [0x0301, 0x0302, 0x0303, 0x0304, 0x0305, 0x0306, 0x0307, 0x0308, 0x0309]
  keyGroupFKeys := [0x043a, 0x043b, 0x043c, 0x043d, 0x043e, 0x043f, 0x0440, 0x0441, 0x0442,
    0x0443, 0x0444, 0x0445]
  keyGroupModifiers := [0x04e0, 0x04e1, 0x04e2, 0x04e3, 0x04e4, 0x04e5, 0x04e6, 0x04e7]
  keyGroupFunctions := [0x0429, 0x0446, 0x0447, 0x0448, 0x0449, 0x044a, 0x044b, 0x044c,
    0x044d, 0x044e]
  keyGroupArrows := [0x044f, 0x0450, 0x0451, 0x0452]
  keyGroupNumeric := [0x0453, 0x0454, 0x0455, 0x0456, 0x0457, 0x0458, 0x0459, 0x045a, 0x045b,
    0x045c, 0x045d, 0x045e, 0x045f, 0x0460, 0x0461, 0x0462, 0x0463]
  keyGroupKeys := [0x0404, 0x0405, 0x0406, 0x0407]

/-- Modelled from the spec: the enumerations of the effect encoder are declared
in the class header; the spec lists the effects as "color, breathing, cycle,
wave variants, ripple" and the parts as "keys, logo, or the synthetic all".
A sample table: the effect groups numbered in that order after `off`, the
group of an effect in its high byte and the wave variation in its low byte,
the parts `keys` 0, `logo` 1 and `all` 0xff, and the storage `none` 0. -/
def sampleEffectDeclarations : EffectDeclarations where
  effect := {
    off := 0x0000, color := 0x0100, breathing := 0x0200, cycle := 0x0300, waves := 0x0400,
    hwave := 0x0401, vwave := 0x0402, cwave := 0x0403, ripple := 0x0500 }
  group := { color := 1, breathing := 2, cycle := 3, waves := 4, ripple := 5 }
  part := fun p =>
    match p with
    | .all => 0xff
    | .keys => 0x00
    | .logo => 0x01
  storageNone := 0

/-! ## Session: discovery, `open` and `close` -/

/-- The two transport back ends, selected when the class is compiled. -/
inductive Backend where
  | hidapi | libusb
  deriving DecidableEq

/-- The calls into the transport library made when a session is opened or
closed on an interface. -/
inductive LibraryCall where
  | hid_close
  | hid_exit
  | libusb_kernel_driver_active (interface_num : Nat)
  | libusb_detach_kernel_driver (interface_num : Nat)
  | libusb_claim_interface (interface_num : Nat)
  | libusb_release_interface (interface_num : Nat)
  | libusb_attach_kernel_driver (interface_num : Nat)
  | libusb_close
  | libusb_exit
  deriving DecidableEq

/-- The transport library seen from the session: the return code of a call,
given the calls made before it. -/
abbrev Library := List LibraryCall → LibraryCall → Int

/-- The members of the keyboard object that describe the session (`m_hidHandle`
and `m_ctx` as "is not NULL"), and the calls made into the transport library
so far. -/
structure Session where
  m_isOpen : Bool
  m_isKernellDetached : Bool
  m_hidHandle : Bool
  m_ctx : Bool
  calls : List LibraryCall
  deriving DecidableEq

/-- The method `isOpen`. -/
def isOpen (s : Session) : Bool := s.m_isOpen

/-- The method `close`, for either back end. -/
def close (backend : Backend) (lib : Library) (s : Session) : Bool × Session :=
  if ¬ s.m_isOpen then (true, s)
  else
    match backend with
    | .hidapi =>
      (true, { s with m_isOpen := false, m_hidHandle := false,
                      calls := s.calls ++ [.hid_close, .hid_exit] })
    | .libusb =>
      if ¬ s.m_hidHandle then (true, { s with m_isOpen := false })
      else if lib s.calls (.libusb_release_interface 1) ≠ 0 then
        (false, { s with m_isOpen := false,
                         calls := s.calls ++ [.libusb_release_interface 1] })
      else if s.m_isKernellDetached then
        (true, { s with m_isOpen := false, m_isKernellDetached := false, m_hidHandle := false,
                        m_ctx := false,
                        calls := s.calls ++ [.libusb_release_interface 1,
                          .libusb_attach_kernel_driver 1, .libusb_close, .libusb_exit] })
      else
        (true, { s with m_isOpen := false, m_hidHandle := false, m_ctx := false,
                        calls := s.calls ++ [.libusb_release_interface 1, .libusb_close,
                          .libusb_exit] })

/-- A row of the table `SupportedKeyboards` of the class header: vendor,
product, interface number and model. -/
structure SupportedKeyboard where
  vendorID : Nat
  productID : Nat
  interfaceNumber : Nat
  model : KeyboardModel
  deriving DecidableEq

/-- The struct `DeviceInfo` of the current device. -/
structure DeviceInfo where
  vendorID : Nat
  productID : Nat
  manufacturer : String
  product : String
  serialNumber : String
  path : String
  model : KeyboardModel
  deriving DecidableEq

/-- An entry of the enumeration returned by `hid_enumerate`; a string that the
device does not report is `none` (a NULL pointer in the source). -/
structure hid_device_info where
  vendor_id : Nat
  product_id : Nat
  interface_number : Int
  serial_number : Option String
  manufacturer_string : Option String
  product_string : Option String
  path : String
  deriving DecidableEq

/-- The loop over `SupportedKeyboards` for one enumerated device in the hidapi
branch of `open`: at the first row matching vendor, product and interface, the
device is left (`break`) when the serial filter is not empty, the device
reports a serial and the two differ; otherwise the current device is filled in
from it.  The conversions between narrow and wide strings are taken to be
faithful. -/
def hidapiMatch (serial : String) (dev : hid_device_info) :
    List SupportedKeyboard → DeviceInfo → DeviceInfo
  | [], currentDevice => currentDevice
  | row :: rest, currentDevice =>
    if dev.vendor_id = row.vendorID ∧ dev.product_id = row.productID ∧
        dev.interface_number = (row.interfaceNumber : Int) then
      if serial ≠ "" ∧ dev.serial_number ≠ none ∧ dev.serial_number ≠ some serial then
        currentDevice
      else
        { vendorID := dev.vendor_id
          productID := dev.product_id
          manufacturer := dev.manufacturer_string.getD currentDevice.manufacturer
          product := dev.product_string.getD currentDevice.product
          serialNumber := dev.serial_number.getD currentDevice.serialNumber
          path := dev.path
          model := row.model }
    else hidapiMatch serial dev rest currentDevice

/-- The loop `while (dev)` of the hidapi branch of `open`: the enumerated
device at which the loop stops (`none` when the enumeration is exhausted) and
the current device. -/
def hidapiSelect (SupportedKeyboards : List SupportedKeyboard) (serial : String) :
    List hid_device_info → DeviceInfo → Option hid_device_info × DeviceInfo
  | [], currentDevice => (none, currentDevice)
  | dev :: rest, currentDevice =>
    if (hidapiMatch serial dev SupportedKeyboards currentDevice).model ≠ .unknown then
      (some dev, hidapiMatch serial dev SupportedKeyboards currentDevice)
    else
      hidapiSelect SupportedKeyboards serial rest
        (hidapiMatch serial dev SupportedKeyboards currentDevice)

/-- A device of the list returned by `libusb_get_device_list`: the fields of
its descriptor, whether `libusb_open` succeeds on it, and its ASCII string
descriptors (`none` when `libusb_get_string_descriptor_ascii` does not return
at least 1). -/
structure libusb_device where
  idVendor : Nat
  idProduct : Nat
  iSerialNumber : Nat
  iManufacturer : Nat
  iProduct : Nat
  opens : Bool
  string_descriptor : Nat → Option String

/-- The first loop over `SupportedKeyboards` in the libusb branch of `open`,
entered when the serial of the device equals the filter: the first row with
the vendor and product of the device fills in the current device. -/
def libusbMatchSerial (serial : String) (device : libusb_device) :
    List SupportedKeyboard → DeviceInfo → DeviceInfo
  | [], currentDevice => currentDevice
  | row :: rest, currentDevice =>
    if device.idVendor = row.vendorID ∧ device.idProduct = row.productID then
      { currentDevice with
        manufacturer :=
          (device.string_descriptor device.iManufacturer).getD currentDevice.manufacturer
        product := (device.string_descriptor device.iProduct).getD currentDevice.product
        serialNumber := serial
        vendorID := device.idVendor
        productID := device.idProduct
        model := row.model }
    else libusbMatchSerial serial device rest currentDevice

/-- The second loop over `SupportedKeyboards` in the libusb branch of `open`
("find first supported device"): a row with the vendor and product of the
device fills in the current device when the device can be opened; when it
cannot, the loop goes on with the next row. -/
def libusbMatch (device : libusb_device) : List SupportedKeyboard → DeviceInfo → DeviceInfo
  | [], currentDevice => currentDevice
  | row :: rest, currentDevice =>
    if device.idVendor = row.vendorID ∧ device.idProduct = row.productID then
      if ¬ device.opens then libusbMatch device rest currentDevice
      else
        { currentDevice with
          vendorID := device.idVendor
          productID := device.idProduct
          model := row.model
          manufacturer :=
            (device.string_descriptor device.iManufacturer).getD currentDevice.manufacturer
          product := (device.string_descriptor device.iProduct).getD currentDevice.product
          serialNumber :=
            (device.string_descriptor device.iSerialNumber).getD currentDevice.serialNumber }
    else libusbMatch device rest currentDevice

/-- The loop over the device list of the libusb branch of `open`: the device at
which the loop stops (`none` when the list is exhausted) and the current
device. -/
def libusbSelect (SupportedKeyboards : List SupportedKeyboard) (vendorID productID : Nat)
    (serial : String) : List libusb_device → DeviceInfo → Option libusb_device × DeviceInfo
  | [], currentDevice => (none, currentDevice)
  | device :: rest, currentDevice =>
    if vendorID ≠ 0 ∧ device.idVendor ≠ vendorID then
      libusbSelect SupportedKeyboards vendorID productID serial rest currentDevice
    else if productID ≠ 0 ∧ device.idProduct ≠ productID then
      libusbSelect SupportedKeyboards vendorID productID serial rest currentDevice
    else if serial ≠ "" then
      if device.iSerialNumber ≤ 0 then
        libusbSelect SupportedKeyboards vendorID productID serial rest currentDevice
      else if ¬ device.opens then
        libusbSelect SupportedKeyboards vendorID productID serial rest currentDevice
      else if device.string_descriptor device.iSerialNumber = some serial then
        if (libusbMatch device SupportedKeyboards
            (libusbMatchSerial serial device SupportedKeyboards currentDevice)).model ≠
            .unknown then
          (some device, libusbMatch device SupportedKeyboards
            (libusbMatchSerial serial device SupportedKeyboards currentDevice))
        else
          libusbSelect SupportedKeyboards vendorID productID serial rest
            (libusbMatch device SupportedKeyboards
              (libusbMatchSerial serial device SupportedKeyboards currentDevice))
      else libusbSelect SupportedKeyboards vendorID productID serial rest currentDevice
    else if (libusbMatch device SupportedKeyboards currentDevice).model ≠ .unknown then
      (some device, libusbMatch device SupportedKeyboards currentDevice)
    else
      libusbSelect SupportedKeyboards vendorID productID serial rest
        (libusbMatch device SupportedKeyboards currentDevice)

/-- Modelled from the spec: the table `SupportedKeyboards` is declared in the
class header; the spec describes it as an "ordered list of (vendorID,
productID, interfaceNumber, Model) tuples".  A table with one row, for a g810
on interface 1. -/
def sampleSupportedKeyboards : List SupportedKeyboard :=
  [⟨0x046d, 0xc331, 1, .g810⟩]

/-- The current device at the start of `open`: the model is reset to
`unknown`. -/
def sampleUnknownDevice : DeviceInfo :=
  ⟨0, 0, "", "", "", "", .unknown⟩

/-! ## The on-board mode, and the claim of the interface in `open` -/

/-- The method `setOnBoardMode`; `onBoardMode` is the numeric value of the
enumerator passed in, and the cast to `uint8_t` keeps its low byte. -/
def setOnBoardMode (model : KeyboardModel) (onBoardMode : Nat) (t : Transport)
    (sent : List Frame) : Bool × List Frame :=
  match model with
  | .g815 | .g915 =>
    let g815_target := match model with | .g915 => 0x01 | _ => 0xff
    let g815_feat_idx := match model with | .g915 => 0x15 | _ => 0x11
    sendDataInternal t
      (resize [0x11, g815_target, g815_feat_idx, 0x1a, onBoardMode % 256] 20 0x00) sent
  | _ => (false, sent)

/-- The statement `if (libusb_claim_interface(m_hidHandle, interface_num) < 0)
{ ... return false; } m_isOpen = true; return true;` at the end of the libusb
branch of `open`. -/
def libusbClaimInterface (lib : Library) (interface_num : Nat) (s : Session) :
    Bool × Session :=
  if lib s.calls (.libusb_claim_interface interface_num) < 0 then
    if s.m_isKernellDetached then
      (false, { s with m_isKernellDetached := false, m_ctx := false,
                       calls := s.calls ++ [.libusb_claim_interface interface_num,
                         .libusb_attach_kernel_driver interface_num, .libusb_exit] })
    else
      (false, { s with m_ctx := false,
                       calls := s.calls ++ [.libusb_claim_interface interface_num,
                         .libusb_exit] })
  else
    (true, { s with m_isOpen := true,
                    calls := s.calls ++ [.libusb_claim_interface interface_num] })

/-- The statements of the libusb branch of `open` that follow the acquisition
of the device handle: the choice of `interface_num` (2 on a g915, 1
otherwise), the detaching of an active kernel driver, and the claim of the
interface.  The session is entered with `m_hidHandle` not NULL. -/
def libusbClaim (lib : Library) (model : KeyboardModel) (s : Session) : Bool × Session :=
  let interface_num := match model with | .g915 => 2 | _ => 1
  if lib s.calls (.libusb_kernel_driver_active interface_num) = 1 then
    if lib (s.calls ++ [.libusb_kernel_driver_active interface_num])
        (.libusb_detach_kernel_driver interface_num) ≠ 0 then
      (false, { s with m_ctx := false,
                       calls := s.calls ++ [.libusb_kernel_driver_active interface_num,
                         .libusb_detach_kernel_driver interface_num, .libusb_exit] })
    else
      libusbClaimInterface lib interface_num
        { s with m_isKernellDetached := true,
                 calls := s.calls ++ [.libusb_kernel_driver_active interface_num,
                   .libusb_detach_kernel_driver interface_num] }
  else
    libusbClaimInterface lib interface_num
      { s with calls := s.calls ++ [.libusb_kernel_driver_active interface_num] }

/-! ## `sendDataInternal` and `setKeys` with the hidapi back end

With the hidapi back end `sendDataInternal` calls `open` again before every
write, and `open` rewrites `currentDevice`; the encoders read
`currentDevice.model` again for every group frame.  The definitions of this
section carry `currentDevice` through the sends. -/

/-- What the hidapi library answers during one call of `sendDataInternal`: the
result of `hid_init`, the enumeration returned by `hid_enumerate` for a vendor
and a product, whether `hid_open_path` returns a handle for a path, and the
result of `hid_write` for a buffer. -/
structure HidapiCalls where
  hid_init : Int
  hid_enumerate : Nat → Nat → List hid_device_info
  hid_open_path : String → Bool
  hid_write : Frame → Int

/-- The hidapi library seen from the encoders: its answers during a send, given
how many frames were handed over before. -/
abbrev HidapiLibrary := Nat → HidapiCalls

/-- The hidapi branch of `open(vendorID, productID, serial)`: the result and the
value of `currentDevice` it leaves.  The model is reset to `unknown`, the
discovery loop fills in the first supported device, and the model is `unknown`
again when the loop found none.  The leading `if (m_isOpen && ! close())` never
returns, as `close` returns `true` with this back end; the conversions between
narrow and wide strings are taken to be faithful. -/
def openHidapi (SupportedKeyboards : List SupportedKeyboard) (calls : HidapiCalls)
    (vendorID productID : Nat) (serial : String) (currentDevice : DeviceInfo) :
    Bool × DeviceInfo :=
  let currentDevice := { currentDevice with model := KeyboardModel.unknown }
  if calls.hid_init < 0 then (false, currentDevice)
  else
    let found :=
      hidapiSelect SupportedKeyboards serial (calls.hid_enumerate vendorID productID)
        currentDevice
    match found.1 with
    | none => (false, { found.2 with model := KeyboardModel.unknown })
    | some _ =>
      if calls.hid_open_path found.2.path then (true, found.2) else (false, found.2)

/-- The hidapi branch of `sendDataInternal`: for a non-empty buffer the device
is opened again with the vendor, product and serial of `currentDevice`; the
result is `false` when this `open` fails or when `hid_write` returns a negative
value.  The buffer is counted as handed over in every case; the third
component is `currentDevice` after the call. -/
def sendDataInternalHidapi (SupportedKeyboards : List SupportedKeyboard) (lib : HidapiLibrary)
    (data : Frame) (sent : List Frame) (currentDevice : DeviceInfo) :
    Bool × List Frame × DeviceInfo :=
  if data.length > 0 then
    let reopened :=
      openHidapi SupportedKeyboards (lib sent.length) currentDevice.vendorID
        currentDevice.productID currentDevice.serialNumber currentDevice
    if ¬ reopened.1 then (false, sent ++ [data], reopened.2)
    else if (lib sent.length).hid_write data < 0 then (false, sent ++ [data], reopened.2)
    else (true, sent ++ [data], reopened.2)
  else (false, sent, currentDevice)

/-- The `while (gi < x.second.size())` loop of the colour-batched branch with
the hidapi back end; the header bytes were chosen before the loop. -/
def sendColorChunksHidapi (SupportedKeyboards : List SupportedKeyboard) (lib : HidapiLibrary)
    (D : Declarations) (g815_target g815_feat_idx : Nat) (keys : List KeyValue) :
    Nat → Nat → Bool → List Frame → DeviceInfo → Option (Bool × List Frame × DeviceInfo)
  | 0, _, _, _, _ => none
  | fuel + 1, gi, retval, sent, currentDevice =>
    if gi < keys.length then
      let r := sendDataInternalHidapi SupportedKeyboards lib
        (colorFrame D g815_target g815_feat_idx keys gi) sent currentDevice
      let retval := if retval then r.1 else retval
      sendColorChunksHidapi SupportedKeyboards lib D g815_target g815_feat_idx keys fuel
        ((gi + 13) % 256) retval r.2.1 r.2.2
    else some (retval, sent, currentDevice)

/-- The range-for over `KeyByColors` of the colour-batched branch with the
hidapi back end. -/
def sendColorsHidapi (SupportedKeyboards : List SupportedKeyboard) (lib : HidapiLibrary)
    (D : Declarations) (g815_target g815_feat_idx : Nat) (fuel : Nat) :
    ColorMap → Bool → List Frame → DeviceInfo → Option (Bool × List Frame × DeviceInfo)
  | [], retval, sent, currentDevice => some (retval, sent, currentDevice)
  | x :: rest, retval, sent, currentDevice =>
    if x.2.length > 0 then
      match sendColorChunksHidapi SupportedKeyboards lib D g815_target g815_feat_idx x.2 fuel 0
          retval sent currentDevice with
      | none => none
      | some r =>
        sendColorsHidapi SupportedKeyboards lib D g815_target g815_feat_idx fuel rest r.1 r.2.1
          r.2.2
    else
      sendColorsHidapi SupportedKeyboards lib D g815_target g815_feat_idx fuel rest retval sent
        currentDevice

/-- The `while (gi < SortedKeys[kag].size())` loop of the group-addressed
branch with the hidapi back end: `getKeyGroupAddress` reads the model that the
preceding send has left in `currentDevice`. -/
def sendGroupChunksHidapi (SupportedKeyboards : List SupportedKeyboard) (lib : HidapiLibrary)
    (kag : Nat) (keys : List KeyValue) :
    Nat → Nat → Bool → List Frame → DeviceInfo → Option (Bool × List Frame × DeviceInfo)
  | 0, _, _, _, _ => none
  | fuel + 1, gi, retval, sent, currentDevice =>
    if gi < keys.length then
      if (groupData currentDevice.model kag).length > 0 then
        let r := sendDataInternalHidapi SupportedKeyboards lib
          (groupFrame currentDevice.model kag keys gi) sent currentDevice
        let retval := if retval then r.1 else retval
        sendGroupChunksHidapi SupportedKeyboards lib kag keys fuel
          ((gi + maxKeyCount (groupDataSize kag)) % 256) retval r.2.1 r.2.2
      else
        sendGroupChunksHidapi SupportedKeyboards lib kag keys fuel
          ((gi + maxKeyCount (groupDataSize kag)) % 256) retval sent currentDevice
    else some (retval, sent, currentDevice)

/-- The loop `for (uint8_t kag = 0; kag < 5; kag++)` of the group-addressed
branch with the hidapi back end. -/
def sendGroupsHidapi (SupportedKeyboards : List SupportedKeyboard) (lib : HidapiLibrary)
    (s : SortedKeys) (fuel : Nat) :
    List Nat → Bool → List Frame → DeviceInfo → Option (Bool × List Frame × DeviceInfo)
  | [], retval, sent, currentDevice => some (retval, sent, currentDevice)
  | kag :: rest, retval, sent, currentDevice =>
    if (s.at kag).length > 0 then
      match sendGroupChunksHidapi SupportedKeyboards lib kag (s.at kag) fuel 0 retval sent
          currentDevice with
      | none => none
      | some r => sendGroupsHidapi SupportedKeyboards lib s fuel rest r.1 r.2.1 r.2.2
    else sendGroupsHidapi SupportedKeyboards lib s fuel rest retval sent currentDevice

/-- The method `setKeys` with the hidapi back end.  The switch on the model and
the partition loop run before the first send, on the model `currentDevice` has
at the call. -/
def setKeysHidapi (SupportedKeyboards : List SupportedKeyboard) (lib : HidapiLibrary)
    (D : Declarations) (fuel : Nat) (keyValues : List KeyValue) (sent : List Frame)
    (currentDevice : DeviceInfo) : Option (Bool × List Frame × DeviceInfo) :=
  if keyValues.isEmpty then some (false, sent, currentDevice)
  else
    let retval := true
    match currentDevice.model with
    | .g815 | .g915 =>
      let g815_target := match currentDevice.model with | .g915 => 0x01 | _ => 0xff
      let g815_feat_idx := match currentDevice.model with | .g915 => 0x0b | _ => 0x10
      match groupByColor keyValues fuel 0 [] with
      | none => none
      | some KeyByColors =>
        sendColorsHidapi SupportedKeyboards lib D g815_target g815_feat_idx fuel KeyByColors
          retval sent currentDevice
    | _ =>
      match partitionKeys D currentDevice.model keyValues fuel 0 [[], [], [], [], []] with
      | none => none
      | some s =>
        sendGroupsHidapi SupportedKeyboards lib s fuel [0, 1, 2, 3, 4] retval sent currentDevice

/-- A g810 as `open` leaves it in `currentDevice` with `sampleSupportedKeyboards`
when the device reports no strings. -/
def sampleDevice : DeviceInfo :=
  ⟨0x046d, 0xc331, "", "", "", "/dev/hidraw0", .g810⟩

/-- A hidapi library in which the keyboard of `sampleDevice` is plugged in and
every call succeeds. -/
def sampleHidapiPresent : HidapiCalls where
  hid_init := 0
  hid_enumerate := fun _ _ => [⟨0x046d, 0xc331, 1, none, none, none, "/dev/hidraw0"⟩]
  hid_open_path := fun _ => true
  hid_write := fun data => data.length

/-- A hidapi library in which no device is enumerated: the keyboard has been
unplugged. -/
def sampleHidapiAbsent : HidapiCalls where
  hid_init := 0
  hid_enumerate := fun _ _ => []
  hid_open_path := fun _ => false
  hid_write := fun _ => -1

/-! ## Theorems -/

/-! ### Sending a planned list of frames -/

theorem sendAll_append (t : Transport) :
    ∀ (a b : List Frame) (retval : Bool) (sent : List Frame),
      sendAll t (a ++ b) retval sent =
        sendAll t b (sendAll t a retval sent).1 (sendAll t a retval sent).2 := by
  intro a
  induction a with
  | nil => intro b retval sent; rfl
  | cons f fs ih => intro b retval sent; simp only [List.cons_append, sendAll]; exact ih _ _ _

/-- The frames handed over by `sendAll`, when none of them is empty. -/
theorem sendAll_snd (t : Transport) :
    ∀ (frames : List Frame) (retval : Bool) (sent : List Frame),
      (∀ f ∈ frames, 0 < f.length) → (sendAll t frames retval sent).2 = sent ++ frames := by
  intro frames
  induction frames with
  | nil => intro retval sent _; simp [sendAll]
  | cons f fs ih =>
    intro retval sent h
    have hf : 0 < f.length := h f (List.mem_cons_self _ _)
    have hs : (sendDataInternal t f sent).2 = sent ++ [f] := by
      simp [sendDataInternal, hf]
    rw [sendAll, ih _ _ (fun g hg => h g (List.mem_cons_of_mem _ hg)), hs]
    simp

/-- The result of `sendAll` is the conjunction of the initial value and of the
outcomes of all sends. -/
theorem sendAll_fst (t : Transport) :
    ∀ (frames : List Frame) (retval : Bool) (sent : List Frame),
      (∀ f ∈ frames, 0 < f.length) →
      ((sendAll t frames retval sent).1 = true ↔
        retval = true ∧ ∀ k (h : k < frames.length), t (sent.length + k) frames[k] = true) := by
  intro frames
  induction frames with
  | nil => intro retval sent _; simp [sendAll]
  | cons f fs ih =>
    intro retval sent h
    have hf : 0 < f.length := h f (List.mem_cons_self _ _)
    have hs : sendDataInternal t f sent = (t sent.length f, sent ++ [f]) := by
      simp [sendDataInternal, hf]
    rw [sendAll, ih _ _ (fun g hg => h g (List.mem_cons_of_mem _ hg)), hs]
    simp only [List.length_append, List.length_singleton, List.length_cons]
    constructor
    · rintro ⟨h1, h2⟩
      have hr : retval = true := by
        cases retval with
        | false => simp at h1
        | true => rfl
      subst hr
      simp only [if_true] at h1
      refine ⟨rfl, ?_⟩
      intro k hk
      cases k with
      | zero => simpa using h1
      | succ k =>
        have := h2 k (by omega)
        simpa [Nat.add_assoc, Nat.add_comm 1 k] using this
    · rintro ⟨hr, h2⟩
      subst hr
      refine ⟨?_, ?_⟩
      · simpa using h2 0 (by omega)
      · intro k hk
        have := h2 (k + 1) (by omega)
        simpa [Nat.add_assoc, Nat.add_comm 1 k] using this

/-! ### The loops and their plans -/

theorem groupByColor_eq_indexLoop (keyValues : List KeyValue) :
    ∀ (fuel i : Nat) (m : ColorMap),
      groupByColor keyValues fuel i m = indexLoop fileKey keyValues fuel i m := by
  intro fuel
  induction fuel with
  | zero => intro i m; rfl
  | succ n ih => intro i m; rw [groupByColor, indexLoop]; simp only [ih]

theorem partitionKeys_eq_indexLoop (D : Declarations) (model : KeyboardModel)
    (keyValues : List KeyValue) :
    ∀ (fuel i : Nat) (s : SortedKeys),
      partitionKeys D model keyValues fuel i s =
        indexLoop (sortKey D model) keyValues fuel i s := by
  intro fuel
  induction fuel with
  | zero => intro i s; rfl
  | succ n ih => intro i s; rw [partitionKeys, indexLoop]; simp only [ih]

/-- A list of 256 or more key values keeps the 8-bit index below the size for
ever: the loop never returns. -/
theorem indexLoop_diverges {σ : Type} (body : σ → KeyValue → σ) (keyValues : List KeyValue)
    (h : 256 ≤ keyValues.length) :
    ∀ (fuel i : Nat) (s : σ), i < 256 → indexLoop body keyValues fuel i s = none := by
  intro fuel
  induction fuel with
  | zero => intro i s _; rfl
  | succ n ih =>
    intro i s hi
    have hlt : i < keyValues.length := by omega
    rw [indexLoop, dif_pos hlt]
    exact ih _ _ (Nat.mod_lt _ (by decide))

/-- On a list of fewer than 256 key values the loop is a left fold over the
remaining key values, provided the fuel covers them. -/
theorem indexLoop_eq {σ : Type} (body : σ → KeyValue → σ) (keyValues : List KeyValue)
    (h : keyValues.length < 256) :
    ∀ (fuel i : Nat) (s : σ), i ≤ keyValues.length →
      indexLoop body keyValues fuel i s =
        if keyValues.length - i < fuel then some ((keyValues.drop i).foldl body s) else none := by
  intro fuel
  induction fuel with
  | zero => intro i s _; simp [indexLoop]
  | succ n ih =>
    intro i s hi
    rw [indexLoop]
    by_cases hlt : i < keyValues.length
    · have hmod : (i + 1) % 256 = i + 1 := Nat.mod_eq_of_lt (by omega)
      rw [dif_pos hlt, hmod, ih (i + 1) _ (by omega), List.drop_eq_getElem_cons hlt,
        List.foldl_cons]
      by_cases hf : keyValues.length - (i + 1) < n
      · rw [if_pos hf, if_pos (by omega)]
      · rw [if_neg hf, if_neg (by omega)]
    · have hi2 : i = keyValues.length := by omega
      rw [dif_neg hlt, if_pos (by omega), hi2, List.drop_length]
      rfl

/-- The colour chunk loop sends the frames of the chunk starts visited by its
counter. -/
theorem sendColorChunks_eq_starts (D : Declarations) (t : Transport) (tg fi : Nat)
    (keys : List KeyValue) :
    ∀ (fuel gi : Nat) (retval : Bool) (sent : List Frame),
      sendColorChunks D t tg fi keys fuel gi retval sent =
        (chunkStarts 13 keys.length fuel gi).map
          (fun gis => sendAll t (gis.map (colorFrame D tg fi keys)) retval sent) := by
  intro fuel
  induction fuel with
  | zero => intro gi retval sent; rfl
  | succ n ih =>
    intro gi retval sent
    rw [sendColorChunks, chunkStarts]
    by_cases hg : gi < keys.length
    · rw [if_pos hg, if_pos hg, Option.map_map]
      simp only [ih]
      rfl
    · rw [if_neg hg, if_neg hg]; rfl

/-- The group chunk loop sends the frames of the chunk starts visited by its
counter when the group has a header, and nothing otherwise. -/
theorem sendGroupChunks_eq_starts (model : KeyboardModel) (t : Transport) (kag : Nat)
    (keys : List KeyValue) :
    ∀ (fuel gi : Nat) (retval : Bool) (sent : List Frame),
      sendGroupChunks model t kag keys fuel gi retval sent =
        (chunkStarts (maxKeyCount (groupDataSize kag)) keys.length fuel gi).map
          (fun gis =>
            sendAll t
              (if (groupData model kag).length > 0 then gis.map (groupFrame model kag keys)
                else []) retval sent) := by
  intro fuel
  induction fuel with
  | zero => intro gi retval sent; rfl
  | succ n ih =>
    intro gi retval sent
    rw [sendGroupChunks, chunkStarts]
    by_cases hg : gi < keys.length
    · rw [if_pos hg, if_pos hg, Option.map_map]
      by_cases hd : (groupData model kag).length > 0
      · simp only [ih, if_pos hd]
        rfl
      · simp only [ih, if_neg hd]
        rfl
    · rw [if_neg hg, if_neg hg]
      by_cases hd : (groupData model kag).length > 0
      · simp only [if_pos hd]; rfl
      · simp only [if_neg hd]; rfl

/-- Every chunk start visited is below the size. -/
theorem chunkStarts_lt (step size : Nat) :
    ∀ (fuel gi : Nat) (gis : List Nat), chunkStarts step size fuel gi = some gis →
      ∀ g ∈ gis, g < size := by
  intro fuel
  induction fuel with
  | zero => intro gi gis h; simp [chunkStarts] at h
  | succ n ih =>
    intro gi gis h
    rw [chunkStarts] at h
    by_cases hg : gi < size
    · rw [if_pos hg] at h
      cases hrec : chunkStarts step size n ((gi + step) % 256) with
      | none => rw [hrec] at h; simp at h
      | some rest =>
        rw [hrec] at h
        simp only [Option.map_some', Option.some.injEq] at h
        subst h
        intro g hgm
        rcases List.mem_cons.1 hgm with rfl | hgm
        · exact hg
        · exact ih _ _ hrec g hgm
    · rw [if_neg hg] at h
      simp only [Option.some.injEq] at h
      subst h
      simp

/-- Closed form of the chunk starts when the counter does not wrap: the
multiples `step * j, ..., step * (j + k - 1)`. -/
theorem chunkStarts_eq (step size : Nat) :
    ∀ (k j fuel : Nat), k < fuel → step * (j + k) < 256 → size ≤ step * (j + k) →
      (∀ i, i < k → step * (j + i) < size) →
      chunkStarts step size fuel (step * j) = some ((List.range' j k).map (fun i => step * i)) := by
  intro k
  induction k with
  | zero =>
    intro j fuel hf _ hle _
    obtain ⟨f, rfl⟩ : ∃ f, fuel = f + 1 := ⟨fuel - 1, by omega⟩
    have : ¬ step * j < size := by simpa using hle
    simp [chunkStarts, this]
  | succ k ih =>
    intro j fuel hf hwrap hle hlt
    obtain ⟨f, rfl⟩ : ∃ f, fuel = f + 1 := ⟨fuel - 1, by omega⟩
    have h0 : step * j < size := by simpa using hlt 0 (Nat.succ_pos k)
    have hjk : j + 1 + k = j + (k + 1) := by omega
    have hmono : step * (j + 1) ≤ step * (j + (k + 1)) := Nat.mul_le_mul_left _ (by omega)
    have hnext : (step * j + step) % 256 = step * (j + 1) := by
      rw [← Nat.mul_succ]; exact Nat.mod_eq_of_lt (Nat.lt_of_le_of_lt hmono hwrap)
    have hle2 : size ≤ step * (j + 1 + k) := by rw [hjk]; exact hle
    have hwrap2 : step * (j + 1 + k) < 256 := by rw [hjk]; exact hwrap
    have hlt2 : ∀ i, i < k → step * (j + 1 + i) < size := by
      intro i hi
      have : j + 1 + i = j + (i + 1) := by omega
      rw [this]; exact hlt (i + 1) (by omega)
    rw [chunkStarts, if_pos h0, hnext, ih (j + 1) f (by omega) hwrap2 hle2 hlt2,
      List.range'_succ]
    rfl

/-- The counter of a chunk loop leaves the loop as soon as it reaches a value
not below the size. -/
theorem chunkStarts_isSome (step size : Nat) :
    ∀ (k fuel gi : Nat), k < fuel → gi < 256 → size ≤ (gi + step * k) % 256 →
      (chunkStarts step size fuel gi).isSome = true := by
  intro k
  induction k with
  | zero =>
    intro fuel gi hf hgi hle
    obtain ⟨f, rfl⟩ : ∃ f, fuel = f + 1 := ⟨fuel - 1, by omega⟩
    have : ¬ gi < size := by
      rw [Nat.mul_zero, Nat.add_zero, Nat.mod_eq_of_lt hgi] at hle; omega
    simp [chunkStarts, this]
  | succ k ih =>
    intro fuel gi hf hgi hle
    obtain ⟨f, rfl⟩ : ∃ f, fuel = f + 1 := ⟨fuel - 1, by omega⟩
    rw [chunkStarts]
    by_cases hg : gi < size
    · have hmod : ((gi + step) % 256 + step * k) % 256 = (gi + step * (k + 1)) % 256 := by
        rw [Nat.mul_succ]; omega
      have hnext : size ≤ ((gi + step) % 256 + step * k) % 256 := by rw [hmod]; exact hle
      rw [if_pos hg]
      have := ih f _ (by omega) (Nat.mod_lt _ (by decide)) hnext
      cases hrec : chunkStarts step size f ((gi + step) % 256) with
      | none => rw [hrec] at this; simp at this
      | some rest => simp
    · simp [hg]

theorem sendColors_eq_plan (D : Declarations) (t : Transport) (tg fi fuel : Nat) :
    ∀ (m : ColorMap) (retval : Bool) (sent : List Frame),
      sendColors D t tg fi fuel m retval sent =
        (colorPlan D tg fi fuel m).map (fun frames => sendAll t frames retval sent) := by
  intro m
  induction m with
  | nil => intro retval sent; rfl
  | cons x rest ih =>
    intro retval sent
    rw [sendColors, colorPlan]
    by_cases hx : x.2.length > 0
    · rw [if_pos hx, if_pos hx, sendColorChunks_eq_starts]
      cases hcs : chunkStarts 13 x.2.length fuel 0 with
      | none => rfl
      | some gis =>
        simp only [Option.map_some', ih, Option.map_map]
        congr 1
        funext frames
        simp [sendAll_append]
    · rw [if_neg hx, if_neg hx]; exact ih _ _

theorem sendGroups_eq_plan (model : KeyboardModel) (t : Transport) (s : SortedKeys)
    (fuel : Nat) :
    ∀ (kags : List Nat) (retval : Bool) (sent : List Frame),
      sendGroups model t s fuel kags retval sent =
        (groupPlan model s fuel kags).map (fun frames => sendAll t frames retval sent) := by
  intro kags
  induction kags with
  | nil => intro retval sent; rfl
  | cons kag rest ih =>
    intro retval sent
    rw [sendGroups, groupPlan]
    by_cases hx : (s.at kag).length > 0
    · rw [if_pos hx, if_pos hx, sendGroupChunks_eq_starts]
      cases hcs : chunkStarts (maxKeyCount (groupDataSize kag)) (s.at kag).length fuel 0 with
      | none => rfl
      | some gis =>
        simp only [Option.map_some', ih, Option.map_map]
        congr 1
        funext frames
        simp [sendAll_append]
    · rw [if_neg hx, if_neg hx]; exact ih _ _

/-- For a non-empty list `setKeys` sends, in order, the frames of its plan;
whether it returns does not depend on the transport. -/
theorem setKeys_eq_plan (D : Declarations) (fuel : Nat) (model : KeyboardModel)
    (keyValues : List KeyValue) (t : Transport) (sent : List Frame) (hne : keyValues ≠ []) :
    setKeys D fuel model keyValues t sent =
      (setKeysPlan D fuel model keyValues).map (fun frames => sendAll t frames true sent) := by
  have hemp : keyValues.isEmpty = false := by
    cases keyValues with
    | nil => exact absurd rfl hne
    | cons a l => rfl
  unfold setKeys setKeysPlan
  simp only [hemp, Bool.false_eq_true, if_false]
  cases model <;> simp only [] <;>
    first
    | (cases partitionKeys D _ keyValues fuel 0 [[], [], [], [], []] with
        | none => rfl
        | some s => exact sendGroups_eq_plan _ t s fuel _ _ _)
    | (cases groupByColor keyValues fuel 0 [] with
        | none => rfl
        | some m => exact sendColors_eq_plan D t _ _ fuel m _ _)

theorem setKeys_diverges (D : Declarations) (model : KeyboardModel)
    (keyValues : List KeyValue) (h : 256 ≤ keyValues.length) (fuel : Nat) (t : Transport)
    (sent : List Frame) : setKeys D fuel model keyValues t sent = none := by
  have hne : keyValues ≠ [] := by
    intro h0; rw [h0] at h; simp at h
  have h1 : groupByColor keyValues fuel 0 [] = none := by
    rw [groupByColor_eq_indexLoop]; exact indexLoop_diverges _ _ h _ _ _ (by decide)
  have h2 : partitionKeys D model keyValues fuel 0 [[], [], [], [], []] = none := by
    rw [partitionKeys_eq_indexLoop]; exact indexLoop_diverges _ _ h _ _ _ (by decide)
  rw [setKeys_eq_plan D fuel model keyValues t sent hne]
  unfold setKeysPlan
  cases model <;> simp only [h1, h2] <;> rfl

/-! ### The frames -/

/-- An indexed loop over `i < n` that reads `keys[gi+i]` when it exists is a
fold over the chunk of at most `n` entries starting at `gi`. -/
theorem foldl_range_getElem {β : Type} (keys : List KeyValue) (f : β → KeyValue → β)
    (gi : Nat) :
    ∀ (n : Nat) (d : β),
      (List.range n).foldl (fun d i => if h : gi + i < keys.length then f d keys[gi + i] else d)
          d = ((keys.drop gi).take n).foldl f d := by
  intro n
  induction n with
  | zero => intro d; rfl
  | succ n ih =>
    intro d
    rw [List.range_succ, List.foldl_append, ih, List.take_succ, List.foldl_append,
      List.getElem?_drop]
    by_cases h : gi + n < keys.length
    · simp [h, List.getElem?_eq_getElem h]
    · have hnone : keys[gi + n]? = none := List.getElem?_eq_none (by omega)
      simp [h, hnone]

theorem foldl_append_flatMap {α : Type} (q : α → Frame) :
    ∀ (l : List α) (d : Frame), l.foldl (fun d a => d ++ q a) d = d ++ l.flatMap q := by
  intro l
  induction l with
  | nil => intro d; simp
  | cons a l ih => intro d; rw [List.foldl_cons, ih, List.flatMap_cons, List.append_assoc]

theorem length_flatMap_quad (q : KeyValue → Frame) (hq : ∀ kv, (q kv).length = 4) :
    ∀ l : List KeyValue, (l.flatMap q).length = 4 * l.length := by
  intro l
  induction l with
  | nil => rfl
  | cons a l ih => rw [List.flatMap_cons, List.length_append, ih, hq, List.length_cons]; omega

theorem resize_of_le (d : Frame) (n v : Nat) (h : d.length ≤ n) :
    resize d n v = d ++ List.replicate (n - d.length) v := by
  rw [resize, List.take_of_length_le h]

theorem length_resize (d : Frame) (n v : Nat) : (resize d n v).length = n := by
  rw [resize, List.length_append, List.length_take, List.length_replicate]; omega

theorem lowByte_eq (k : Nat) : ((k % 65536) &&& 0x00ff) % 256 = k &&& 0xff := by
  have h1 := Nat.and_pow_two_sub_one_eq_mod k 8
  have h2 := Nat.and_pow_two_sub_one_eq_mod (k % 65536) 8
  norm_num at h1 h2
  rw [h1, h2]; omega

/-- Layout of a group frame whose header has eight bytes: header, the
quadruples of the chunk, zero bytes up to the frame length. -/
theorem groupFrame_eq (model : KeyboardModel) (kag : Nat) (keys : List KeyValue) (gi : Nat)
    (hk : kag ≤ 4) (hh : (groupData model kag).length = 8) :
    groupFrame model kag keys gi =
      groupData model kag ++
        ((keys.drop gi).take ((groupDataSize kag - 8) / 4)).flatMap
          (fun kv => [kv.key &&& 0xff, kv.color.red, kv.color.green, kv.color.blue]) ++
        List.replicate
          (groupDataSize kag - 8 - 4 * ((keys.drop gi).take ((groupDataSize kag - 8) / 4)).length)
          0 := by
  have hmk : maxKeyCount (groupDataSize kag) = (groupDataSize kag - 8) / 4 := by
    have : kag = 0 ∨ kag = 1 ∨ kag = 2 ∨ kag = 3 ∨ kag = 4 := by omega
    rcases this with h | h | h | h | h <;> subst h <;> decide
  have hfold := foldl_range_getElem keys
    (fun d kv => d ++ [((kv.key % 65536) &&& 0x00ff) % 256] ++ [kv.color.red] ++
      [kv.color.green] ++ [kv.color.blue]) gi (maxKeyCount (groupDataSize kag))
      (groupData model kag)
  have hquad : ∀ (l : List KeyValue) (d : Frame),
      l.foldl (fun d kv => d ++ [((kv.key % 65536) &&& 0x00ff) % 256] ++ [kv.color.red] ++
        [kv.color.green] ++ [kv.color.blue]) d =
      d ++ l.flatMap (fun kv => [kv.key &&& 0xff, kv.color.red, kv.color.green, kv.color.blue]) := by
    intro l d
    rw [← foldl_append_flatMap]
    congr 1
    funext d kv
    simp [lowByte_eq]
  have hlen := length_flatMap_quad
    (fun kv => [kv.key &&& 0xff, kv.color.red, kv.color.green, kv.color.blue]) (fun _ => rfl)
    ((keys.drop gi).take ((groupDataSize kag - 8) / 4))
  have htake : ((keys.drop gi).take ((groupDataSize kag - 8) / 4)).length ≤
      (groupDataSize kag - 8) / 4 := List.length_take_le _ _
  have hsz : groupDataSize kag = 20 ∨ groupDataSize kag = 64 := by
    have : kag = 0 ∨ kag = 1 ∨ kag = 2 ∨ kag = 3 ∨ kag = 4 := by omega
    rcases this with h | h | h | h | h <;> subst h <;> simp [groupDataSize]
  unfold groupFrame
  simp only []
  rw [hfold, hquad, hmk, resize_of_le]
  · rw [List.length_append, hlen, hh]
    congr 2
    omega
  · rw [List.length_append, hlen, hh]
    rcases hsz with h | h <;> rw [h] at htake ⊢ <;> omega

/-! ### The partition pass -/

theorem SortedKeys.length_pushBack :
    ∀ (s : SortedKeys) (idx : Nat) (kv : KeyValue), (s.pushBack idx kv).length = s.length := by
  intro s
  induction s with
  | nil => intro idx kv; rfl
  | cons v rest ih =>
    intro idx kv
    cases idx with
    | zero => rfl
    | succ n => simp [SortedKeys.pushBack, ih]

theorem SortedKeys.at_pushBack :
    ∀ (s : SortedKeys) (idx j : Nat) (kv : KeyValue), idx < s.length →
      (s.pushBack idx kv).at j = if j = idx then s.at idx ++ [kv] else s.at j := by
  intro s
  induction s with
  | nil => intro idx j kv h; simp at h
  | cons v rest ih =>
    intro idx j kv h
    cases idx with
    | zero =>
      cases j with
      | zero => simp [SortedKeys.pushBack, SortedKeys.at]
      | succ j => simp [SortedKeys.pushBack, SortedKeys.at]
    | succ n =>
      have hn : n < List.length rest := by simpa using h
      cases j with
      | zero => simp [SortedKeys.pushBack, SortedKeys.at]
      | succ j =>
        have := ih n j kv hn
        simp only [SortedKeys.at] at this
        simp only [SortedKeys.pushBack, SortedKeys.at, List.getD_cons_succ, this]
        by_cases hj : j = n
        · simp [hj]
        · simp [hj]

theorem pushBack_if_cases (s : SortedKeys) (kv : KeyValue) (c : Prop) [Decidable c]
    (idx : Nat) (hidx : idx ≤ 4)
    (hc : c → (s.at idx).length ≤ 120 ∧ (idx = 0 → (s.at 0).length ≤ 2)) :
    (if c then s.pushBack idx kv else s) = s ∨
      ∃ j, j ≤ 4 ∧ (s.at j).length ≤ 120 ∧ (j = 0 → (s.at 0).length ≤ 2) ∧
        (if c then s.pushBack idx kv else s) = s.pushBack j kv := by
  by_cases h : c
  · exact Or.inr ⟨idx, hidx, (hc h).1, (hc h).2, if_pos h⟩
  · rw [if_neg h]; exact Or.inl rfl

/-- One step of the partition pass either leaves the groups alone or appends
the key value to one group that holds at most 120 entries (at most 2 for the
logo group). -/
theorem sortKey_cases (D : Declarations) (model : KeyboardModel) (s : SortedKeys)
    (kv : KeyValue) :
    sortKey D model s kv = s ∨
      ∃ idx, idx ≤ 4 ∧ (s.at idx).length ≤ 120 ∧ (idx = 0 → (s.at 0).length ≤ 2) ∧
        sortKey D model s kv = s.pushBack idx kv := by
  unfold sortKey
  simp only []
  by_cases h1 : toKeyAddressGroup ((kv.key % 65536) >>> 8) = D.group .logo
  · rw [if_pos h1]
    cases model <;> simp only [] <;> first
      | exact Or.inl rfl
      | exact Or.inl trivial
      | (refine pushBack_if_cases s kv _ 0 (by omega) ?_
         intro h
         exact ⟨by omega, fun _ => by omega⟩)
  · rw [if_neg h1]
    by_cases h2 : toKeyAddressGroup ((kv.key % 65536) >>> 8) = D.group .indicators
    · rw [if_pos h2]
      refine pushBack_if_cases s kv _ 1 (by omega) ?_
      intro h
      exact ⟨by omega, fun _ => by omega⟩
    · rw [if_neg h2]
      by_cases h3 : toKeyAddressGroup ((kv.key % 65536) >>> 8) = D.group .multimedia
      · rw [if_pos h3]
        cases model <;> simp only [] <;> first
          | exact Or.inl rfl
          | exact Or.inl trivial
          | (refine pushBack_if_cases s kv _ 2 (by omega) ?_
             intro h
             exact ⟨by omega, fun _ => by omega⟩)
      · rw [if_neg h3]
        by_cases h4 : toKeyAddressGroup ((kv.key % 65536) >>> 8) = D.group .gkeys
        · rw [if_pos h4]
          cases model <;> simp only [] <;> first
            | exact Or.inl rfl
            | exact Or.inl trivial
            | (refine pushBack_if_cases s kv _ 3 (by omega) ?_
               intro h
               exact ⟨by omega, fun _ => by omega⟩)
        · rw [if_neg h4]
          by_cases h5 : toKeyAddressGroup ((kv.key % 65536) >>> 8) = D.group .keys
          · rw [if_pos h5]
            cases model <;> simp only [] <;> first
              | exact Or.inl rfl
              | exact Or.inl trivial
              | (refine pushBack_if_cases s kv _ 4 (by omega) ?_
                 intro h
                 exact ⟨by omega, fun _ => by omega⟩)
              | (by_cases hcap : (s.at 4).length ≤ 120
                 · rw [if_pos hcap]
                   refine pushBack_if_cases s kv _ 4 (by omega) ?_
                   intro h
                   exact ⟨by omega, fun _ => by omega⟩
                 · rw [if_neg hcap]; exact Or.inl rfl)
          · rw [if_neg h5]; exact Or.inl rfl

/-- The capacity invariant of the partition pass. -/
theorem sortKey_inv (D : Declarations) (model : KeyboardModel) (s : SortedKeys) (kv : KeyValue)
    (h : s.length = 5 ∧ (s.at 0).length ≤ 3 ∧ ∀ k, (s.at k).length ≤ 121) :
    (sortKey D model s kv).length = 5 ∧ ((sortKey D model s kv).at 0).length ≤ 3 ∧
      ∀ k, ((sortKey D model s kv).at k).length ≤ 121 := by
  obtain ⟨hl, h0, hk⟩ := h
  rcases sortKey_cases D model s kv with he | ⟨idx, hidx, hcap, hlogo, he⟩
  · rw [he]; exact ⟨hl, h0, hk⟩
  · rw [he]
    refine ⟨by rw [SortedKeys.length_pushBack, hl], ?_, ?_⟩
    · rw [SortedKeys.at_pushBack s idx 0 kv (by omega)]
      by_cases hz : 0 = idx
      · rw [if_pos hz, List.length_append, List.length_singleton]
        have := hlogo hz.symm
        rw [← hz]; omega
      · rw [if_neg hz]; exact h0
    · intro k
      rw [SortedKeys.at_pushBack s idx k kv (by omega)]
      by_cases hz : k = idx
      · rw [if_pos hz, List.length_append, List.length_singleton]; omega
      · rw [if_neg hz]; exact hk k

theorem indexLoop_inv {σ : Type} (body : σ → KeyValue → σ) (keyValues : List KeyValue)
    (P : σ → Prop) (hP : ∀ s kv, P s → P (body s kv)) :
    ∀ (fuel i : Nat) (s s' : σ), P s → indexLoop body keyValues fuel i s = some s' → P s' := by
  intro fuel
  induction fuel with
  | zero => intro i s s' _ h; simp [indexLoop] at h
  | succ n ih =>
    intro i s s' hs h
    rw [indexLoop] at h
    by_cases hlt : i < keyValues.length
    · rw [dif_pos hlt] at h
      exact ih _ _ _ (hP _ _ hs) h
    · rw [dif_neg hlt] at h
      simp only [Option.some.injEq] at h
      rw [← h]; exact hs

theorem partitionKeys_inv (D : Declarations) (model : KeyboardModel)
    (keyValues : List KeyValue) (fuel : Nat) (s : SortedKeys)
    (h : partitionKeys D model keyValues fuel 0 [[], [], [], [], []] = some s) :
    s.length = 5 ∧ (s.at 0).length ≤ 3 ∧ ∀ k, (s.at k).length ≤ 121 := by
  rw [partitionKeys_eq_indexLoop] at h
  refine indexLoop_inv (sortKey D model) keyValues
    (fun s => s.length = 5 ∧ (s.at 0).length ≤ 3 ∧ ∀ k, (s.at k).length ≤ 121)
    (fun s kv hs => sortKey_inv D model s kv hs) fuel 0 _ s ?_ h
  refine ⟨rfl, by simp [SortedKeys.at], ?_⟩
  intro k
  have : SortedKeys.at [[], [], [], [], []] k = [] := by
    unfold SortedKeys.at
    match k with
    | 0 | 1 | 2 | 3 | 4 => rfl
    | n + 5 => rfl
  rw [this]; simp

/-! ### The emission pass of the group-addressed encoder -/

theorem maxKeyCount_groupDataSize (kag : Nat) (hk : kag ≤ 4) :
    maxKeyCount (groupDataSize kag) = (groupDataSize kag - 8) / 4 ∧
      ((kag = 0 ∧ (groupDataSize kag - 8) / 4 = 3) ∨
        (kag ≠ 0 ∧ (groupDataSize kag - 8) / 4 = 14)) := by
  have : kag = 0 ∨ kag = 1 ∨ kag = 2 ∨ kag = 3 ∨ kag = 4 := by omega
  rcases this with h | h | h | h | h <;> subst h <;> decide

/-- Chunk starts of a group within its capacity: the multiples of the chunk
size below the number of entries. -/
theorem chunkStarts_group (kag len fuel : Nat) (hk : kag ≤ 4) (hfuel : 10 ≤ fuel)
    (hlen : len ≤ 121) (hlogo : kag = 0 → len ≤ 3) :
    chunkStarts (maxKeyCount (groupDataSize kag)) len fuel 0 =
      some ((List.range ((len + (groupDataSize kag - 8) / 4 - 1) / ((groupDataSize kag - 8) / 4))).map
        (fun j => (groupDataSize kag - 8) / 4 * j)) := by
  obtain ⟨hmk, hc⟩ := maxKeyCount_groupDataSize kag hk
  rw [hmk, List.range_eq_range']
  rcases hc with ⟨h0, hc⟩ | ⟨h0, hc⟩
  · have hl := hlogo h0
    rw [hc]
    have := chunkStarts_eq 3 len ((len + 3 - 1) / 3) 0 fuel (by omega) (by omega) (by omega)
      (by intro i hi; omega)
    simpa using this
  · rw [hc]
    have := chunkStarts_eq 14 len ((len + 14 - 1) / 14) 0 fuel (by omega) (by omega) (by omega)
      (by intro i hi; omega)
    simpa using this

theorem groupPlan_cons (model : KeyboardModel) (s : SortedKeys) (fuel kag : Nat)
    (rest : List Nat) (hk : kag ≤ 4) (hfuel : 10 ≤ fuel) (hlen : (s.at kag).length ≤ 121)
    (hlogo : kag = 0 → (s.at kag).length ≤ 3) :
    groupPlan model s fuel (kag :: rest) =
      (groupPlan model s fuel rest).map (fun frames =>
        (if (groupData model kag).length > 0 then
          (List.range (((s.at kag).length + (groupDataSize kag - 8) / 4 - 1) /
              ((groupDataSize kag - 8) / 4))).map
            (fun j => groupFrame model kag (s.at kag) ((groupDataSize kag - 8) / 4 * j))
          else []) ++ frames) := by
  rw [groupPlan]
  by_cases hx : (s.at kag).length > 0
  · rw [if_pos hx, chunkStarts_group kag _ fuel hk hfuel hlen hlogo]
    simp only [List.map_map]
    rfl
  · have h0 : (s.at kag).length = 0 := by omega
    obtain ⟨_, hc⟩ := maxKeyCount_groupDataSize kag hk
    have hn : ((s.at kag).length + (groupDataSize kag - 8) / 4 - 1) /
        ((groupDataSize kag - 8) / 4) = 0 := by
      rcases hc with ⟨_, hc⟩ | ⟨_, hc⟩ <;> rw [hc, h0]
    rw [if_neg hx, hn]
    cases groupPlan model s fuel rest with
    | none => rfl
    | some frames => simp

theorem groupData_length (model : KeyboardModel) (kag : Nat) (hm : model ≠ .g815 ∧ model ≠ .g915) :
    groupData model kag = [] ∨ (groupData model kag).length = 8 := by
  obtain ⟨h1, h2⟩ := hm
  unfold groupData
  match kag with
  | 0 | 1 | 2 | 3 | 4 =>
    cases model <;> first
      | exact absurd rfl h1
      | exact absurd rfl h2
      | exact Or.inl rfl
      | exact Or.inr rfl
  | n + 5 => exact Or.inl rfl

theorem setKeysPlan_group (D : Declarations) (fuel : Nat) (model : KeyboardModel)
    (keyValues : List KeyValue) (hm : model ≠ .g815 ∧ model ≠ .g915) :
    setKeysPlan D fuel model keyValues =
      match partitionKeys D model keyValues fuel 0 [[], [], [], [], []] with
      | none => none
      | some s => groupPlan model s fuel [0, 1, 2, 3, 4] := by
  obtain ⟨h1, h2⟩ := hm
  cases model <;> first
    | exact absurd rfl h1
    | exact absurd rfl h2
    | rfl

theorem setKeysPlan_color (D : Declarations) (fuel : Nat) (model : KeyboardModel)
    (keyValues : List KeyValue) (hm : model = .g815 ∨ model = .g915) :
    setKeysPlan D fuel model keyValues =
      match groupByColor keyValues fuel 0 [] with
      | none => none
      | some m =>
        colorPlan D (if model = .g915 then 0x01 else 0xff) (if model = .g915 then 0x0b else 0x10)
          fuel m := by
  rcases hm with h | h <;> subst h <;> rfl

/-- The frames planned for the five groups once the partition pass has
returned the groups `s`. -/
theorem groupPlan_all (model : KeyboardModel) (s : SortedKeys) (fuel : Nat)
    (hfuel : 10 ≤ fuel) (hm : model ≠ .g815 ∧ model ≠ .g915)
    (hs : s.length = 5 ∧ (s.at 0).length ≤ 3 ∧ ∀ k, (s.at k).length ≤ 121) :
    groupPlan model s fuel [0, 1, 2, 3, 4] =
      some ([0, 1, 2, 3, 4].flatMap (fun kag =>
        if groupData model kag = [] then []
        else
          (List.range (((s.at kag).length + (groupDataSize kag - 8) / 4 - 1) /
              ((groupDataSize kag - 8) / 4))).map
            (fun j =>
              groupData model kag ++
                (((s.at kag).drop ((groupDataSize kag - 8) / 4 * j)).take
                    ((groupDataSize kag - 8) / 4)).flatMap
                  (fun kv => [kv.key &&& 0xff, kv.color.red, kv.color.green, kv.color.blue]) ++
                List.replicate
                  (groupDataSize kag - 8 -
                    4 * (((s.at kag).drop ((groupDataSize kag - 8) / 4 * j)).take
                      ((groupDataSize kag - 8) / 4)).length) 0))) := by
  obtain ⟨_, h0, hk⟩ := hs
  have key : ∀ kag, kag ≤ 4 →
      (if (groupData model kag).length > 0 then
          (List.range (((s.at kag).length + (groupDataSize kag - 8) / 4 - 1) /
              ((groupDataSize kag - 8) / 4))).map
            (fun j => groupFrame model kag (s.at kag) ((groupDataSize kag - 8) / 4 * j))
          else []) =
      (if groupData model kag = [] then []
        else
          (List.range (((s.at kag).length + (groupDataSize kag - 8) / 4 - 1) /
              ((groupDataSize kag - 8) / 4))).map
            (fun j =>
              groupData model kag ++
                (((s.at kag).drop ((groupDataSize kag - 8) / 4 * j)).take
                    ((groupDataSize kag - 8) / 4)).flatMap
                  (fun kv => [kv.key &&& 0xff, kv.color.red, kv.color.green, kv.color.blue]) ++
                List.replicate
                  (groupDataSize kag - 8 -
                    4 * (((s.at kag).drop ((groupDataSize kag - 8) / 4 * j)).take
                      ((groupDataSize kag - 8) / 4)).length) 0)) := by
    intro kag hkag
    rcases groupData_length model kag hm with he | hl
    · rw [if_neg (by rw [he]; simp), if_pos he]
    · rw [if_pos (by rw [hl]; decide), if_neg (by intro he; rw [he] at hl; simp at hl)]
      congr 1
      funext j
      exact groupFrame_eq model kag (s.at kag) _ hkag hl
  rw [groupPlan_cons model s fuel 0 _ (by omega) hfuel (hk 0) (fun _ => h0),
    groupPlan_cons model s fuel 1 _ (by omega) hfuel (hk 1) (fun h => absurd h (by omega)),
    groupPlan_cons model s fuel 2 _ (by omega) hfuel (hk 2) (fun h => absurd h (by omega)),
    groupPlan_cons model s fuel 3 _ (by omega) hfuel (hk 3) (fun h => absurd h (by omega)),
    groupPlan_cons model s fuel 4 _ (by omega) hfuel (hk 4) (fun h => absurd h (by omega)),
    key 0 (by omega), key 1 (by omega), key 2 (by omega), key 3 (by omega), key 4 (by omega)]
  simp only [groupPlan, Option.map_some', List.flatMap_cons, List.flatMap_nil, List.append_nil]

/-- One step of the partition pass: the key value is appended to the group
vector it is offered to while that vector is below its capacity. -/
theorem sortKey_eq_slot (D : Declarations) (model : KeyboardModel) (s : SortedKeys)
    (kv : KeyValue) :
    sortKey D model s kv =
      match sortSlot D model kv with
      | some idx => if (s.at idx).length < sortCapacity model idx then s.pushBack idx kv else s
      | none => s := by
  unfold sortKey sortSlot
  simp only []
  by_cases h1 : toKeyAddressGroup ((kv.key % 65536) >>> 8) = D.group .logo
  · rw [if_pos h1, if_pos h1]
    cases model <;> simp only [sortCapacity] <;>
      first
      | rfl
      | (by_cases hk : kv.key = D.key.logo
         · simp only [hk, and_true, if_true, Nat.lt_succ_iff]
         · simp only [hk, and_false, if_false])
      | simp only [Nat.lt_succ_iff]
  · rw [if_neg h1, if_neg h1]
    by_cases h2 : toKeyAddressGroup ((kv.key % 65536) >>> 8) = D.group .indicators
    · rw [if_pos h2, if_pos h2]
      simp only [sortCapacity, Nat.lt_succ_iff]
    · rw [if_neg h2, if_neg h2]
      by_cases h3 : toKeyAddressGroup ((kv.key % 65536) >>> 8) = D.group .multimedia
      · rw [if_pos h3, if_pos h3]
        cases model <;> simp only [sortCapacity, Nat.lt_succ_iff]
      · rw [if_neg h3, if_neg h3]
        by_cases h4 : toKeyAddressGroup ((kv.key % 65536) >>> 8) = D.group .gkeys
        · rw [if_pos h4, if_pos h4]
          cases model <;> simp only [sortCapacity, Nat.lt_succ_iff]
        · rw [if_neg h4, if_neg h4]
          by_cases h5 : toKeyAddressGroup ((kv.key % 65536) >>> 8) = D.group .keys
          · rw [if_pos h5, if_pos h5]
            cases model <;> simp only [sortCapacity, Nat.lt_succ_iff]
            by_cases hk : kv.key < D.key.num_lock ∨ kv.key > D.key.num_dot
            · simp only [hk, if_true]
              congr 1
              exact propext Nat.lt_succ_iff.symm
            · simp only [hk, if_false, ite_self]
          · rw [if_neg h5, if_neg h5]

theorem sortSlot_le (D : Declarations) (model : KeyboardModel) (kv : KeyValue) (idx : Nat)
    (h : sortSlot D model kv = some idx) : idx ≤ 4 := by
  unfold sortSlot at h
  simp only [] at h
  split_ifs at h <;> cases model <;> simp at h <;> omega

/-- The partition pass keeps, in each group vector, the first key values
offered to it, up to its capacity. -/
theorem foldl_sortKey_at (D : Declarations) (model : KeyboardModel) (idx : Nat) :
    ∀ (l : List KeyValue) (s : SortedKeys), s.length = 5 →
      (s.at idx).length ≤ sortCapacity model idx →
      (l.foldl (sortKey D model) s).at idx =
        s.at idx ++
          ((l.filter (fun kv => sortSlot D model kv = some idx)).take
            (sortCapacity model idx - (s.at idx).length)) := by
  intro l
  induction l with
  | nil => intro s _ _; simp
  | cons a l ih =>
    intro s hs hcap
    rw [List.foldl_cons, sortKey_eq_slot]
    cases hslot : sortSlot D model a with
    | none =>
      simp only []
      rw [ih s hs hcap, List.filter_cons_of_neg (by simp [hslot])]
    | some j =>
      have hj := sortSlot_le D model a j hslot
      simp only []
      by_cases hfull : (s.at j).length < sortCapacity model j
      · rw [if_pos hfull]
        have hat := SortedKeys.at_pushBack s j idx a (by omega)
        by_cases hij : idx = j
        · subst hij
          rw [if_pos rfl] at hat
          rw [ih _ (by rw [SortedKeys.length_pushBack, hs])
            (by rw [hat, List.length_append, List.length_singleton]; omega), hat,
            List.filter_cons_of_pos (by simp [hslot]), List.length_append,
            List.length_singleton]
          have : sortCapacity model idx - (s.at idx).length =
              (sortCapacity model idx - ((s.at idx).length + 1)) + 1 := by omega
          rw [this, List.take_succ_cons]
          simp
        · rw [if_neg hij] at hat
          rw [ih _ (by rw [SortedKeys.length_pushBack, hs]) (by rw [hat]; exact hcap), hat,
            List.filter_cons_of_neg (by
              simp only [hslot, Option.some.injEq, decide_eq_true_eq]
              exact fun h => hij h.symm)]
      · rw [if_neg hfull, ih s hs hcap]
        by_cases hij : idx = j
        · subst hij
          have : sortCapacity model idx - (s.at idx).length = 0 := by omega
          rw [this]
          simp
        · rw [List.filter_cons_of_neg (by
            simp only [hslot, Option.some.injEq, decide_eq_true_eq]
            exact fun h => hij h.symm)]

/-- On every list of fewer than 256 assignments the partition
pass returns, and each group vector holds the first assignments offered to
that group, in input order, up to the capacity of the group. -/
theorem partitionKeys_eq_filter_take (D : Declarations) (model : KeyboardModel)
    (keyValues : List KeyValue) (fuel : Nat) (hlen : keyValues.length < 256)
    (hfuel : 256 ≤ fuel) :
    ∃ s, partitionKeys D model keyValues fuel 0 [[], [], [], [], []] = some s ∧
      ∀ idx, idx ≤ 4 →
        s.at idx =
          (keyValues.filter (fun kv => sortSlot D model kv = some idx)).take
            (sortCapacity model idx) := by
  refine ⟨keyValues.foldl (sortKey D model) [[], [], [], [], []], ?_, ?_⟩
  · rw [partitionKeys_eq_indexLoop,
      indexLoop_eq (sortKey D model) keyValues hlen fuel 0 _ (Nat.zero_le _),
      if_pos (by omega), List.drop_zero]
  · intro idx hidx
    have hnil : SortedKeys.at [[], [], [], [], []] idx = [] := by
      have : idx = 0 ∨ idx = 1 ∨ idx = 2 ∨ idx = 3 ∨ idx = 4 := by omega
      rcases this with h | h | h | h | h <;> subst h <;> rfl
    rw [foldl_sortKey_at D model idx keyValues [[], [], [], [], []] rfl
        (by rw [hnil]; exact Nat.zero_le _),
      hnil]
    simp

/-! ### The colour-batched encoder -/

/-- The switch on the key appends at most one byte, and the byte does not
depend on the buffer. -/
theorem pushColorKey_append (D : Declarations) (d : Frame) (key : Nat) :
    pushColorKey D d key = d ++ pushColorKey D [] key ∧ (pushColorKey D [] key).length ≤ 1 := by
  unfold pushColorKey
  simp only []
  by_cases h1 : key = D.key.logo2 ∨ key = D.key.game ∨ key = D.key.caps ∨ key = D.key.scroll ∨
      key = D.key.num ∨ key = D.key.stop ∨ key = D.key.g6 ∨ key = D.key.g7 ∨
      key = D.key.g8 ∨ key = D.key.g9
  · simp only [if_pos h1, List.append_nil, List.length_nil, Nat.zero_le, and_self]
  simp only [if_neg h1]
  by_cases h2 : key = D.key.play
  · simp only [if_pos h2, List.nil_append, List.length_singleton, Nat.le_refl, and_self]
  simp only [if_neg h2]
  by_cases h3 : key = D.key.mute
  · simp only [if_pos h3, List.nil_append, List.length_singleton, Nat.le_refl, and_self]
  simp only [if_neg h3]
  by_cases h4 : key = D.key.next
  · simp only [if_pos h4, List.nil_append, List.length_singleton, Nat.le_refl, and_self]
  simp only [if_neg h4]
  by_cases h5 : key = D.key.prev
  · simp only [if_pos h5, List.nil_append, List.length_singleton, Nat.le_refl, and_self]
  simp only [if_neg h5]
  by_cases h6 : key = D.key.ctrl_left ∨ key = D.key.shift_left ∨ key = D.key.alt_left ∨
      key = D.key.win_left ∨ key = D.key.ctrl_right ∨ key = D.key.shift_right ∨
      key = D.key.alt_right ∨ key = D.key.win_right
  · simp only [if_pos h6, List.nil_append, List.length_singleton, Nat.le_refl, and_self]
  simp only [if_neg h6]
  by_cases h7 : toKeyAddressGroup ((((key % 65536) &&& 0xff00)) / 0xff) = D.group .logo
  · simp only [if_pos h7, List.nil_append, List.length_singleton, Nat.le_refl, and_self]
  simp only [if_neg h7]
  by_cases h8 : toKeyAddressGroup ((((key % 65536) &&& 0xff00)) / 0xff) = D.group .indicators
  · simp only [if_pos h8, List.nil_append, List.length_singleton, Nat.le_refl, and_self]
  simp only [if_neg h8]
  by_cases h9 : toKeyAddressGroup ((((key % 65536) &&& 0xff00)) / 0xff) = D.group .gkeys
  · simp only [if_pos h9, List.nil_append, List.length_singleton, Nat.le_refl, and_self]
  simp only [if_neg h9]
  by_cases h10 : toKeyAddressGroup ((((key % 65536) &&& 0xff00)) / 0xff) = D.group .keys
  · simp only [if_pos h10, List.nil_append, List.length_singleton, Nat.le_refl, and_self]
  simp only [if_neg h10, List.append_nil, List.length_nil, Nat.zero_le, and_self]

theorem foldl_pushColorKey (D : Declarations) :
    ∀ (l : List KeyValue) (d : Frame),
      l.foldl (fun d kv => pushColorKey D d kv.key) d =
        d ++ l.flatMap (fun kv => pushColorKey D [] kv.key) := by
  intro l
  induction l with
  | nil => intro d; simp
  | cons a l ih =>
    intro d
    rw [List.foldl_cons, ih, (pushColorKey_append D d a.key).1, List.flatMap_cons,
      List.append_assoc]

theorem length_flatMap_pushColorKey (D : Declarations) :
    ∀ l : List KeyValue, (l.flatMap (fun kv => pushColorKey D [] kv.key)).length ≤ l.length := by
  intro l
  induction l with
  | nil => simp
  | cons a l ih =>
    rw [List.flatMap_cons, List.length_append, List.length_cons]
    have := (pushColorKey_append D [] a.key).2
    omega

/-- Layout of a colour frame: header, colour of the first key of the entry, the
bytes of the chunk, then, when fewer than 13 bytes were written, the marker
`0xff` and zero bytes. -/
theorem colorFrame_eq (D : Declarations) (tg fi : Nat) (keys : List KeyValue) (gi : Nat) :
    colorFrame D tg fi keys gi =
      [0x11, tg, fi, 0x6c, (keys.getD 0 ⟨0, ⟨0, 0, 0⟩⟩).color.red,
          (keys.getD 0 ⟨0, ⟨0, 0, 0⟩⟩).color.green, (keys.getD 0 ⟨0, ⟨0, 0, 0⟩⟩).color.blue] ++
        ((keys.drop gi).take 13).flatMap (fun kv => pushColorKey D [] kv.key) ++
        (if (((keys.drop gi).take 13).flatMap (fun kv => pushColorKey D [] kv.key)).length < 13
          then
            0xff :: List.replicate
              (12 - (((keys.drop gi).take 13).flatMap
                (fun kv => pushColorKey D [] kv.key)).length) 0
          else []) := by
  have hfold := foldl_range_getElem keys (fun d kv => pushColorKey D d kv.key) gi 13
    ([0x11, tg, fi, 0x6c] ++ [(keys.getD 0 ⟨0, ⟨0, 0, 0⟩⟩).color.red] ++
      [(keys.getD 0 ⟨0, ⟨0, 0, 0⟩⟩).color.green] ++ [(keys.getD 0 ⟨0, ⟨0, 0, 0⟩⟩).color.blue])
  have hlen := length_flatMap_pushColorKey D ((keys.drop gi).take 13)
  have htake : ((keys.drop gi).take 13).length ≤ 13 := List.length_take_le _ _
  unfold colorFrame
  simp only []
  rw [hfold, foldl_pushColorKey]
  generalize ((keys.drop gi).take 13).flatMap (fun kv => pushColorKey D [] kv.key) = offs
    at hlen ⊢
  have hoffs : offs.length ≤ 13 := by omega
  by_cases h13 : offs.length < 13
  · rw [if_pos (by simp; omega), if_pos h13, resize_of_le _ _ _ (by simp; omega)]
    simp only [List.length_append, List.length_cons, List.length_nil, List.append_assoc,
      List.cons_append, List.nil_append, List.singleton_append]
    congr 8
    · congr 1; congr 1; omega
  · rw [if_neg (by simp; omega), if_neg h13, resize_of_le _ _ _ (by simp; omega)]
    have : 20 - ([17, tg, fi, 108] ++ [(keys.getD 0 ⟨0, ⟨0, 0, 0⟩⟩).color.red] ++
        [(keys.getD 0 ⟨0, ⟨0, 0, 0⟩⟩).color.green] ++
        [(keys.getD 0 ⟨0, ⟨0, 0, 0⟩⟩).color.blue] ++ offs).length = 0 := by
      simp; omega
    rw [this]
    simp

theorem length_colorFrame (D : Declarations) (tg fi : Nat) (keys : List KeyValue) (gi : Nat) :
    (colorFrame D tg fi keys gi).length = 20 := by
  unfold colorFrame
  exact length_resize _ _ _

theorem ColorMap.mem_insert_nil :
    ∀ (m : ColorMap) (k : Nat) (x : Nat × List KeyValue),
      x ∈ m.insert k [] → x ∈ m ∨ x = (k, []) := by
  intro m
  induction m with
  | nil => intro k x h; simp [ColorMap.insert] at h; exact Or.inr h
  | cons y rest ih =>
    intro k x h
    rw [ColorMap.insert] at h
    by_cases h1 : k < y.1
    · rw [if_pos h1] at h
      rcases List.mem_cons.1 h with h | h
      · exact Or.inr h
      · exact Or.inl h
    · rw [if_neg h1] at h
      by_cases h2 : k = y.1
      · rw [if_pos h2] at h; exact Or.inl h
      · rw [if_neg h2] at h
        rcases List.mem_cons.1 h with h | h
        · exact Or.inl (h ▸ List.mem_cons_self _ _)
        · rcases ih k x h with h | h
          · exact Or.inl (List.mem_cons_of_mem _ h)
          · exact Or.inr h

theorem ColorMap.mem_pushBack :
    ∀ (m : ColorMap) (k : Nat) (kv : KeyValue) (x : Nat × List KeyValue),
      x ∈ m.pushBack k kv → x ∈ m ∨ (∃ y ∈ m, x = (y.1, y.2 ++ [kv])) ∨ x = (k, [kv]) := by
  intro m
  induction m with
  | nil => intro k kv x h; simp [ColorMap.pushBack] at h; exact Or.inr (Or.inr h)
  | cons y rest ih =>
    intro k kv x h
    rw [ColorMap.pushBack] at h
    by_cases h1 : k < y.1
    · rw [if_pos h1] at h
      rcases List.mem_cons.1 h with h | h
      · exact Or.inr (Or.inr h)
      · exact Or.inl h
    · rw [if_neg h1] at h
      by_cases h2 : k = y.1
      · rw [if_pos h2] at h
        rcases List.mem_cons.1 h with h | h
        · exact Or.inr (Or.inl ⟨y, List.mem_cons_self _ _, h⟩)
        · exact Or.inl (List.mem_cons_of_mem _ h)
      · rw [if_neg h2] at h
        rcases List.mem_cons.1 h with h | h
        · exact Or.inl (h ▸ List.mem_cons_self _ _)
        · rcases ih k kv x h with h | ⟨z, hz, h⟩ | h
          · exact Or.inl (List.mem_cons_of_mem _ h)
          · exact Or.inr (Or.inl ⟨z, List.mem_cons_of_mem _ hz, h⟩)
          · exact Or.inr (Or.inr h)

/-- Filing one more key value keeps every entry of the map a subsequence of
the key values filed so far. -/
theorem fileKey_sublist (m : ColorMap) (kv : KeyValue) (pre : List KeyValue)
    (h : ∀ x ∈ m, x.2.Sublist pre) : ∀ x ∈ fileKey m kv, x.2.Sublist (pre ++ [kv]) := by
  intro x hx
  unfold fileKey at hx
  simp only [] at hx
  have hm : ∀ y ∈ (if m.count (colorkey kv.color) = 0 then m.insert (colorkey kv.color) []
      else m), y.2.Sublist pre := by
    intro y hy
    by_cases hc : m.count (colorkey kv.color) = 0
    · rw [if_pos hc] at hy
      rcases ColorMap.mem_insert_nil m _ y hy with hy | hy
      · exact h y hy
      · rw [hy]; exact List.nil_sublist _
    · rw [if_neg hc] at hy; exact h y hy
  rcases ColorMap.mem_pushBack _ _ _ x hx with hx | ⟨y, hy, hx⟩ | hx
  · exact (hm x hx).trans (List.sublist_append_left _ _)
  · rw [hx]; exact List.Sublist.append (hm y hy) (List.Sublist.refl _)
  · rw [hx]; exact List.sublist_append_right _ _

theorem foldl_fileKey_sublist :
    ∀ (l : List KeyValue) (m : ColorMap) (pre : List KeyValue),
      (∀ x ∈ m, x.2.Sublist pre) → ∀ x ∈ l.foldl fileKey m, x.2.Sublist (pre ++ l) := by
  intro l
  induction l with
  | nil => intro m pre h x hx; simpa using h x hx
  | cons a l ih =>
    intro m pre h x hx
    rw [List.foldl_cons] at hx
    have := ih (fileKey m a) (pre ++ [a]) (fileKey_sublist m a pre h) x hx
    simpa using this

/-- When the first pass of the colour-batched branch returns, the list has
fewer than 256 key values and the map is the fold of `fileKey` over it. -/
theorem groupByColor_some (keyValues : List KeyValue) (fuel : Nat) (m : ColorMap)
    (h : groupByColor keyValues fuel 0 [] = some m) :
    keyValues.length < 256 ∧ m = keyValues.foldl fileKey [] := by
  rw [groupByColor_eq_indexLoop] at h
  by_cases hlen : keyValues.length < 256
  · refine ⟨hlen, ?_⟩
    rw [indexLoop_eq fileKey keyValues hlen fuel 0 [] (Nat.zero_le _)] at h
    by_cases hf : keyValues.length - 0 < fuel
    · rw [if_pos hf] at h
      simp only [List.drop_zero, Option.some.injEq] at h
      exact h.symm
    · rw [if_neg hf] at h; simp at h
  · rw [indexLoop_diverges fileKey keyValues (by omega) fuel 0 [] (by decide)] at h
    simp at h

theorem groupByColor_eq (keyValues : List KeyValue) (fuel : Nat)
    (hlen : keyValues.length < 256) (hfuel : 256 ≤ fuel) :
    groupByColor keyValues fuel 0 [] = some (keyValues.foldl fileKey []) := by
  rw [groupByColor_eq_indexLoop, indexLoop_eq fileKey keyValues hlen fuel 0 [] (Nat.zero_le _),
    if_pos (by omega), List.drop_zero]

/-- Every planned colour frame is the frame of a chunk start inside an entry of
the map. -/
theorem colorPlan_mem (D : Declarations) (tg fi fuel : Nat) :
    ∀ (m : ColorMap) (frames : List Frame), colorPlan D tg fi fuel m = some frames →
      ∀ f ∈ frames, ∃ x ∈ m, ∃ gi, gi < x.2.length ∧ f = colorFrame D tg fi x.2 gi := by
  intro m
  induction m with
  | nil =>
    intro frames h f hf
    simp only [colorPlan, Option.some.injEq] at h
    rw [← h] at hf; simp at hf
  | cons x rest ih =>
    intro frames h f hf
    rw [colorPlan] at h
    by_cases hx : x.2.length > 0
    · rw [if_pos hx] at h
      cases hcs : chunkStarts 13 x.2.length fuel 0 with
      | none => rw [hcs] at h; simp at h
      | some gis =>
        rw [hcs] at h
        cases hrest : colorPlan D tg fi fuel rest with
        | none => rw [hrest] at h; simp at h
        | some fr =>
          rw [hrest] at h
          simp only [Option.map_some', Option.some.injEq] at h
          rw [← h] at hf
          rcases List.mem_append.1 hf with hf | hf
          · obtain ⟨g, hg, hfg⟩ := List.mem_map.1 hf
            exact ⟨x, List.mem_cons_self _ _, g, chunkStarts_lt 13 _ fuel 0 gis hcs g hg,
              hfg.symm⟩
          · obtain ⟨y, hy, g, hg, hfg⟩ := ih fr hrest f hf
            exact ⟨y, List.mem_cons_of_mem _ hy, g, hg, hfg⟩
    · rw [if_neg hx] at h
      obtain ⟨y, hy, g, hg, hfg⟩ := ih frames h f hf
      exact ⟨y, List.mem_cons_of_mem _ hy, g, hg, hfg⟩

/-- The colour plan exists when every entry holds at most 255 key values and
the fuel covers 60 passes of a chunk loop. -/
theorem colorPlan_isSome (D : Declarations) (tg fi fuel : Nat) (hfuel : 60 ≤ fuel) :
    ∀ (m : ColorMap), (∀ x ∈ m, x.2.length ≤ 255) →
      (colorPlan D tg fi fuel m).isSome = true := by
  intro m
  induction m with
  | nil => intro _; rfl
  | cons x rest ih =>
    intro h
    have hx255 := h x (List.mem_cons_self _ _)
    have hrest := ih (fun y hy => h y (List.mem_cons_of_mem _ hy))
    rw [colorPlan]
    by_cases hx : x.2.length > 0
    · rw [if_pos hx]
      have hcs := chunkStarts_isSome 13 x.2.length 59 fuel 0 (by omega) (by decide)
        (by norm_num; omega)
      cases hc : chunkStarts 13 x.2.length fuel 0 with
      | none => rw [hc] at hcs; simp at hcs
      | some gis =>
        cases hr : colorPlan D tg fi fuel rest with
        | none => rw [hr] at hrest; simp at hrest
        | some fr => simp
    · rw [if_neg hx]; exact hrest

/-! ### Frames are never empty -/

theorem groupPlan_mem (model : KeyboardModel) (s : SortedKeys) (fuel : Nat) :
    ∀ (kags : List Nat) (frames : List Frame), groupPlan model s fuel kags = some frames →
      ∀ f ∈ frames, ∃ kag ∈ kags, ∃ gi, f = groupFrame model kag (s.at kag) gi := by
  intro kags
  induction kags with
  | nil =>
    intro frames h f hf
    simp only [groupPlan, Option.some.injEq] at h
    rw [← h] at hf; simp at hf
  | cons kag rest ih =>
    intro frames h f hf
    rw [groupPlan] at h
    by_cases hx : (s.at kag).length > 0
    · rw [if_pos hx] at h
      cases hcs : chunkStarts (maxKeyCount (groupDataSize kag)) (s.at kag).length fuel 0 with
      | none => rw [hcs] at h; simp at h
      | some gis =>
        rw [hcs] at h
        cases hrest : groupPlan model s fuel rest with
        | none => rw [hrest] at h; simp at h
        | some fr =>
          rw [hrest] at h
          simp only [Option.map_some', Option.some.injEq] at h
          rw [← h] at hf
          rcases List.mem_append.1 hf with hf | hf
          · by_cases hd : (groupData model kag).length > 0
            · rw [if_pos hd] at hf
              obtain ⟨g, _, hfg⟩ := List.mem_map.1 hf
              exact ⟨kag, List.mem_cons_self _ _, g, hfg.symm⟩
            · rw [if_neg hd] at hf; simp at hf
          · obtain ⟨k, hk, g, hfg⟩ := ih fr hrest f hf
            exact ⟨k, List.mem_cons_of_mem _ hk, g, hfg⟩
    · rw [if_neg hx] at h
      obtain ⟨k, hk, g, hfg⟩ := ih frames h f hf
      exact ⟨k, List.mem_cons_of_mem _ hk, g, hfg⟩

/-- No frame planned by `setKeys` is empty. -/
theorem setKeysPlan_pos (D : Declarations) (fuel : Nat) (model : KeyboardModel)
    (keyValues : List KeyValue) (frames : List Frame)
    (h : setKeysPlan D fuel model keyValues = some frames) : ∀ f ∈ frames, 0 < f.length := by
  intro f hf
  by_cases hm : model = .g815 ∨ model = .g915
  · rw [setKeysPlan_color D fuel model keyValues hm] at h
    cases hg : groupByColor keyValues fuel 0 [] with
    | none => rw [hg] at h; simp at h
    | some m =>
      rw [hg] at h
      obtain ⟨x, _, gi, _, hfe⟩ := colorPlan_mem D _ _ fuel m frames h f hf
      rw [hfe, length_colorFrame]; decide
  · have hm2 : model ≠ .g815 ∧ model ≠ .g915 := by
      constructor
      · intro h1; exact hm (Or.inl h1)
      · intro h1; exact hm (Or.inr h1)
    rw [setKeysPlan_group D fuel model keyValues hm2] at h
    cases hp : partitionKeys D model keyValues fuel 0 [[], [], [], [], []] with
    | none => rw [hp] at h; simp at h
    | some s =>
      rw [hp] at h
      obtain ⟨kag, hkag, gi, hfe⟩ := groupPlan_mem model s fuel _ frames h f hf
      have hl : f.length = groupDataSize kag := by
        rw [hfe]; unfold groupFrame; exact length_resize _ _ _
      rw [hl]
      simp only [List.mem_cons, List.mem_singleton, List.not_mem_nil, or_false] at hkag
      rcases hkag with h | h | h | h | h <;> subst h <;> decide

/-- Whenever `setKeys` returns on a non-empty list, it has appended the frames
of its plan to the frames handed over before, and its result is `true` exactly
when every one of these sends succeeded. -/
theorem setKeys_some (D : Declarations) (fuel : Nat) (model : KeyboardModel)
    (keyValues : List KeyValue) (t : Transport) (sent : List Frame) (hne : keyValues ≠ [])
    (retval : Bool) (sent' : List Frame)
    (h : setKeys D fuel model keyValues t sent = some (retval, sent')) :
    ∃ frames, setKeysPlan D fuel model keyValues = some frames ∧ sent' = sent ++ frames ∧
      (retval = true ↔ ∀ k (hk : k < frames.length), t (sent.length + k) frames[k] = true) := by
  rw [setKeys_eq_plan D fuel model keyValues t sent hne] at h
  cases hp : setKeysPlan D fuel model keyValues with
  | none => rw [hp] at h; simp at h
  | some frames =>
    rw [hp] at h
    simp only [Option.map_some', Option.some.injEq] at h
    have hpos := setKeysPlan_pos D fuel model keyValues frames hp
    refine ⟨frames, rfl, ?_, ?_⟩
    · rw [← sendAll_snd t frames true sent hpos, h]
    · have := sendAll_fst t frames true sent hpos
      rw [h] at this
      simpa using this

/-! ## The claims -/

/-- On a colour-batched model, a list of 1 to 247 assignments
that all carry the colour `c` makes `setKeys` transmit exactly `ceil(N/13)`
frames, each of 20 bytes and each starting with the same seven bytes. -/
theorem setKeys_same_color_frames (D : Declarations) (fuel : Nat) (model : KeyboardModel)
    (keyValues : List KeyValue) (c : Color) (t : Transport) (sent : List Frame)
    (hm : model = .g815 ∨ model = .g915) (hne : keyValues ≠ [])
    (hlen : keyValues.length ≤ 247) (hfuel : 256 ≤ fuel)
    (hcol : ∀ kv ∈ keyValues, kv.color = c) :
    ∃ (retval : Bool) (frames : List Frame),
      setKeys D fuel model keyValues t sent = some (retval, sent ++ frames) ∧
        frames.length = (keyValues.length + 12) / 13 ∧
        ∀ f ∈ frames, f.length = 20 ∧
          f.take 7 = [0x11, if model = .g915 then 0x01 else 0xff,
            if model = .g915 then 0x0b else 0x10, 0x6c, c.red, c.green, c.blue] := by
  -- the map has the single entry of the colour `c`
  have hfold : ∀ (l pre : List KeyValue), (∀ kv ∈ l, kv.color = c) →
      l.foldl fileKey [(colorkey c, pre)] = [(colorkey c, pre ++ l)] := by
    intro l
    induction l with
    | nil => intro pre _; simp
    | cons a l ih =>
      intro pre h
      have ha : a.color = c := h a (List.mem_cons_self _ _)
      have hstep : fileKey [(colorkey c, pre)] a = [(colorkey c, pre ++ [a])] := by
        simp [fileKey, ha, ColorMap.count, ColorMap.pushBack]
      rw [List.foldl_cons, hstep, ih _ (fun kv hkv => h kv (List.mem_cons_of_mem _ hkv))]
      simp
  have hmap : keyValues.foldl fileKey [] = [(colorkey c, keyValues)] := by
    cases keyValues with
    | nil => exact absurd rfl hne
    | cons a l =>
      have ha : a.color = c := hcol a (List.mem_cons_self _ _)
      have hstep : fileKey [] a = [(colorkey c, [a])] := by
        simp [fileKey, ha, ColorMap.count, ColorMap.insert, ColorMap.pushBack]
      rw [List.foldl_cons, hstep, hfold l [a] (fun kv hkv => hcol kv (List.mem_cons_of_mem _ hkv))]
      rfl
  have hpos : 0 < keyValues.length := by
    cases keyValues with
    | nil => exact absurd rfl hne
    | cons a l => simp
  have hstarts := chunkStarts_eq 13 keyValues.length ((keyValues.length + 12) / 13) 0 fuel
    (by omega) (by omega) (by omega) (by intro i hi; omega)
  have hplan : setKeysPlan D fuel model keyValues =
      some ((List.range' 0 ((keyValues.length + 12) / 13)).map
        (fun j => colorFrame D (if model = .g915 then 0x01 else 0xff)
          (if model = .g915 then 0x0b else 0x10) keyValues (13 * j))) := by
    rw [setKeysPlan_color D fuel model keyValues hm,
      groupByColor_eq keyValues fuel (by omega) hfuel, hmap]
    simp only [colorPlan]
    rw [if_pos hpos]
    simp only [Nat.mul_zero] at hstarts
    rw [hstarts]
    simp [List.map_map, Function.comp_def]
  have hall : ∀ f ∈ (List.range' 0 ((keyValues.length + 12) / 13)).map
      (fun j => colorFrame D (if model = .g915 then 0x01 else 0xff)
        (if model = .g915 then 0x0b else 0x10) keyValues (13 * j)),
      f.length = 20 ∧
        f.take 7 = [0x11, if model = .g915 then 0x01 else 0xff,
          if model = .g915 then 0x0b else 0x10, 0x6c, c.red, c.green, c.blue] := by
    intro f hf
    obtain ⟨j, _, hfj⟩ := List.mem_map.1 hf
    refine ⟨by rw [← hfj]; exact length_colorFrame _ _ _ _ _, ?_⟩
    have h0 : (keyValues.getD 0 ⟨0, ⟨0, 0, 0⟩⟩).color = c := by
      cases keyValues with
      | nil => exact absurd rfl hne
      | cons a l => exact hcol a (List.mem_cons_self _ _)
    rw [← hfj, colorFrame_eq, h0]
    rfl
  have hcount : ((List.range' 0 ((keyValues.length + 12) / 13)).map
      (fun j => colorFrame D (if model = .g915 then 0x01 else 0xff)
        (if model = .g915 then 0x0b else 0x10) keyValues (13 * j))).length =
      (keyValues.length + 12) / 13 := by simp
  generalize (List.range' 0 ((keyValues.length + 12) / 13)).map
      (fun j => colorFrame D (if model = .g915 then 0x01 else 0xff)
        (if model = .g915 then 0x0b else 0x10) keyValues (13 * j)) = frames
    at hplan hall hcount
  refine ⟨(sendAll t frames true sent).1, frames, ?_, hcount, hall⟩
  rw [setKeys_eq_plan D fuel model keyValues t sent hne, hplan]
  simp only [Option.map_some']
  rw [← sendAll_snd t frames true sent (fun f hf => by rw [(hall f hf).1]; decide)]

set_option maxRecDepth 100000 in
/-- C1: 248 assignments of one colour on a g815 make `setKeys` transmit 39
frames, whereas `ceil(248/13)` is 20: the 8-bit chunk counter wraps from 247 to
4 and the loop goes on until the counter reaches 251. -/
theorem setKeys_same_color_248_frames :
    (setKeys sampleDeclarations 300 .g815 (List.replicate 248 ⟨sampleKeyA, ⟨1, 2, 3⟩⟩)
        (fun _ _ => true) []).map (fun r => r.2.length) = some 39 ∧
      (248 + 12) / 13 = 20 := by
  decide

/-- When the plan of `setKeys` exists, `setKeys` returns after handing over the
planned frames, and its result is `true` exactly when every send succeeded. -/
theorem setKeys_of_plan (D : Declarations) (fuel : Nat) (model : KeyboardModel)
    (keyValues : List KeyValue) (t : Transport) (sent : List Frame) (hne : keyValues ≠ [])
    (frames : List Frame) (hp : setKeysPlan D fuel model keyValues = some frames) :
    ∃ retval, setKeys D fuel model keyValues t sent = some (retval, sent ++ frames) ∧
      (retval = true ↔
        ∀ k (hk : k < frames.length), t (sent.length + k) frames[k] = true) := by
  have hpos := setKeysPlan_pos D fuel model keyValues frames hp
  refine ⟨(sendAll t frames true sent).1, ?_, ?_⟩
  · rw [setKeys_eq_plan D fuel model keyValues t sent hne, hp]
    simp only [Option.map_some']
    rw [← sendAll_snd t frames true sent hpos]
  · have := sendAll_fst t frames true sent hpos
    simpa using this

/-- On a group-addressed model, once the partition pass has returned the
retained assignments `s`, `setKeys` transmits, for the groups 0 to 4 in order
and for each group whose header is not empty, one frame per chunk of
`(frameLength - 8) / 4` consecutive retained assignments (3 for the 20-byte
logo frame, 14 for the 64-byte frames of the other groups): the 8-byte group
header, the quadruples `(key & 0xff, red, green, blue)` of the chunk in order,
and zero bytes up to the frame length. -/
theorem setKeys_group_frames (D : Declarations) (fuel : Nat) (model : KeyboardModel)
    (keyValues : List KeyValue) (s : SortedKeys) (t : Transport) (sent : List Frame)
    (hm : model ≠ .g815 ∧ model ≠ .g915) (hfuel : 10 ≤ fuel)
    (hs : partitionKeys D model keyValues fuel 0 [[], [], [], [], []] = some s) :
    (∃ retval, setKeys D fuel model keyValues t sent =
        some (retval, sent ++
          [0, 1, 2, 3, 4].flatMap (fun kag =>
            if groupData model kag = [] then []
            else
              (List.range (((s.at kag).length + (groupDataSize kag - 8) / 4 - 1) /
                  ((groupDataSize kag - 8) / 4))).map
                (fun j =>
                  groupData model kag ++
                    (((s.at kag).drop ((groupDataSize kag - 8) / 4 * j)).take
                        ((groupDataSize kag - 8) / 4)).flatMap
                      (fun kv =>
                        [kv.key &&& 0xff, kv.color.red, kv.color.green, kv.color.blue]) ++
                    List.replicate
                      (groupDataSize kag - 8 -
                        4 * (((s.at kag).drop ((groupDataSize kag - 8) / 4 * j)).take
                          ((groupDataSize kag - 8) / 4)).length) 0)))) ∧
      (groupDataSize 0 = 20 ∧ (groupDataSize 0 - 8) / 4 = 3) ∧
      (∀ kag ∈ [1, 2, 3, 4], groupDataSize kag = 64 ∧ (groupDataSize kag - 8) / 4 = 14) ∧
      (∀ kag, groupData model kag = [] ∨ (groupData model kag).length = 8) := by
  refine ⟨?_, by decide, by decide, fun kag => groupData_length model kag hm⟩
  have hinv := partitionKeys_inv D model keyValues fuel s hs
  have hplan : setKeysPlan D fuel model keyValues = groupPlan model s fuel [0, 1, 2, 3, 4] := by
    rw [setKeysPlan_group D fuel model keyValues hm, hs]
  have hplan2 := hplan.trans (groupPlan_all model s fuel hfuel hm hinv)
  by_cases hne : keyValues = []
  · -- nothing was retained, so the plan is empty
    subst hne
    obtain ⟨f, rfl⟩ : ∃ f, fuel = f + 1 := ⟨fuel - 1, by omega⟩
    have hs0 : s = [[], [], [], [], []] := by
      simp only [partitionKeys, List.length_nil, Nat.not_lt_zero, dif_neg, not_false_eq_true,
        Option.some.injEq] at hs
      exact hs.symm
    have hempty : groupPlan model s (f + 1) [0, 1, 2, 3, 4] = some [] := by
      rw [hs0]; rfl
    rw [hplan, hempty] at hplan2
    simp only [Option.some.injEq] at hplan2
    refine ⟨false, ?_⟩
    rw [← hplan2, List.append_nil]
    rfl
  · obtain ⟨retval, hret, _⟩ := setKeys_of_plan D fuel model keyValues t sent hne _ hplan2
    exact ⟨retval, hret⟩

/-- The group-frame theorem applied to the logo key and the key `a` on a
g810. -/
theorem setKeys_group_frames_witness :
    ∃ retval, setKeys sampleDeclarations 10 .g810
        [⟨0x0001, ⟨9, 8, 7⟩⟩, ⟨sampleKeyA, ⟨1, 2, 3⟩⟩] (fun _ _ => true) [] =
      some (retval,
        [[0x11, 0xff, 0x0c, 0x3a, 0x00, 0x10, 0x00, 0x01, 0x01, 9, 8, 7] ++ List.replicate 8 0,
          [0x12, 0xff, 0x0c, 0x3a, 0x00, 0x01, 0x00, 0x0e, 0x04, 1, 2, 3] ++
            List.replicate 52 0]) :=
  (setKeys_group_frames sampleDeclarations 10 .g810
    [⟨0x0001, ⟨9, 8, 7⟩⟩, ⟨sampleKeyA, ⟨1, 2, 3⟩⟩]
    [[⟨0x0001, ⟨9, 8, 7⟩⟩], [], [], [], [⟨sampleKeyA, ⟨1, 2, 3⟩⟩]] (fun _ _ => true) []
    ⟨by decide, by decide⟩ (by decide) (by decide)).1

/-- The plan of `setKeys` exists for every list of fewer than 256 assignments,
given fuel for 256 passes of each loop. -/
theorem setKeysPlan_isSome (D : Declarations) (fuel : Nat) (model : KeyboardModel)
    (keyValues : List KeyValue) (hlen : keyValues.length < 256) (hfuel : 256 ≤ fuel) :
    (setKeysPlan D fuel model keyValues).isSome = true := by
  by_cases hm : model = .g815 ∨ model = .g915
  · rw [setKeysPlan_color D fuel model keyValues hm, groupByColor_eq keyValues fuel hlen hfuel]
    exact colorPlan_isSome D _ _ fuel (by omega) _ (fun x hx => by
      have := (foldl_fileKey_sublist keyValues [] [] (by simp) x hx).length_le
      simp only [List.nil_append] at this
      omega)
  · have hm2 : model ≠ .g815 ∧ model ≠ .g915 :=
      ⟨fun h1 => hm (Or.inl h1), fun h1 => hm (Or.inr h1)⟩
    have hp : partitionKeys D model keyValues fuel 0 [[], [], [], [], []] =
        some (keyValues.foldl (sortKey D model) [[], [], [], [], []]) := by
      rw [partitionKeys_eq_indexLoop,
        indexLoop_eq (sortKey D model) keyValues hlen fuel 0 _ (Nat.zero_le _),
        if_pos (by omega), List.drop_zero]
    rw [setKeysPlan_group D fuel model keyValues hm2, hp]
    simp only []
    rw [groupPlan_all model _ fuel (by omega) hm2
      (partitionKeys_inv D model keyValues fuel _ hp)]
    rfl

/-- On every model and for every list of 1 to 255 assignments,
the frames `setKeys` hands to the transport are the same whatever the outcomes
of the sends, and `setKeys` returns `true` exactly when every send returned
`true`. -/
theorem setKeys_best_effort (D : Declarations) (fuel : Nat) (model : KeyboardModel)
    (keyValues : List KeyValue) (hne : keyValues ≠ []) (hlen : keyValues.length < 256)
    (hfuel : 256 ≤ fuel) :
    ∃ frames : List Frame, ∀ (t : Transport) (sent : List Frame),
      ∃ retval, setKeys D fuel model keyValues t sent = some (retval, sent ++ frames) ∧
        (retval = true ↔
          ∀ k (hk : k < frames.length), t (sent.length + k) frames[k] = true) := by
  have hsome := setKeysPlan_isSome D fuel model keyValues hlen hfuel
  cases hp : setKeysPlan D fuel model keyValues with
  | none => rw [hp] at hsome; simp at hsome
  | some frames =>
    exact ⟨frames, fun t sent => setKeys_of_plan D fuel model keyValues t sent hne frames hp⟩

/-- C3: on a g810, 256 assignments of the key `a` keep the 8-bit index of the
partition loop below the list size for ever: for every fuel, transport and
history `setKeys` does not return, so none of the 121 assignments within the
capacity of the keys group is transmitted. -/
theorem setKeys_group_256_never_returns (fuel : Nat) (t : Transport) (sent : List Frame) :
    setKeys sampleDeclarations fuel .g810 (List.replicate 256 ⟨sampleKeyA, ⟨1, 2, 3⟩⟩) t sent =
      none :=
  setKeys_diverges sampleDeclarations .g810 _ (by rw [List.length_replicate]) fuel t sent

/-- C4: on every model, a list of 256 assignments makes the first loop of
`setKeys` run for ever: for every fuel and every pattern of send outcomes
`setKeys` does not return, so it does not return `true` although no send has
failed. -/
theorem setKeys_256_never_returns (model : KeyboardModel) (fuel : Nat) (t : Transport)
    (sent : List Frame) :
    setKeys sampleDeclarations fuel model
        ((List.range 256).map (fun i => ⟨sampleKeyA, ⟨i, 0, 0⟩⟩)) t sent = none :=
  setKeys_diverges sampleDeclarations model _ (by rw [List.length_map, List.length_range]) fuel t sent

/-- C5: for every model, `setKeys` called with an empty list returns `false`
and transmits no frame. -/
theorem setKeys_empty (D : Declarations) (fuel : Nat) (model : KeyboardModel) (t : Transport)
    (sent : List Frame) : setKeys D fuel model [] t sent = some (false, sent) := rfl

/-- C6 (as stated, refuted): for the single assignment of key `a` with colour
(1, 2, 3) on a g815, `setKeys` sends one frame whose byte after the only offset
byte `0x01` is the marker `0xff`, so the frame is not the zero-padded frame
header, colour, offset bytes, zeros that the claim describes. -/
theorem setKeys_color_frame_not_zero_padded :
    setKeys sampleDeclarations 2 .g815 [⟨sampleKeyA, ⟨1, 2, 3⟩⟩] (fun _ _ => true) [] =
        some (true,
          [[0x11, 0xff, 0x10, 0x6c, 1, 2, 3, 0x01, 0xff, 0, 0, 0, 0, 0, 0, 0, 0, 0, 0, 0]]) ∧
      pushColorKey sampleDeclarations [] sampleKeyA = [0x01] ∧
      [0x11, 0xff, 0x10, 0x6c, 1, 2, 3, 0x01, 0xff, 0, 0, 0, 0, 0, 0, 0, 0, 0, 0, 0] ≠
        [0x11, 0xff, 0x10, 0x6c, 1, 2, 3] ++ pushColorKey sampleDeclarations [] sampleKeyA ++
          List.replicate 12 0 := by
  decide

/-- C6 (amended): on a colour-batched model `setKeys` returns for every list of
fewer than 256 assignments, and every frame it has transmitted when it returns
is exactly 20 bytes: the 4-byte header, the colour triple of an assignment of
the list, one protocol-offset byte per encoded key of a chunk of 1 to 13
assignments taken in input order, then, when fewer than 13 offset bytes were
written, the marker byte `0xff` followed by `0x00` bytes. -/
theorem setKeys_color_frame_layout (D : Declarations) (fuel : Nat) (model : KeyboardModel)
    (keyValues : List KeyValue) (t : Transport) (sent : List Frame)
    (hm : model = .g815 ∨ model = .g915) :
    (keyValues.length < 256 → 256 ≤ fuel →
        (setKeys D fuel model keyValues t sent).isSome = true) ∧
      ∀ (retval : Bool) (sent' : List Frame),
        setKeys D fuel model keyValues t sent = some (retval, sent') →
        ∃ frames, sent' = sent ++ frames ∧
          ∀ f ∈ frames, f.length = 20 ∧
            ∃ (c : Color) (chunk : List KeyValue),
              (∃ kv ∈ keyValues, kv.color = c) ∧ chunk ≠ [] ∧ chunk.length ≤ 13 ∧
              chunk.Sublist keyValues ∧
              f = [0x11, if model = .g915 then 0x01 else 0xff,
                    if model = .g915 then 0x0b else 0x10, 0x6c, c.red, c.green, c.blue] ++
                  chunk.flatMap (fun kv => pushColorKey D [] kv.key) ++
                  (if (chunk.flatMap (fun kv => pushColorKey D [] kv.key)).length < 13 then
                    0xff :: List.replicate
                      (12 - (chunk.flatMap (fun kv => pushColorKey D [] kv.key)).length) 0
                  else []) := by
  by_cases hne : keyValues = []
  · subst hne
    refine ⟨fun _ _ => rfl, ?_⟩
    intro retval sent' h
    have h2 : setKeys D fuel model [] t sent = some (false, sent) := rfl
    rw [h2] at h
    simp only [Option.some.injEq, Prod.mk.injEq] at h
    exact ⟨[], by rw [← h.2]; simp, by simp⟩
  · have hsub : ∀ m, m = keyValues.foldl fileKey [] → ∀ x ∈ m, x.2.Sublist keyValues := by
      intro m hm' x hx
      rw [hm'] at hx
      have := foldl_fileKey_sublist keyValues [] [] (by simp) x hx
      simpa using this
    constructor
    · intro hlen hfuel
      rw [setKeys_eq_plan D fuel model keyValues t sent hne,
        setKeysPlan_color D fuel model keyValues hm, groupByColor_eq keyValues fuel hlen hfuel]
      simp only []
      have := colorPlan_isSome D (if model = .g915 then 0x01 else 0xff)
        (if model = .g915 then 0x0b else 0x10) fuel (by omega) (keyValues.foldl fileKey [])
        (fun x hx => by
          have := (hsub _ rfl x hx).length_le
          omega)
      cases hc : colorPlan D (if model = .g915 then 0x01 else 0xff)
          (if model = .g915 then 0x0b else 0x10) fuel (keyValues.foldl fileKey []) with
      | none => rw [hc] at this; simp at this
      | some fr => rfl
    · intro retval sent' h
      obtain ⟨frames, hplan, hsent, _⟩ :=
        setKeys_some D fuel model keyValues t sent hne retval sent' h
      refine ⟨frames, hsent, ?_⟩
      intro f hf
      rw [setKeysPlan_color D fuel model keyValues hm] at hplan
      cases hg : groupByColor keyValues fuel 0 [] with
      | none => rw [hg] at hplan; simp at hplan
      | some m =>
        rw [hg] at hplan
        simp only [] at hplan
        obtain ⟨_, hmeq⟩ := groupByColor_some keyValues fuel m hg
        obtain ⟨x, hx, gi, hgi, hfe⟩ := colorPlan_mem D _ _ fuel m frames hplan f hf
        have hxs := hsub m hmeq x hx
        refine ⟨by rw [hfe]; exact length_colorFrame _ _ _ _ _, ?_⟩
        refine ⟨(x.2.getD 0 ⟨0, ⟨0, 0, 0⟩⟩).color, (x.2.drop gi).take 13, ?_, ?_, ?_, ?_, ?_⟩
        · refine ⟨x.2.getD 0 ⟨0, ⟨0, 0, 0⟩⟩, ?_, rfl⟩
          have h0 : 0 < x.2.length := by omega
          have : x.2.getD 0 ⟨0, ⟨0, 0, 0⟩⟩ = x.2[0] := by
            rw [List.getD_eq_getElem?_getD, List.getElem?_eq_getElem h0]; rfl
          rw [this]
          exact hxs.subset (List.getElem_mem _)
        · intro hnil
          have := congrArg List.length hnil
          rw [List.length_take, List.length_drop] at this
          simp only [List.length_nil] at this
          omega
        · exact List.length_take_le _ _
        · exact ((List.take_sublist _ _).trans (List.drop_sublist _ _)).trans hxs
        · rw [hfe]; exact colorFrame_eq D _ _ x.2 gi

/-- The colour-frame layout theorem applied to one key on a g815. -/
theorem setKeys_color_frame_layout_witness :
    (KeyboardModel.g815 = .g815 ∨ KeyboardModel.g815 = .g915) ∧
      (setKeys sampleDeclarations 256 .g815 [⟨sampleKeyA, ⟨1, 2, 3⟩⟩] (fun _ _ => true)
        []).isSome = true :=
  ⟨Or.inl rfl,
    (setKeys_color_frame_layout sampleDeclarations 256 .g815 [⟨sampleKeyA, ⟨1, 2, 3⟩⟩]
      (fun _ _ => true) [] (Or.inl rfl)).1 (by decide) (by decide)⟩

/-- C7: `commit` on a g810 transmits exactly one frame, the 20 bytes
`0x11 0xff 0x0c 0x5a` followed by sixteen zero bytes, and returns the outcome
of that send; on each transactional model it transmits exactly one 20-byte
frame made of the fixed 4-byte magic of the model followed by zeros. -/
theorem commit_frames (t : Transport) (sent : List Frame) :
    commit .g810 t sent =
        (t sent.length [0x11, 0xff, 0x0c, 0x5a, 0, 0, 0, 0, 0, 0, 0, 0, 0, 0, 0, 0, 0, 0, 0, 0],
          sent ++ [[0x11, 0xff, 0x0c, 0x5a, 0, 0, 0, 0, 0, 0, 0, 0, 0, 0, 0, 0, 0, 0, 0, 0]]) ∧
      commit .g410 t sent =
        (t sent.length ([0x11, 0xff, 0x0c, 0x5a] ++ List.replicate 16 0),
          sent ++ [[0x11, 0xff, 0x0c, 0x5a] ++ List.replicate 16 0]) ∧
      commit .g512 t sent =
        (t sent.length ([0x11, 0xff, 0x0c, 0x5a] ++ List.replicate 16 0),
          sent ++ [[0x11, 0xff, 0x0c, 0x5a] ++ List.replicate 16 0]) ∧
      commit .g513 t sent =
        (t sent.length ([0x11, 0xff, 0x0c, 0x5a] ++ List.replicate 16 0),
          sent ++ [[0x11, 0xff, 0x0c, 0x5a] ++ List.replicate 16 0]) ∧
      commit .g610 t sent =
        (t sent.length ([0x11, 0xff, 0x0c, 0x5a] ++ List.replicate 16 0),
          sent ++ [[0x11, 0xff, 0x0c, 0x5a] ++ List.replicate 16 0]) ∧
      commit .gpro t sent =
        (t sent.length ([0x11, 0xff, 0x0c, 0x5a] ++ List.replicate 16 0),
          sent ++ [[0x11, 0xff, 0x0c, 0x5a] ++ List.replicate 16 0]) ∧
      commit .g815 t sent =
        (t sent.length ([0x11, 0xff, 0x10, 0x7f] ++ List.replicate 16 0),
          sent ++ [[0x11, 0xff, 0x10, 0x7f] ++ List.replicate 16 0]) ∧
      commit .g910 t sent =
        (t sent.length ([0x11, 0xff, 0x0f, 0x5d] ++ List.replicate 16 0),
          sent ++ [[0x11, 0xff, 0x0f, 0x5d] ++ List.replicate 16 0]) ∧
      commit .g915 t sent =
        (t sent.length ([0x11, 0x01, 0x0b, 0x7f] ++ List.replicate 16 0),
          sent ++ [[0x11, 0x01, 0x0b, 0x7f] ++ List.replicate 16 0]) :=
  ⟨rfl, rfl, rfl, rfl, rfl, rfl, rfl, rfl, rfl⟩

/-- C8: `commit` on a non-transactional model (g213, g413) returns `true` and
transmits no frame, whatever the transport would answer; on the model
`unknown` it returns `false` and transmits no frame. -/
theorem commit_without_transfer (t : Transport) (sent : List Frame) :
    commit .g213 t sent = (true, sent) ∧ commit .g413 t sent = (true, sent) ∧
      commit .unknown t sent = (false, sent) :=
  ⟨rfl, rfl, rfl⟩

/-- C9: `setStartupMode` on a g213 transmits exactly one 20-byte frame,
`0x11 0xff 0x0d 0x5a 0x00 0x01`, the byte of the mode and thirteen zero bytes,
for every mode value, and returns the outcome of that send; on the models
outside g213, g410, g610, g810, gpro and g910 it returns `false` and transmits
nothing. -/
theorem setStartupMode_frames (startupMode : Nat) (t : Transport) (sent : List Frame) :
    setStartupMode .g213 startupMode t sent =
        (t sent.length
            ([0x11, 0xff, 0x0d, 0x5a, 0x00, 0x01, startupMode % 256] ++ List.replicate 13 0),
          sent ++
            [[0x11, 0xff, 0x0d, 0x5a, 0x00, 0x01, startupMode % 256] ++ List.replicate 13 0]) ∧
      ([0x11, 0xff, 0x0d, 0x5a, 0x00, 0x01, startupMode % 256] ++
        List.replicate 13 0).length = 20 ∧
      setStartupMode .unknown startupMode t sent = (false, sent) ∧
      setStartupMode .g413 startupMode t sent = (false, sent) ∧
      setStartupMode .g512 startupMode t sent = (false, sent) ∧
      setStartupMode .g513 startupMode t sent = (false, sent) ∧
      setStartupMode .g815 startupMode t sent = (false, sent) ∧
      setStartupMode .g915 startupMode t sent = (false, sent) :=
  ⟨rfl, rfl, rfl, rfl, rfl, rfl, rfl, rfl⟩

/-- C10: `setMRKey`, `setMNKey` and `setGKeysMode` return `false` and transmit
no frame for every value outside the accepted set of the model (MR and G-keys
mode: 0 and 1 on g815, g915 and g910; MN: 1 to 3 on g815 and g915, 0 to 7 on
g910) and for every value on every other model. -/
theorem modeSetters_reject (model : KeyboardModel) (value : Nat) (t : Transport)
    (sent : List Frame) :
    (¬ ((model = .g815 ∨ model = .g915 ∨ model = .g910) ∧ (value = 0 ∨ value = 1)) →
        setMRKey model value t sent = (false, sent)) ∧
      (¬ (((model = .g815 ∨ model = .g915) ∧ 1 ≤ value ∧ value ≤ 3) ∨
            (model = .g910 ∧ value ≤ 7)) →
        setMNKey model value t sent = (false, sent)) ∧
      (¬ ((model = .g815 ∨ model = .g915 ∨ model = .g910) ∧ (value = 0 ∨ value = 1)) →
        setGKeysMode model value t sent = (false, sent)) := by
  refine ⟨?_, ?_, ?_⟩
  · intro h
    cases model <;> first | rfl | (
      match value, h with
      | 0, h => exact absurd ⟨by simp, by simp⟩ h
      | 1, h => exact absurd ⟨by simp, by simp⟩ h
      | n + 2, _ => rfl)
  · intro h
    cases model <;> first | rfl | (
      match value, h with
      | 0, h => first | rfl | exact absurd (by simp) h
      | 1, h => exact absurd (by simp) h
      | 2, h => exact absurd (by simp) h
      | 3, h => exact absurd (by simp) h
      | 4, h => first | rfl | exact absurd (by simp) h
      | 5, h => first | rfl | exact absurd (by simp) h
      | 6, h => first | rfl | exact absurd (by simp) h
      | 7, h => first | rfl | exact absurd (by simp) h
      | n + 8, _ => rfl)
  · intro h
    cases model <;> first | rfl | (
      match value, h with
      | 0, h => exact absurd ⟨by simp, by simp⟩ h
      | 1, h => exact absurd ⟨by simp, by simp⟩ h
      | n + 2, _ => rfl)

/-- The rejection theorem applied to the value 2 for MR and G-keys mode and to
the value 4 for MN on a g815, and to the value 8 for MN on a g910. -/
theorem modeSetters_reject_witness :
    setMRKey .g815 2 (fun _ _ => true) [] = (false, []) ∧
      setMNKey .g815 4 (fun _ _ => true) [] = (false, []) ∧
      setGKeysMode .g815 2 (fun _ _ => true) [] = (false, []) ∧
      setMNKey .g910 8 (fun _ _ => true) [] = (false, []) :=
  ⟨(modeSetters_reject .g815 2 (fun _ _ => true) []).1 (by decide),
    (modeSetters_reject .g815 4 (fun _ _ => true) []).2.1 (by decide),
    (modeSetters_reject .g815 2 (fun _ _ => true) []).2.2 (by decide),
    (modeSetters_reject .g910 8 (fun _ _ => true) []).2.1 (by decide)⟩

/-! ### Key arrays and the indicator step -/

/-- On a key array of fewer than 256 keys the loop appends one key value per
key, in order, provided the fuel covers them. -/
theorem pushKeyArray_eq (keyArray : List Nat) (color : Color) (h : keyArray.length < 256) :
    ∀ (fuel i : Nat) (keyValues : List KeyValue), i ≤ keyArray.length →
      keyArray.length - i < fuel →
      pushKeyArray keyArray color fuel i keyValues =
        some (keyValues ++ (keyArray.drop i).map (fun k => ⟨k, color⟩)) := by
  intro fuel
  induction fuel with
  | zero => intro i kvs _ hf; omega
  | succ n ih =>
    intro i kvs hi hf
    rw [pushKeyArray]
    by_cases hlt : i < keyArray.length
    · have hmod : (i + 1) % 256 = i + 1 := Nat.mod_eq_of_lt (by omega)
      rw [dif_pos hlt, hmod, ih (i + 1) _ (by omega) (by omega),
        List.drop_eq_getElem_cons hlt, List.map_cons, List.append_assoc,
        List.singleton_append]
    · have hi2 : i = keyArray.length := by omega
      rw [dif_neg hlt, hi2, List.drop_length]
      simp

/-- The method `setGroupKeys` returns on a key array of fewer than 256 keys. -/
theorem setGroupKeys_isSome (D : Declarations) (G : KeyGroups) (fuel : Nat)
    (model : KeyboardModel) (keyGroup : KeyGroup) (color : Color) (t : Transport)
    (sent : List Frame) (hlen : (keyArrayOf G keyGroup).length < 256) (hfuel : 256 ≤ fuel) :
    (setGroupKeys D G fuel model keyGroup color t sent).isSome = true := by
  unfold setGroupKeys
  rw [pushKeyArray_eq _ color hlen fuel 0 [] (Nat.zero_le _) (by omega)]
  simp only [List.drop_zero, List.nil_append]
  have hl : ((keyArrayOf G keyGroup).map (fun k => (⟨k, color⟩ : KeyValue))).length < 256 := by
    rw [List.length_map]; exact hlen
  generalize (keyArrayOf G keyGroup).map (fun k => (⟨k, color⟩ : KeyValue)) = kvs at hl
  by_cases hne : kvs = []
  · rw [hne]; rfl
  · have hsome := setKeysPlan_isSome D fuel model kvs hl hfuel
    rw [setKeys_eq_plan D fuel model kvs t sent hne]
    cases hp : setKeysPlan D fuel model kvs with
    | none => rw [hp] at hsome; simp at hsome
    | some frames => rfl

/-- The indicator step: on the effect groups color and breathing it is
`setGroupKeys` on the indicators with the requested colour followed by
`commit`, on the groups cycle, waves and ripple the same with white, and
nothing on any other group. -/
theorem setNativeEffectIndicators_eq (D : Declarations) (G : KeyGroups)
    (E : EffectDeclarations) (fuel : Nat) (model : KeyboardModel) (g : Nat) (color : Color)
    (t : Transport) (sent : List Frame) :
    setNativeEffectIndicators D G E fuel model g color t sent =
      if g = E.group.color ∨ g = E.group.breathing then
        (setGroupKeys D G fuel model .indicators color t sent).bind
          (fun r => if r.1 then some (commit model t r.2) else some (false, r.2))
      else if g = E.group.cycle ∨ g = E.group.waves ∨ g = E.group.ripple then
        (setGroupKeys D G fuel model .indicators ⟨0xff, 0xff, 0xff⟩ t sent).bind
          (fun r => if r.1 then some (commit model t r.2) else some (false, r.2))
      else some (true, sent) := by
  have hc : ∀ s : List Frame,
      (if (commit model t s).1 then some (true, (commit model t s).2)
        else some (false, (commit model t s).2)) = some (commit model t s) := by
    intro s
    cases h : (commit model t s).1
    · simp only [Bool.false_eq_true, if_false]
      rw [← h]
    · simp only [if_true]
      rw [← h]
  unfold setNativeEffectIndicators
  simp only [hc]
  split_ifs <;> first | rfl | (cases setGroupKeys D G fuel model .indicators _ t sent <;> rfl)

theorem setNativeEffect_succ (D : Declarations) (G : KeyGroups) (E : EffectDeclarations)
    (model : KeyboardModel) (fuel : Nat) :
    setNativeEffect D G E model (fuel + 1) =
      setNativeEffectBody D G E model (setNativeEffect D G E model fuel) fuel := rfl

/-- A call of `setNativeEffect` on a concrete part returns when the fuel covers
two calls and the effect color is not in the effect group waves. -/
theorem setNativeEffect_part_isSome (D : Declarations) (G : KeyGroups)
    (E : EffectDeclarations) (model : KeyboardModel) (fuel effect : Nat)
    (part : NativeEffectPart) (period : Nat) (color : Color) (storage : Nat) (t : Transport)
    (sent : List Frame) (hpart : part ≠ .all)
    (hE : (E.effect.color % 65536) >>> 8 ≠ E.group.waves) :
    (setNativeEffect D G E model (fuel + 2) effect part period color storage t sent).isSome =
      true := by
  have h1 : ∀ (p : NativeEffectPart) (c : Color) (per : Nat) (s : List Frame), p ≠ .all →
      (setNativeEffect D G E model (fuel + 1) E.effect.color p per c storage t s).isSome =
        true := by
    intro p c per s hp
    rw [setNativeEffect_succ]
    simp only [setNativeEffectBody, if_neg hp, hE, false_and, if_false]
    cases model <;> simp only [] <;> first | rfl | (split_ifs <;> rfl)
  have h1' := h1 part ⟨0x00, 0xff, 0xff⟩ 0 sent hpart
  rw [setNativeEffect_succ]
  simp only [setNativeEffectBody, if_neg hpart]
  cases model <;> simp only [] <;> first | rfl | (split_ifs <;> first | rfl | exact h1')

/-! ### Models without per-key addressing, and the tenkeyless model -/

/-- On the models g213 and g413 every group header is empty, and `setKeys`
with a non-empty list of fewer than 256 assignments returns `true` without
handing any frame to the transport. -/
theorem setKeys_without_key_addressing (D : Declarations) (fuel : Nat) (model : KeyboardModel)
    (keyValues : List KeyValue) (t : Transport) (sent : List Frame)
    (hm : model = .g213 ∨ model = .g413) (hne : keyValues ≠ [])
    (hlen : keyValues.length < 256) (hfuel : 256 ≤ fuel) :
    (∀ g, getKeyGroupAddress model g = []) ∧
      setKeys D fuel model keyValues t sent = some (true, sent) := by
  have hhdr : ∀ g, getKeyGroupAddress model g = [] := by
    intro g
    rcases hm with h | h <;> subst h <;> rfl
  refine ⟨hhdr, ?_⟩
  have hmm : model ≠ .g815 ∧ model ≠ .g915 := by
    rcases hm with h | h <;> subst h <;> exact ⟨by decide, by decide⟩
  obtain ⟨s, hs, _⟩ := partitionKeys_eq_filter_take D model keyValues fuel hlen hfuel
  have hinv := partitionKeys_inv D model keyValues fuel s hs
  have hgd : ∀ kag, groupData model kag = [] := by
    intro kag
    unfold groupData
    split <;> first | exact hhdr _ | rfl
  have hplan : setKeysPlan D fuel model keyValues = some [] := by
    rw [setKeysPlan_group D fuel model keyValues hmm, hs]
    simp only []
    rw [groupPlan_all model s fuel (by omega) hmm hinv]
    simp only [hgd, if_true, List.flatMap_cons, List.flatMap_nil, List.append_nil]
  obtain ⟨retval, h1, h2⟩ := setKeys_of_plan D fuel model keyValues t sent hne [] hplan
  have hr : retval = true := h2.2 (fun k hk => absurd hk (by simp))
  rw [h1, hr, List.append_nil]

/-- On the model g410 the switch of the partition loop offers a key value to
the keys group exactly when its group byte is the keys group (and none of the
groups tested before it) and its code is outside the range from `num_lock` to
`num_dot`; the only other group vector it fills is the indicators. -/
theorem sortSlot_g410 (D : Declarations) (kv : KeyValue) (idx : Nat)
    (h : sortSlot D .g410 kv = some idx) :
    (idx = 1 ∧ toKeyAddressGroup ((kv.key % 65536) >>> 8) = D.group .indicators) ∨
      (idx = 4 ∧ toKeyAddressGroup ((kv.key % 65536) >>> 8) = D.group .keys ∧
        (kv.key < D.key.num_lock ∨ kv.key > D.key.num_dot)) := by
  unfold sortSlot at h
  simp only [] at h
  split_ifs at h with h1 h2 h3 h4 h5 h6
  · simp only [Option.some.injEq] at h
    exact Or.inl ⟨h.symm, h2⟩
  · simp only [Option.some.injEq] at h
    exact Or.inr ⟨h.symm, h5, h6⟩

/-- On the model g410, for a non-empty list of fewer than 256 assignments:
`setKeys` returns after handing over the frames planned from the retained
assignments; the keys group retains the first 121 assignments offered to it,
none of which has a code from `num_lock` to `num_dot`, so the assignments of
that range take none of the 121 places; and when no code of that range carries
the group byte of the indicators, no retained assignment of any group has a
code in that range. -/
theorem setKeys_g410_numeric_pad (D : Declarations) (fuel : Nat)
    (keyValues : List KeyValue) (t : Transport) (sent : List Frame)
    (hne : keyValues ≠ []) (hlen : keyValues.length < 256) (hfuel : 256 ≤ fuel) :
    ∃ s frames retval,
      partitionKeys D .g410 keyValues fuel 0 [[], [], [], [], []] = some s ∧
      groupPlan .g410 s fuel [0, 1, 2, 3, 4] = some frames ∧
      setKeys D fuel .g410 keyValues t sent = some (retval, sent ++ frames) ∧
      s.at 4 = (keyValues.filter (fun kv => sortSlot D .g410 kv = some 4)).take 121 ∧
      (∀ kv, sortSlot D .g410 kv = some 4 ↔
        (toKeyAddressGroup ((kv.key % 65536) >>> 8) ≠ D.group .logo ∧
          toKeyAddressGroup ((kv.key % 65536) >>> 8) ≠ D.group .indicators ∧
          toKeyAddressGroup ((kv.key % 65536) >>> 8) ≠ D.group .multimedia ∧
          toKeyAddressGroup ((kv.key % 65536) >>> 8) ≠ D.group .gkeys ∧
          toKeyAddressGroup ((kv.key % 65536) >>> 8) = D.group .keys ∧
          (kv.key < D.key.num_lock ∨ kv.key > D.key.num_dot))) ∧
      (∀ kv, kv ∈ s.at 4 → kv.key < D.key.num_lock ∨ kv.key > D.key.num_dot) ∧
      ((∀ kv : KeyValue, D.key.num_lock ≤ kv.key → kv.key ≤ D.key.num_dot →
          toKeyAddressGroup ((kv.key % 65536) >>> 8) ≠ D.group .indicators) →
        ∀ idx, idx ≤ 4 → ∀ kv, kv ∈ s.at idx →
          kv.key < D.key.num_lock ∨ kv.key > D.key.num_dot) := by
  have hmm : KeyboardModel.g410 ≠ .g815 ∧ KeyboardModel.g410 ≠ .g915 :=
    ⟨by decide, by decide⟩
  obtain ⟨s, hs, hat⟩ := partitionKeys_eq_filter_take D .g410 keyValues fuel hlen hfuel
  have hinv := partitionKeys_inv D .g410 keyValues fuel s hs
  have hgp := groupPlan_all .g410 s fuel (by omega) hmm hinv
  have hplan : setKeysPlan D fuel .g410 keyValues = groupPlan .g410 s fuel [0, 1, 2, 3, 4] := by
    rw [setKeysPlan_group D fuel .g410 keyValues hmm, hs]
  obtain ⟨retval, h1, _⟩ := setKeys_of_plan D fuel .g410 keyValues t sent hne _
    (hplan.trans hgp)
  have hmem : ∀ idx, idx ≤ 4 → ∀ kv, kv ∈ s.at idx → sortSlot D .g410 kv = some idx := by
    intro idx hidx kv hkv
    rw [hat idx hidx] at hkv
    have := List.mem_of_mem_take hkv
    rw [List.mem_filter] at this
    simpa using this.2
  refine ⟨s, _, retval, hs, hgp, h1, hat 4 (by omega), ?_, ?_, ?_⟩
  · intro kv
    constructor
    · intro h
      unfold sortSlot at h
      simp only [] at h
      split_ifs at h with h1 h2 h3 h4 h5 h6
      · simp at h
      · exact ⟨h1, h2, h3, h4, h5, h6⟩
    · rintro ⟨h1, h2, h3, h4, h5, h6⟩
      unfold sortSlot
      simp only []
      rw [if_neg h1, if_neg h2, if_neg h3, if_neg h4, if_pos h5, if_pos h6]
  · intro kv hkv
    rcases sortSlot_g410 D kv 4 (hmem 4 (by omega) kv hkv) with ⟨h, _⟩ | ⟨_, _, h⟩
    · omega
    · exact h
  · intro hD idx hidx kv hkv
    rcases sortSlot_g410 D kv idx (hmem idx hidx kv hkv) with ⟨_, h⟩ | ⟨_, _, h⟩
    · by_contra hc
      exact hD kv (by omega) (by omega) h
    · exact h

/-! ### Discovery with a serial filter -/

/-- With the raw-USB back end and a serial filter that is not empty, the device
at which the discovery loop of `open` stops has a serial number and reports a
serial equal to the filter. -/
theorem libusbSelect_serial (SupportedKeyboards : List SupportedKeyboard)
    (vendorID productID : Nat) (serial : String) (hserial : serial ≠ "") :
    ∀ (devs : List libusb_device) (currentDevice : DeviceInfo) (d : libusb_device)
      (found : DeviceInfo),
      libusbSelect SupportedKeyboards vendorID productID serial devs currentDevice =
        (some d, found) →
      0 < d.iSerialNumber ∧ d.string_descriptor d.iSerialNumber = some serial := by
  intro devs
  induction devs with
  | nil => intro cur d found h; simp [libusbSelect] at h
  | cons device rest ih =>
    intro cur d found h
    rw [libusbSelect] at h
    split_ifs at h <;>
      first
      | exact ih _ _ _ h
      | (simp only [Prod.mk.injEq, Option.some.injEq] at h
         rw [← h.1]
         exact ⟨by omega, by assumption⟩)

/-- With the hidapi back end and a serial filter that is not empty, the device
at which the discovery loop of `open` stops either reports no serial or
reports a serial equal to the filter. -/
theorem hidapiSelect_serial (SupportedKeyboards : List SupportedKeyboard) (serial : String)
    (hserial : serial ≠ "") :
    ∀ (devs : List hid_device_info) (currentDevice : DeviceInfo) (d : hid_device_info)
      (found : DeviceInfo), currentDevice.model = .unknown →
      hidapiSelect SupportedKeyboards serial devs currentDevice = (some d, found) →
      d.serial_number = none ∨ d.serial_number = some serial := by
  have hmatch : ∀ (dev : hid_device_info) (rows : List SupportedKeyboard) (cur : DeviceInfo),
      cur.model = .unknown → (hidapiMatch serial dev rows cur).model ≠ .unknown →
      dev.serial_number = none ∨ dev.serial_number = some serial := by
    intro dev rows
    induction rows with
    | nil => intro cur hc h; exact absurd hc h
    | cons row rest ih =>
      intro cur hc h
      rw [hidapiMatch] at h
      split_ifs at h with h1 h2
      · exact absurd hc h
      · by_cases hn : dev.serial_number = none
        · exact Or.inl hn
        · by_cases hs : dev.serial_number = some serial
          · exact Or.inr hs
          · exact absurd ⟨hserial, hn, hs⟩ h2
      · exact ih cur hc h
  intro devs
  induction devs with
  | nil => intro cur d found _ h; simp [hidapiSelect] at h
  | cons dev rest ih =>
    intro cur d found hc h
    rw [hidapiSelect] at h
    split_ifs at h with h1
    · simp only [Prod.mk.injEq, Option.some.injEq] at h
      rw [← h.1]
      exact hmatch dev _ cur hc h1
    · exact ih _ _ _ (by simpa using h1) h

/-! ### Mode setters, native effects, all keys, session -/

/-- C11 (as stated, refuted): `setMNKey(3)` on a g815 is accepted and its
frame carries `0x04`, not the requested value 3, at byte index 4. -/
theorem setMNKey_three_sends_four :
    setMNKey .g815 3 (fun _ _ => true) [] =
        (true, [[0x11, 0xff, 0x0b, 0x1c, 0x04, 0, 0, 0, 0, 0, 0, 0, 0, 0, 0, 0, 0, 0, 0, 0]]) ∧
      ([0x11, 0xff, 0x0b, 0x1c, 0x04, 0, 0, 0, 0, 0, 0, 0, 0, 0, 0, 0, 0, 0, 0, 0] :
        Frame).getD 4 0 ≠ 3 := by
  decide

/-- C11 (amended): for every model and every value accepted by `setMRKey`,
`setMNKey` or `setGKeysMode`, the single frame transmitted is 20 bytes long,
has the fixed 4-byte header of the model and is zero in bytes 5 to 19; byte 4
carries the requested value itself, except for `setMNKey` on a g815 or g915,
where the values 1, 2, 3 are sent as `0x01`, `0x02`, `0x04`. -/
theorem modeSetters_frames (model : KeyboardModel) (value : Nat) (t : Transport)
    (sent : List Frame) :
    ((model = .g815 ∨ model = .g915 ∨ model = .g910) ∧ (value = 0 ∨ value = 1) →
        setMRKey model value t sent =
          (t sent.length
              ((if model = .g815 then [0x11, 0xff, 0x0c, 0x0c]
                else if model = .g915 then [0x11, 0x01, 0x13, 0x0c]
                else [0x11, 0xff, 0x0a, 0x0e]) ++ [value] ++ List.replicate 15 0),
            sent ++
              [(if model = .g815 then [0x11, 0xff, 0x0c, 0x0c]
                else if model = .g915 then [0x11, 0x01, 0x13, 0x0c]
                else [0x11, 0xff, 0x0a, 0x0e]) ++ [value] ++ List.replicate 15 0])) ∧
      ((model = .g815 ∨ model = .g915) ∧ 1 ≤ value ∧ value ≤ 3 →
        setMNKey model value t sent =
          (t sent.length
              ((if model = .g815 then [0x11, 0xff, 0x0b, 0x1c] else [0x11, 0x01, 0x12, 0x1c]) ++
                [if value = 3 then 0x04 else value] ++ List.replicate 15 0),
            sent ++
              [(if model = .g815 then [0x11, 0xff, 0x0b, 0x1c] else [0x11, 0x01, 0x12, 0x1c]) ++
                [if value = 3 then 0x04 else value] ++ List.replicate 15 0])) ∧
      (model = .g910 ∧ value ≤ 7 →
        setMNKey model value t sent =
          (t sent.length ([0x11, 0xff, 0x09, 0x1e] ++ [value] ++ List.replicate 15 0),
            sent ++ [[0x11, 0xff, 0x09, 0x1e] ++ [value] ++ List.replicate 15 0])) ∧
      ((model = .g815 ∨ model = .g915 ∨ model = .g910) ∧ (value = 0 ∨ value = 1) →
        setGKeysMode model value t sent =
          (t sent.length
              ((if model = .g815 then [0x11, 0xff, 0x0a, 0x2b]
                else if model = .g915 then [0x11, 0x01, 0x11, 0x2b]
                else [0x11, 0xff, 0x08, 0x2e]) ++ [value] ++ List.replicate 15 0),
            sent ++
              [(if model = .g815 then [0x11, 0xff, 0x0a, 0x2b]
                else if model = .g915 then [0x11, 0x01, 0x11, 0x2b]
                else [0x11, 0xff, 0x08, 0x2e]) ++ [value] ++ List.replicate 15 0])) := by
  refine ⟨?_, ?_, ?_, ?_⟩
  · rintro ⟨hm, hv⟩
    rcases hm with h | h | h <;> subst h <;> rcases hv with h | h <;> subst h <;> rfl
  · rintro ⟨hm, h1, h3⟩
    have hv : value = 1 ∨ value = 2 ∨ value = 3 := by omega
    rcases hm with h | h <;> subst h <;> rcases hv with h | h | h <;> subst h <;> rfl
  · rintro ⟨hm, h7⟩
    subst hm
    have hv : value = 0 ∨ value = 1 ∨ value = 2 ∨ value = 3 ∨ value = 4 ∨ value = 5 ∨
        value = 6 ∨ value = 7 := by omega
    rcases hv with h | h | h | h | h | h | h | h <;> subst h <;> rfl
  · rintro ⟨hm, hv⟩
    rcases hm with h | h | h <;> subst h <;> rcases hv with h | h <;> subst h <;> rfl

/-- The frame theorem applied to MR 1 on a g915, MN 3 on a g915, MN 7 on a
g910 and G-keys mode 0 on a g910. -/
theorem modeSetters_frames_witness :
    setMRKey .g915 1 (fun _ _ => true) [] =
        (true, [[0x11, 0x01, 0x13, 0x0c, 1] ++ List.replicate 15 0]) ∧
      setMNKey .g915 3 (fun _ _ => true) [] =
        (true, [[0x11, 0x01, 0x12, 0x1c, 0x04] ++ List.replicate 15 0]) ∧
      setMNKey .g910 7 (fun _ _ => true) [] =
        (true, [[0x11, 0xff, 0x09, 0x1e, 7] ++ List.replicate 15 0]) ∧
      setGKeysMode .g910 0 (fun _ _ => true) [] =
        (true, [[0x11, 0xff, 0x08, 0x2e, 0] ++ List.replicate 15 0]) :=
  ⟨(modeSetters_frames .g915 1 (fun _ _ => true) []).1 ⟨by decide, by decide⟩,
    (modeSetters_frames .g915 3 (fun _ _ => true) []).2.1 ⟨by decide, by decide, by decide⟩,
    (modeSetters_frames .g910 7 (fun _ _ => true) []).2.2.1 ⟨rfl, by decide⟩,
    (modeSetters_frames .g910 0 (fun _ _ => true) []).2.2.2 ⟨by decide, by decide⟩⟩

/-- C12: `setNativeEffect` with `part = all` performs the indicator step
(`setGroupKeys` on the indicators followed by `commit`, for the effect groups
color, breathing, cycle, waves and ripple), then the call with `part = keys`,
then the call with `part = logo`, each with the same effect, period, colour and
storage and each starting from the frames handed over by the step before; a
step that returns `false` ends the call with `false`, so the call returns
`true` only if the indicator step and both recursive calls return `true`. -/
theorem setNativeEffect_all (D : Declarations) (G : KeyGroups) (E : EffectDeclarations)
    (model : KeyboardModel) (fuel effect period : Nat) (color : Color) (storage : Nat)
    (t : Transport) (sent : List Frame) :
    (setNativeEffectIndicators D G E fuel model ((effect % 65536) >>> 8) color t sent =
        if (effect % 65536) >>> 8 = E.group.color ∨
            (effect % 65536) >>> 8 = E.group.breathing then
          (setGroupKeys D G fuel model .indicators color t sent).bind
            (fun r => if r.1 then some (commit model t r.2) else some (false, r.2))
        else if (effect % 65536) >>> 8 = E.group.cycle ∨
            (effect % 65536) >>> 8 = E.group.waves ∨
            (effect % 65536) >>> 8 = E.group.ripple then
          (setGroupKeys D G fuel model .indicators ⟨0xff, 0xff, 0xff⟩ t sent).bind
            (fun r => if r.1 then some (commit model t r.2) else some (false, r.2))
        else some (true, sent)) ∧
      (∀ pre, setNativeEffectIndicators D G E fuel model ((effect % 65536) >>> 8) color t sent =
          some pre → pre.1 = false →
        setNativeEffect D G E model (fuel + 1) effect .all period color storage t sent =
          some (false, pre.2)) ∧
      (∀ pre k,
        setNativeEffectIndicators D G E fuel model ((effect % 65536) >>> 8) color t sent =
          some pre → pre.1 = true →
        setNativeEffect D G E model fuel effect .keys period color storage t pre.2 = some k →
        k.1 = false →
        setNativeEffect D G E model (fuel + 1) effect .all period color storage t sent =
          some (false, k.2)) ∧
      (∀ pre k,
        setNativeEffectIndicators D G E fuel model ((effect % 65536) >>> 8) color t sent =
          some pre → pre.1 = true →
        setNativeEffect D G E model fuel effect .keys period color storage t pre.2 = some k →
        k.1 = true →
        setNativeEffect D G E model (fuel + 1) effect .all period color storage t sent =
          setNativeEffect D G E model fuel effect .logo period color storage t k.2) ∧
      (∀ r, setNativeEffect D G E model (fuel + 1) effect .all period color storage t sent =
          some r → r.1 = true →
        ∃ pre k,
          setNativeEffectIndicators D G E fuel model ((effect % 65536) >>> 8) color t sent =
            some pre ∧ pre.1 = true ∧
          setNativeEffect D G E model fuel effect .keys period color storage t pre.2 =
            some k ∧ k.1 = true ∧
          setNativeEffect D G E model fuel effect .logo period color storage t k.2 = some r) ∧
      (G.keyGroupIndicators.length < 256 → (E.effect.color % 65536) >>> 8 ≠ E.group.waves →
        256 ≤ fuel →
        (setNativeEffect D G E model (fuel + 1) effect .all period color storage t
          sent).isSome = true) := by
  have hall : setNativeEffect D G E model (fuel + 1) effect .all period color storage t sent =
      match setNativeEffectIndicators D G E fuel model ((effect % 65536) >>> 8) color t sent with
      | none => none
      | some pre =>
        if pre.1 then
          match setNativeEffect D G E model fuel effect .keys period color storage t pre.2 with
          | none => none
          | some k =>
            if k.1 then setNativeEffect D G E model fuel effect .logo period color storage t k.2
            else some (false, k.2)
        else some (false, pre.2) := by
    rw [setNativeEffect_succ]
    simp only [setNativeEffectBody, if_true]
  refine ⟨setNativeEffectIndicators_eq D G E fuel model _ color t sent, ?_, ?_, ?_, ?_, ?_⟩
  · intro pre hpre hf
    rw [hall, hpre]
    simp only [hf, Bool.false_eq_true, if_false]
  · intro pre k hpre ht hk hf
    rw [hall, hpre]
    simp only [ht, if_true, hk, hf, Bool.false_eq_true, if_false]
  · intro pre k hpre ht hk hkt
    rw [hall, hpre]
    simp only [ht, if_true, hk, hkt]
  · intro r hr hrt
    rw [hall] at hr
    cases hpre : setNativeEffectIndicators D G E fuel model ((effect % 65536) >>> 8) color t
        sent with
    | none => rw [hpre] at hr; simp at hr
    | some pre =>
      rw [hpre] at hr
      simp only [] at hr
      cases hp1 : pre.1 with
      | false =>
        rw [hp1] at hr
        simp only [Bool.false_eq_true, if_false, Option.some.injEq] at hr
        rw [← hr] at hrt; simp at hrt
      | true =>
        rw [hp1] at hr
        simp only [if_true] at hr
        cases hk : setNativeEffect D G E model fuel effect .keys period color storage t
            pre.2 with
        | none => rw [hk] at hr; simp at hr
        | some k =>
          rw [hk] at hr
          simp only [] at hr
          cases hk1 : k.1 with
          | false =>
            rw [hk1] at hr
            simp only [Bool.false_eq_true, if_false, Option.some.injEq] at hr
            rw [← hr] at hrt; simp at hrt
          | true =>
            rw [hk1] at hr
            simp only [if_true] at hr
            exact ⟨pre, k, rfl, hp1, hk, hk1, hr⟩
  · intro hG hE hfuel
    obtain ⟨f, rfl⟩ : ∃ f, fuel = f + 2 := ⟨fuel - 2, by omega⟩
    have hgk : ∀ c, (setGroupKeys D G (f + 2) model .indicators c t sent).isSome = true :=
      fun c => setGroupKeys_isSome D G (f + 2) model .indicators c t sent hG (by omega)
    have hind : (setNativeEffectIndicators D G E (f + 2) model ((effect % 65536) >>> 8) color
        t sent).isSome = true := by
      rw [setNativeEffectIndicators_eq]
      split_ifs
      · have := hgk color
        cases hs : setGroupKeys D G (f + 2) model .indicators color t sent with
        | none => rw [hs] at this; simp at this
        | some r => simp only [Option.some_bind]; split_ifs <;> rfl
      · have := hgk ⟨0xff, 0xff, 0xff⟩
        cases hs : setGroupKeys D G (f + 2) model .indicators ⟨0xff, 0xff, 0xff⟩ t sent with
        | none => rw [hs] at this; simp at this
        | some r => simp only [Option.some_bind]; split_ifs <;> rfl
      · rfl
    rw [hall]
    cases hpre : setNativeEffectIndicators D G E (f + 2) model ((effect % 65536) >>> 8) color
        t sent with
    | none => rw [hpre] at hind; simp at hind
    | some pre =>
      simp only []
      have hkeys := setNativeEffect_part_isSome D G E model f effect .keys period color storage
        t pre.2 (by decide) hE
      cases hk : setNativeEffect D G E model (f + 2) effect .keys period color storage t
          pre.2 with
      | none => rw [hk] at hkeys; simp at hkeys
      | some k =>
        simp only []
        have hlogo := setNativeEffect_part_isSome D G E model f effect .logo period color
          storage t k.2 (by decide) hE
        split_ifs <;> first | rfl | exact hlogo

/-- The theorem on `part = all` applied to a horizontal wave on a g810: the
call returns. -/
theorem setNativeEffect_all_witness :
    (setNativeEffect sampleDeclarations sampleKeyGroups sampleEffectDeclarations .g810 (256 + 1)
      0x0401 .all 1000 ⟨1, 2, 3⟩ 0 (fun _ _ => true) []).isSome = true :=
  (setNativeEffect_all sampleDeclarations sampleKeyGroups sampleEffectDeclarations .g810 256
    0x0401 1000 ⟨1, 2, 3⟩ 0 (fun _ _ => true) []).2.2.2.2.2 (by decide) (by decide)
    (by decide)

/-- C13: on a model without a logo zone (g213, g413), `setNativeEffect` with
`part = logo` returns `true` and transmits no frame, for every effect, period,
colour and storage value. -/
theorem setNativeEffect_logo_without_logo_zone (D : Declarations) (G : KeyGroups)
    (E : EffectDeclarations) (fuel effect period : Nat) (color : Color) (storage : Nat)
    (t : Transport) (sent : List Frame) :
    setNativeEffect D G E .g213 (fuel + 1) effect .logo period color storage t sent =
        some (true, sent) ∧
      setNativeEffect D G E .g413 (fuel + 1) effect .logo period color storage t sent =
        some (true, sent) :=
  ⟨rfl, rfl⟩

/-- C14: on the models that need no setup frame, `setNativeEffect` with
`part = keys` transmits exactly one 20-byte frame: `0x11`, `0xff`, the two
protocol bytes of the model, the part selector, the effect group
(`effect >> 8`), red, green, blue, the period as a big-endian 16-bit value at
bytes 9-10 and again at bytes 11-12, the wave variation (`effect & 0xff`), `0x64`,
the high byte of the period, the storage flag and three zero bytes; bytes 9 and
10 recompose the 16-bit period. -/
theorem setNativeEffect_keys_frame (D : Declarations) (G : KeyGroups)
    (E : EffectDeclarations) (fuel effect period : Nat) (color : Color) (storage : Nat)
    (t : Transport) (sent : List Frame) :
    let frame : Nat → Nat → Frame := fun pb0 pb1 =>
      [0x11, 0xff, pb0, pb1, E.part .keys % 256, (effect % 65536) >>> 8,
        color.red, color.green, color.blue,
        (period % 65536) >>> 8, (period % 65536) &&& 0xff,
        (period % 65536) >>> 8, (period % 65536) &&& 0xff,
        (effect % 65536) &&& 0xff, 0x64, (period % 65536) >>> 8, storage % 256, 0, 0, 0]
    (∀ model ∈ [KeyboardModel.g213, .g413],
        setNativeEffect D G E model (fuel + 1) effect .keys period color storage t sent =
          some (t sent.length (frame 0x0c 0x3c), sent ++ [frame 0x0c 0x3c])) ∧
      (∀ model ∈ [KeyboardModel.g410, .g512, .g513, .g610, .g810, .gpro],
        setNativeEffect D G E model (fuel + 1) effect .keys period color storage t sent =
          some (t sent.length (frame 0x0d 0x3c), sent ++ [frame 0x0d 0x3c])) ∧
      setNativeEffect D G E .g910 (fuel + 1) effect .keys period color storage t sent =
        some (t sent.length (frame 0x10 0x3c), sent ++ [frame 0x10 0x3c]) ∧
      (∀ pb0 pb1, (frame pb0 pb1).length = 20) ∧
      ∀ pb0 pb1, (frame pb0 pb1).getD 9 0 * 256 + (frame pb0 pb1).getD 10 0 =
        period % 65536 := by
  intro frame
  have hhi : ((period % 65536) >>> 8) % 256 = (period % 65536) >>> 8 := by
    rw [Nat.shiftRight_eq_div_pow]; omega
  have hlo : ((period % 65536) &&& 0xff) % 256 = (period % 65536) &&& 0xff := by
    have := Nat.and_pow_two_sub_one_eq_mod (period % 65536) 8
    norm_num at this
    rw [this]; omega
  have hgr : ((effect % 65536) >>> 8) % 256 = (effect % 65536) >>> 8 := by
    rw [Nat.shiftRight_eq_div_pow]; omega
  have hva : ((effect % 65536) &&& 0xff) % 256 = (effect % 65536) &&& 0xff := by
    have := Nat.and_pow_two_sub_one_eq_mod (effect % 65536) 8
    norm_num at this
    rw [this]; omega
  have hdata : ∀ pb0 pb1,
      nativeEffectData E 0xff pb0 pb1 effect .keys period color storage = frame pb0 pb1 := by
    intro pb0 pb1
    simp only [nativeEffectData, hhi, hlo, hgr, hva, frame]
  have hsend : ∀ pb0 pb1,
      sendDataInternal t (frame pb0 pb1) sent =
        (t sent.length (frame pb0 pb1), sent ++ [frame pb0 pb1]) := by
    intro pb0 pb1; rfl
  refine ⟨?_, ?_, ?_, fun _ _ => rfl, ?_⟩
  · intro model hm
    simp only [List.mem_cons, List.mem_singleton, List.not_mem_nil, or_false] at hm
    rcases hm with h | h <;> subst h <;>
      simp only [setNativeEffect, setNativeEffectBody, hdata, hsend] <;> rfl
  · intro model hm
    simp only [List.mem_cons, List.mem_singleton, List.not_mem_nil, or_false] at hm
    rcases hm with h | h | h | h | h | h <;> subst h <;>
      simp only [setNativeEffect, setNativeEffectBody, hdata, hsend] <;> simp
  · simp only [setNativeEffect, setNativeEffectBody, hdata, hsend]
    simp
  · intro pb0 pb1
    have h1 := Nat.and_pow_two_sub_one_eq_mod (period % 65536) 8
    norm_num at h1
    show (period % 65536) >>> 8 * 256 + ((period % 65536) &&& 0xff) = period % 65536
    rw [Nat.shiftRight_eq_div_pow, h1]
    omega

/-- The frame theorem applied to a horizontal wave of period 1000 ms on the
keys of a g810 and of a g213. -/
theorem setNativeEffect_keys_frame_witness :
    setNativeEffect sampleDeclarations sampleKeyGroups sampleEffectDeclarations .g810 1 0x0401
        .keys 1000 ⟨1, 2, 3⟩ 0 (fun _ _ => true) [] =
      some (true, [[0x11, 0xff, 0x0d, 0x3c, 0x00, 0x04, 1, 2, 3, 0x03, 0xe8, 0x03, 0xe8, 0x01,
        0x64, 0x03, 0, 0, 0, 0]]) ∧
    setNativeEffect sampleDeclarations sampleKeyGroups sampleEffectDeclarations .g213 1 0x0401
        .keys 1000 ⟨1, 2, 3⟩ 0 (fun _ _ => true) [] =
      some (true, [[0x11, 0xff, 0x0c, 0x3c, 0x00, 0x04, 1, 2, 3, 0x03, 0xe8, 0x03, 0xe8, 0x01,
        0x64, 0x03, 0, 0, 0, 0]]) :=
  ⟨(setNativeEffect_keys_frame sampleDeclarations sampleKeyGroups sampleEffectDeclarations 0
      0x0401 1000 ⟨1, 2, 3⟩ 0 (fun _ _ => true) []).2.1 .g810 (by decide),
    (setNativeEffect_keys_frame sampleDeclarations sampleKeyGroups sampleEffectDeclarations 0
      0x0401 1000 ⟨1, 2, 3⟩ 0 (fun _ _ => true) []).1 .g213 (by decide)⟩

/-- C15: on a g213, `setAllKeys` sends the region frames for the regions 1 to 5
in that order, stops at the first region whose send fails and then returns
`false`, and returns `true` exactly when all five sends succeed. -/
theorem setAllKeys_g213_regions (D : Declarations) (G : KeyGroups) (E : EffectDeclarations)
    (fuel : Nat) (color : Color) (t : Transport) (sent : List Frame) :
    let frame : Nat → Frame := fun r =>
      [0x11, 0xff, 0x0c, 0x3a, r, 0x01, color.red, color.green, color.blue] ++
        List.replicate 11 0
    setAllKeys D G E fuel .g213 color t sent =
      some
        (if t sent.length (frame 1) = false then (false, sent ++ [frame 1])
        else if t (sent.length + 1) (frame 2) = false then (false, sent ++ [frame 1, frame 2])
        else if t (sent.length + 2) (frame 3) = false then
          (false, sent ++ [frame 1, frame 2, frame 3])
        else if t (sent.length + 3) (frame 4) = false then
          (false, sent ++ [frame 1, frame 2, frame 3, frame 4])
        else if t (sent.length + 4) (frame 5) = false then
          (false, sent ++ [frame 1, frame 2, frame 3, frame 4, frame 5])
        else (true, sent ++ [frame 1, frame 2, frame 3, frame 4, frame 5])) := by
  intro frame
  have hreg : ∀ (r : Nat) (s : List Frame),
      setRegion .g213 r color t s = (t s.length (frame r), s ++ [frame r]) := by
    intro r s; rfl
  simp only [setAllKeys, setRegions, hreg]
  congr 1
  cases h1 : t sent.length (frame 1) <;> simp
  cases h2 : t (sent.length + 1) (frame 2) <;> simp
  cases h3 : t (sent.length + 2) (frame 3) <;> simp
  cases h4 : t (sent.length + 3) (frame 4) <;> simp
  cases h5 : t (sent.length + 4) (frame 5) <;> simp

/-- C16: on a g413, `setAllKeys` hands one frame to the transport and returns
`true` although the send fails: the result of `setNativeEffect` is dropped. -/
theorem setAllKeys_g413_ignores_failure (D : Declarations) (G : KeyGroups)
    (E : EffectDeclarations) (fuel : Nat) (color : Color) (sent : List Frame) :
    setAllKeys D G E (fuel + 1) .g413 color (fun _ _ => false) sent =
        some (true,
          sent ++ [nativeEffectData E 0xff 0x0c 0x3c E.effect.color .keys 0 color
            E.storageNone]) ∧
      (sendDataInternal (fun _ _ => false)
        (nativeEffectData E 0xff 0x0c 0x3c E.effect.color .keys 0 color E.storageNone)
        sent).1 = false :=
  ⟨rfl, rfl⟩

/-- C17: on a g213, a list of 256 assignments keeps the 8-bit index of the
partition loop below the list size for ever: for every fuel, transport and
history `setKeys` does not return, so it does not return `true`; a list of 255
assignments of the same key returns `true` without a frame. -/
theorem setKeys_g213_256_never_returns (fuel : Nat) (t : Transport) (sent : List Frame) :
    setKeys sampleDeclarations fuel .g213
        (List.replicate 256 ⟨sampleDeclarations.key.caps, ⟨0xff, 0, 0⟩⟩) t sent = none ∧
      setKeys sampleDeclarations (fuel + 256) .g213
        (List.replicate 255 ⟨sampleDeclarations.key.caps, ⟨0xff, 0, 0⟩⟩) t sent =
          some (true, sent) :=
  ⟨setKeys_diverges sampleDeclarations .g213 _ (by rw [List.length_replicate]) fuel t sent,
    (setKeys_without_key_addressing sampleDeclarations (fuel + 256) .g213 _ t sent (Or.inl rfl)
      (by decide) (by rw [List.length_replicate]; decide) (by omega)).2⟩

/-- C18: on a g410, 255 assignments of the key `num_lock` followed by one
assignment of the key `a` keep the 8-bit index of the partition loop below the
list size for ever: for every fuel, transport and history `setKeys` does not
return, so the assignment of `a`, the only one offered to the keys group, is not
encoded in any frame. -/
theorem setKeys_g410_256_never_returns (fuel : Nat) (t : Transport) (sent : List Frame) :
    setKeys sampleDeclarations fuel .g410
        (List.replicate 255 (⟨sampleDeclarations.key.num_lock, ⟨0, 0xff, 0⟩⟩ : KeyValue) ++
          [⟨sampleKeyA, ⟨0, 0, 0xff⟩⟩]) t sent = none ∧
      ((List.replicate 255 (⟨sampleDeclarations.key.num_lock, ⟨0, 0xff, 0⟩⟩ : KeyValue) ++
          [(⟨sampleKeyA, ⟨0, 0, 0xff⟩⟩ : KeyValue)]).filter
        (fun kv => sortSlot sampleDeclarations .g410 kv = some 4)).length = 1 :=
  ⟨setKeys_diverges sampleDeclarations .g410 _
      (by rw [List.length_append, List.length_replicate]; decide) fuel t sent,
    by decide⟩

/-- C19 (as stated, refuted): with the raw-USB back end, from an open session
whose interface cannot be released, the first `close` returns `false`. -/
theorem close_release_failure_returns_false :
    close .libusb (fun _ _ => -1) ⟨true, false, true, true, []⟩ =
      (false, ⟨false, false, true, true, [.libusb_release_interface 1]⟩) := by
  decide

/-- C19 (amended): from every session state, after a first `close` a second
`close` returns `true`, performs no transport operation and leaves the session
as it is, and `isOpen` is `false` after either call; the first `close` returns
`true` too, except with the raw-USB back end when the session is open with a
handle and releasing the interface fails, in which case it returns `false`. -/
theorem close_twice (backend : Backend) (lib lib2 : Library) (s : Session) :
    (close backend lib2 (close backend lib s).2).1 = true ∧
      (close backend lib2 (close backend lib s).2).2 = (close backend lib s).2 ∧
      isOpen (close backend lib s).2 = false ∧
      isOpen (close backend lib2 (close backend lib s).2).2 = false ∧
      ((close backend lib s).1 = false ↔
        backend = .libusb ∧ s.m_isOpen = true ∧ s.m_hidHandle = true ∧
          lib s.calls (.libusb_release_interface 1) ≠ 0) := by
  have hclosed : isOpen (close backend lib s).2 = false := by
    unfold close isOpen
    split_ifs <;> cases backend <;> simp_all
  have hsecond : ∀ s' : Session, isOpen s' = false → close backend lib2 s' = (true, s') := by
    intro s' h
    unfold isOpen at h
    simp [close, h]
  refine ⟨by rw [hsecond _ hclosed], by rw [hsecond _ hclosed], hclosed,
    by rw [hsecond _ hclosed]; exact hclosed, ?_⟩
  unfold close
  cases backend <;> cases ho : s.m_isOpen <;> cases hh : s.m_hidHandle <;>
    cases hk : s.m_isKernellDetached <;>
    by_cases hr : lib s.calls (.libusb_release_interface 1) = 0 <;> simp [hr]

/-- C20: with the hidapi back end and the serial filter "ABC", a catalog-known
device that reports no serial is selected by `open`. -/
theorem hidapiSelect_device_without_serial :
    hidapiSelect sampleSupportedKeyboards "ABC"
        [⟨0x046d, 0xc331, 1, none, none, none, "/dev/hidraw0"⟩] sampleUnknownDevice =
      (some ⟨0x046d, 0xc331, 1, none, none, none, "/dev/hidraw0"⟩,
        ⟨0x046d, 0xc331, "", "", "", "/dev/hidraw0", .g810⟩) := by
  decide

/-! ### Colour keys and the entries of the colour map -/

theorem colorkey_eq_sum (c : Color) (hr : c.red < 256) (hg : c.green < 256)
    (hb : c.blue < 256) : colorkey c = c.red + 256 * c.green + 65536 * c.blue := by
  unfold colorkey
  have h1 : c.red ||| (c.green <<< 8) = 2 ^ 8 * c.green + c.red := by
    have := @Nat.mul_add_lt_is_or 8 c.red (by omega) c.green
    rw [this, Nat.or_comm, Nat.shiftLeft_eq, Nat.mul_comm]
  have h2 : (2 ^ 8 * c.green + c.red) ||| (c.blue <<< 16) =
      2 ^ 16 * c.blue + (2 ^ 8 * c.green + c.red) := by
    have := @Nat.mul_add_lt_is_or 16 (2 ^ 8 * c.green + c.red) (by omega) c.blue
    rw [this, Nat.or_comm, Nat.shiftLeft_eq, Nat.mul_comm]
  rw [h1, h2]; omega

/-- The colour key separates colours with 8-bit channels. -/
theorem colorkey_injective (c1 c2 : Color)
    (h1 : c1.red < 256 ∧ c1.green < 256 ∧ c1.blue < 256)
    (h2 : c2.red < 256 ∧ c2.green < 256 ∧ c2.blue < 256)
    (h : colorkey c1 = colorkey c2) : c1 = c2 := by
  rw [colorkey_eq_sum c1 h1.1 h1.2.1 h1.2.2, colorkey_eq_sum c2 h2.1 h2.2.1 h2.2.2] at h
  cases c1; cases c2
  simp only [Color.mk.injEq] at *
  omega

theorem ColorMap.mem_pushBack_key :
    ∀ (m : ColorMap) (k : Nat) (kv : KeyValue) (x : Nat × List KeyValue),
      x ∈ m.pushBack k kv →
        x ∈ m ∨ (∃ y ∈ m, y.1 = k ∧ x = (y.1, y.2 ++ [kv])) ∨ x = (k, [kv]) := by
  intro m
  induction m with
  | nil => intro k kv x h; simp [ColorMap.pushBack] at h; exact Or.inr (Or.inr h)
  | cons y rest ih =>
    intro k kv x h
    rw [ColorMap.pushBack] at h
    by_cases h1 : k < y.1
    · rw [if_pos h1] at h
      rcases List.mem_cons.1 h with h | h
      · exact Or.inr (Or.inr h)
      · exact Or.inl h
    · rw [if_neg h1] at h
      by_cases h2 : k = y.1
      · rw [if_pos h2] at h
        rcases List.mem_cons.1 h with h | h
        · exact Or.inr (Or.inl ⟨y, List.mem_cons_self _ _, h2.symm, h⟩)
        · exact Or.inl (List.mem_cons_of_mem _ h)
      · rw [if_neg h2] at h
        rcases List.mem_cons.1 h with h | h
        · exact Or.inl (h ▸ List.mem_cons_self _ _)
        · rcases ih k kv x h with h | ⟨z, hz, hzk, h⟩ | h
          · exact Or.inl (List.mem_cons_of_mem _ h)
          · exact Or.inr (Or.inl ⟨z, List.mem_cons_of_mem _ hz, hzk, h⟩)
          · exact Or.inr (Or.inr h)

/-- Filing one more key value keeps every entry of the map made of key values
whose colour key is the key of the entry. -/
theorem fileKey_colorkey (m : ColorMap) (kv : KeyValue)
    (h : ∀ x ∈ m, ∀ k ∈ x.2, colorkey k.color = x.1) :
    ∀ x ∈ fileKey m kv, ∀ k ∈ x.2, colorkey k.color = x.1 := by
  intro x hx
  unfold fileKey at hx
  simp only [] at hx
  have hm : ∀ y ∈ (if m.count (colorkey kv.color) = 0 then m.insert (colorkey kv.color) []
      else m), ∀ k ∈ y.2, colorkey k.color = y.1 := by
    intro y hy
    by_cases hc : m.count (colorkey kv.color) = 0
    · rw [if_pos hc] at hy
      rcases ColorMap.mem_insert_nil m _ y hy with hy | hy
      · exact h y hy
      · rw [hy]; intro k hk; simp at hk
    · rw [if_neg hc] at hy; exact h y hy
  rcases ColorMap.mem_pushBack_key _ _ _ x hx with hx | ⟨y, hy, hyk, hx⟩ | hx
  · exact hm x hx
  · rw [hx]
    intro k hk
    simp only [List.mem_append, List.mem_singleton] at hk
    rcases hk with hk | hk
    · exact hm y hy k hk
    · rw [hk, hyk]
  · rw [hx]
    intro k hk
    simp only [List.mem_singleton] at hk
    rw [hk]

theorem foldl_fileKey_colorkey :
    ∀ (l : List KeyValue) (m : ColorMap),
      (∀ x ∈ m, ∀ k ∈ x.2, colorkey k.color = x.1) →
      ∀ x ∈ l.foldl fileKey m, ∀ k ∈ x.2, colorkey k.color = x.1 := by
  intro l
  induction l with
  | nil => intro m h x hx; exact h x hx
  | cons a l ih =>
    intro m h x hx
    rw [List.foldl_cons] at hx
    exact ih (fileKey m a) (fileKey_colorkey m a h) x hx

/-- Whenever `setKeys` returns on a colour-batched model, every frame it has
appended is the frame of a chunk start inside an entry of the colour map of the
list. -/
theorem setKeys_color_frames (D : Declarations) (fuel : Nat) (model : KeyboardModel)
    (keyValues : List KeyValue) (t : Transport) (sent : List Frame)
    (hm : model = .g815 ∨ model = .g915) (retval : Bool) (sent' : List Frame)
    (h : setKeys D fuel model keyValues t sent = some (retval, sent')) :
    ∃ frames, sent' = sent ++ frames ∧
      ∀ f ∈ frames, ∃ x ∈ keyValues.foldl fileKey [], ∃ gi, gi < x.2.length ∧
        f = colorFrame D (if model = .g915 then 0x01 else 0xff)
          (if model = .g915 then 0x0b else 0x10) x.2 gi := by
  by_cases hne : keyValues = []
  · subst hne
    have h2 : setKeys D fuel model [] t sent = some (false, sent) := rfl
    rw [h2] at h
    simp only [Option.some.injEq, Prod.mk.injEq] at h
    exact ⟨[], by rw [← h.2]; simp, by simp⟩
  · obtain ⟨frames, hplan, hsent, _⟩ :=
      setKeys_some D fuel model keyValues t sent hne retval sent' h
    refine ⟨frames, hsent, ?_⟩
    intro f hf
    rw [setKeysPlan_color D fuel model keyValues hm] at hplan
    cases hg : groupByColor keyValues fuel 0 [] with
    | none => rw [hg] at hplan; simp at hplan
    | some m =>
      rw [hg] at hplan
      simp only [] at hplan
      obtain ⟨_, hmeq⟩ := groupByColor_some keyValues fuel m hg
      obtain ⟨x, hx, gi, hgi, hfe⟩ := colorPlan_mem D _ _ fuel m frames hplan f hf
      exact ⟨x, hmeq ▸ hx, gi, hgi, hfe⟩

/-- The mask `0xff00` keeps the second byte of a number. -/
theorem and_ff00 (k : Nat) : k &&& 0xff00 = (k / 256 % 256) * 256 := by
  apply Nat.eq_of_testBit_eq; intro i
  have h1 : (0xff00 : Nat) = (2 ^ 8 - 1) <<< 8 := by decide
  have h2 : (k / 256 % 256) * 256 = ((k >>> 8) % 2 ^ 8) <<< 8 := by
    rw [Nat.shiftLeft_eq, Nat.shiftRight_eq_div_pow]; norm_num
  rw [Nat.testBit_and, h1, h2, Nat.testBit_shiftLeft, Nat.testBit_shiftLeft,
    Nat.testBit_two_pow_sub_one, Nat.testBit_mod_two_pow, Nat.testBit_shiftRight]
  by_cases h : i ≥ 8
  · have : 8 + (i - 8) = i := by omega
    rw [this]
    cases k.testBit i <;> simp [h]
  · simp [h]

/-- For key codes below `0xff00` the division by `0xff` of the masked code
gives the high byte of the code, so the switch of the colour-batched encoder
sees the group that the partition switch sees. -/
theorem maskDiv_eq_shift (key : Nat) (h : key % 65536 < 0xff00) :
    toKeyAddressGroup (((key % 65536) &&& 0xff00) / 0xff) =
      toKeyAddressGroup ((key % 65536) >>> 8) := by
  have : ((key % 65536) &&& 0xff00) / 0xff = (key % 65536) >>> 8 := by
    rw [and_ff00, Nat.shiftRight_eq_div_pow]
    omega
  rw [this]

/-- On a group-addressed model, for the groups logo, indicators, multimedia
and gkeys the capacity test of the partition loop retains one key value more
than the eighth byte of the group header; for the keys group the chunk size 14
is the eighth byte of the header. -/
theorem groupData_eighth_byte (model : KeyboardModel) (kag : Nat)
    (hm : model ≠ .g815 ∧ model ≠ .g915) (hk : kag ≤ 4)
    (hd : (groupData model kag).length > 0) :
    (kag ≤ 3 → sortCapacity model kag = (groupData model kag).getD 7 0 + 1) ∧
      (kag = 4 → (groupDataSize kag - 8) / 4 = (groupData model kag).getD 7 0) := by
  obtain ⟨h1, h2⟩ := hm
  have hkag : kag = 0 ∨ kag = 1 ∨ kag = 2 ∨ kag = 3 ∨ kag = 4 := by omega
  rcases hkag with h | h | h | h | h <;> subst h <;> cases model <;>
    first
    | exact absurd rfl h1
    | exact absurd rfl h2
    | exact absurd hd (by decide)
    | exact ⟨fun _ => rfl, fun h => absurd h (by decide)⟩
    | exact ⟨fun h => absurd h (by decide), fun _ => rfl⟩

/-! ### The shape of every transmitted frame -/

/-- A send appends the buffer, or nothing when the buffer is empty. -/
theorem sendDataInternal_appends (P : Frame → Prop) (t : Transport) (data : Frame)
    (sent : List Frame) (h : P data) :
    ∃ frames, (sendDataInternal t data sent).2 = sent ++ frames ∧ ∀ f ∈ frames, P f := by
  unfold sendDataInternal
  split_ifs
  · exact ⟨[data], rfl, by simpa using h⟩
  · exact ⟨[], by simp, by simp⟩

/-- A fixed command buffer that starts with `0x11` and has at most 20 bytes is
resized to a 20-byte frame that starts with `0x11`. -/
theorem resize_long_report (data : Frame) (h0 : data.head? = some 0x11)
    (hl : data.length ≤ 20) :
    (resize data 20 0x00).length = 20 ∧ (resize data 20 0x00).head? = some 0x11 := by
  refine ⟨length_resize _ _ _, ?_⟩
  rw [resize_of_le data 20 0 hl]
  cases data with
  | nil => simp at h0
  | cons a rest => simpa using h0

theorem appends_nil (P : Frame → Prop) (sent : List Frame) :
    ∃ frames : List Frame, sent = sent ++ frames ∧ ∀ f ∈ frames, P f :=
  ⟨[], by simp, by simp⟩

theorem appends_trans (P : Frame → Prop) (s0 s1 s2 : List Frame)
    (h1 : ∃ frames, s1 = s0 ++ frames ∧ ∀ f ∈ frames, P f)
    (h2 : ∃ frames, s2 = s1 ++ frames ∧ ∀ f ∈ frames, P f) :
    ∃ frames, s2 = s0 ++ frames ∧ ∀ f ∈ frames, P f := by
  obtain ⟨f1, e1, p1⟩ := h1
  obtain ⟨f2, e2, p2⟩ := h2
  refine ⟨f1 ++ f2, by rw [e2, e1, List.append_assoc], ?_⟩
  intro f hf
  rcases List.mem_append.1 hf with hf | hf
  · exact p1 f hf
  · exact p2 f hf

/-- The method `commit` appends at most one frame, of 20 bytes starting with
`0x11`. -/
theorem commit_appends (P : Frame → Prop)
    (hQ : ∀ f : Frame, f.length = 20 → f.head? = some 0x11 → P f)
    (model : KeyboardModel) (t : Transport) (sent : List Frame) :
    ∃ frames, (commit model t sent).2 = sent ++ frames ∧ ∀ f ∈ frames, P f := by
  have hs : ∀ data : Frame, data.head? = some 0x11 → data.length ≤ 20 →
      ∃ frames, (sendDataInternal t (resize data 20 0x00) sent).2 = sent ++ frames ∧
        ∀ f ∈ frames, P f :=
    fun data h0 hl => sendDataInternal_appends P t _ sent
      (hQ _ (resize_long_report data h0 hl).1 (resize_long_report data h0 hl).2)
  cases model <;> first
    | exact appends_nil P sent
    | exact hs _ (by rfl) (by simp)

theorem setRegion_appends (P : Frame → Prop)
    (hQ : ∀ f : Frame, f.length = 20 → f.head? = some 0x11 → P f)
    (model : KeyboardModel) (region : Nat) (color : Color) (t : Transport)
    (sent : List Frame) :
    ∃ frames, (setRegion model region color t sent).2 = sent ++ frames ∧
      ∀ f ∈ frames, P f := by
  have hs : ∀ data : Frame, data.head? = some 0x11 → data.length ≤ 20 →
      ∃ frames, (sendDataInternal t (resize data 20 0x00) sent).2 = sent ++ frames ∧
        ∀ f ∈ frames, P f :=
    fun data h0 hl => sendDataInternal_appends P t _ sent
      (hQ _ (resize_long_report data h0 hl).1 (resize_long_report data h0 hl).2)
  cases model <;> first
    | exact appends_nil P sent
    | exact hs _ (by rfl) (by simp)

theorem setRegions_appends (P : Frame → Prop)
    (hQ : ∀ f : Frame, f.length = 20 → f.head? = some 0x11 → P f)
    (model : KeyboardModel) (color : Color) (t : Transport) :
    ∀ (regions : List Nat) (sent : List Frame),
      ∃ frames, (setRegions model color t regions sent).2 = sent ++ frames ∧
        ∀ f ∈ frames, P f := by
  intro regions
  induction regions with
  | nil => intro sent; exact appends_nil P sent
  | cons r rest ih =>
    intro sent
    rw [setRegions]
    split_ifs
    · exact appends_trans P _ _ _ (setRegion_appends P hQ model r color t sent) (ih _)
    · exact setRegion_appends P hQ model r color t sent

/-- The mode setters append at most one frame, of 20 bytes starting with
`0x11`. -/
theorem modeSetters_append (P : Frame → Prop)
    (hQ : ∀ f : Frame, f.length = 20 → f.head? = some 0x11 → P f)
    (model : KeyboardModel) (value : Nat) (t : Transport) (sent : List Frame) :
    (∃ frames, (setMRKey model value t sent).2 = sent ++ frames ∧ ∀ f ∈ frames, P f) ∧
      (∃ frames, (setMNKey model value t sent).2 = sent ++ frames ∧ ∀ f ∈ frames, P f) ∧
      (∃ frames, (setGKeysMode model value t sent).2 = sent ++ frames ∧
        ∀ f ∈ frames, P f) ∧
      (∃ frames, (setStartupMode model value t sent).2 = sent ++ frames ∧
        ∀ f ∈ frames, P f) ∧
      (∃ frames, (setOnBoardMode model value t sent).2 = sent ++ frames ∧
        ∀ f ∈ frames, P f) := by
  have hs : ∀ data : Frame, data.head? = some 0x11 → data.length ≤ 20 →
      ∃ frames, (sendDataInternal t (resize data 20 0x00) sent).2 = sent ++ frames ∧
        ∀ f ∈ frames, P f :=
    fun data h0 hl => sendDataInternal_appends P t _ sent
      (hQ _ (resize_long_report data h0 hl).1 (resize_long_report data h0 hl).2)
  refine ⟨?_, ?_, ?_, ?_, ?_⟩
  · cases model <;> simp only [setMRKey] <;> first
      | exact appends_nil P sent
      | (split <;> first | exact appends_nil P sent | exact hs _ (by rfl) (by simp))
  · cases model <;> simp only [setMNKey] <;> first
      | exact appends_nil P sent
      | (split <;> first | exact appends_nil P sent | exact hs _ (by rfl) (by simp))
  · cases model <;> simp only [setGKeysMode] <;> first
      | exact appends_nil P sent
      | (split <;> first | exact appends_nil P sent | exact hs _ (by rfl) (by simp))
  · cases model <;> simp only [setStartupMode] <;> first
      | exact appends_nil P sent
      | exact hs _ (by rfl) (by simp)
  · cases model <;> simp only [setOnBoardMode] <;> first
      | exact appends_nil P sent
      | exact hs _ (by rfl) (by simp)

/-- When the partition pass returns, the list has fewer than 256 key values
and the groups are the fold of the switch over it. -/
theorem partitionKeys_some (D : Declarations) (model : KeyboardModel)
    (keyValues : List KeyValue) (fuel : Nat) (s : SortedKeys)
    (h : partitionKeys D model keyValues fuel 0 [[], [], [], [], []] = some s) :
    keyValues.length < 256 ∧ s = keyValues.foldl (sortKey D model) [[], [], [], [], []] := by
  rw [partitionKeys_eq_indexLoop] at h
  by_cases hlen : keyValues.length < 256
  · refine ⟨hlen, ?_⟩
    rw [indexLoop_eq (sortKey D model) keyValues hlen fuel 0 _ (Nat.zero_le _)] at h
    by_cases hf : keyValues.length - 0 < fuel
    · rw [if_pos hf] at h
      simp only [List.drop_zero, Option.some.injEq] at h
      exact h.symm
    · rw [if_neg hf] at h; simp at h
  · rw [indexLoop_diverges (sortKey D model) keyValues (by omega) fuel 0 _ (by decide)] at h
    simp at h

/-- Every group returned by the partition pass is a subsequence of the list,
of at most the capacity of the group. -/
theorem partitionKeys_sublist (D : Declarations) (model : KeyboardModel)
    (keyValues : List KeyValue) (fuel : Nat) (s : SortedKeys)
    (h : partitionKeys D model keyValues fuel 0 [[], [], [], [], []] = some s)
    (idx : Nat) (hidx : idx ≤ 4) :
    (s.at idx).Sublist keyValues ∧ (s.at idx).length ≤ sortCapacity model idx := by
  obtain ⟨_, hs⟩ := partitionKeys_some D model keyValues fuel s h
  have hnil : SortedKeys.at [[], [], [], [], []] idx = [] := by
    have : idx = 0 ∨ idx = 1 ∨ idx = 2 ∨ idx = 3 ∨ idx = 4 := by omega
    rcases this with h | h | h | h | h <;> subst h <;> rfl
  rw [hs, foldl_sortKey_at D model idx keyValues [[], [], [], [], []] rfl
      (by rw [hnil]; exact Nat.zero_le _), hnil]
  simp only [List.nil_append, List.length_nil, Nat.sub_zero]
  exact ⟨(List.take_sublist _ _).trans (List.filter_sublist _), by
    rw [List.length_take]; exact Nat.min_le_left _ _⟩

/-- Every planned group frame is the frame of a group whose header is not
empty. -/
theorem groupPlan_mem_header (model : KeyboardModel) (s : SortedKeys) (fuel : Nat) :
    ∀ (kags : List Nat) (frames : List Frame), groupPlan model s fuel kags = some frames →
      ∀ f ∈ frames, ∃ kag ∈ kags, ∃ gi,
        (groupData model kag).length > 0 ∧ f = groupFrame model kag (s.at kag) gi := by
  intro kags
  induction kags with
  | nil =>
    intro frames h f hf
    simp only [groupPlan, Option.some.injEq] at h
    rw [← h] at hf; simp at hf
  | cons kag rest ih =>
    intro frames h f hf
    rw [groupPlan] at h
    by_cases hx : (s.at kag).length > 0
    · rw [if_pos hx] at h
      cases hcs : chunkStarts (maxKeyCount (groupDataSize kag)) (s.at kag).length fuel 0 with
      | none => rw [hcs] at h; simp at h
      | some gis =>
        rw [hcs] at h
        cases hrest : groupPlan model s fuel rest with
        | none => rw [hrest] at h; simp at h
        | some fr =>
          rw [hrest] at h
          simp only [Option.map_some', Option.some.injEq] at h
          rw [← h] at hf
          rcases List.mem_append.1 hf with hf | hf
          · by_cases hd : (groupData model kag).length > 0
            · rw [if_pos hd] at hf
              obtain ⟨g, _, hfg⟩ := List.mem_map.1 hf
              exact ⟨kag, List.mem_cons_self _ _, g, hd, hfg.symm⟩
            · rw [if_neg hd] at hf; simp at hf
          · obtain ⟨k, hk, g, hd, hfg⟩ := ih fr hrest f hf
            exact ⟨k, List.mem_cons_of_mem _ hk, g, hd, hfg⟩
    · rw [if_neg hx] at h
      obtain ⟨k, hk, g, hd, hfg⟩ := ih frames h f hf
      exact ⟨k, List.mem_cons_of_mem _ hk, g, hd, hfg⟩

/-- On a group-addressed model a header that is not empty has eight bytes; it
starts with `0x11` for the 20-byte logo frame and with `0x12` for the 64-byte
frames of the other groups. -/
theorem groupData_head (model : KeyboardModel) (kag : Nat)
    (hm : model ≠ .g815 ∧ model ≠ .g915) (hk : kag ≤ 4)
    (hd : (groupData model kag).length > 0) :
    (groupData model kag).length = 8 ∧
      (groupDataSize kag = 20 ∧ (groupData model kag).head? = some 0x11 ∨
        groupDataSize kag = 64 ∧ (groupData model kag).head? = some 0x12) := by
  obtain ⟨h1, h2⟩ := hm
  have hkag : kag = 0 ∨ kag = 1 ∨ kag = 2 ∨ kag = 3 ∨ kag = 4 := by omega
  rcases hkag with h | h | h | h | h <;> subst h <;> cases model <;>
    first
    | exact absurd rfl h1
    | exact absurd rfl h2
    | exact absurd hd (by decide)
    | exact ⟨rfl, Or.inl ⟨rfl, rfl⟩⟩
    | exact ⟨rfl, Or.inr ⟨rfl, rfl⟩⟩

/-- Whenever `setKeys` returns, every frame it has appended is 20 bytes long
and starts with `0x11`, or is 64 bytes long and starts with `0x12`, and is the
buffer of the encoder for a chunk of the list followed by zero bytes: the
buffer is never longer than the frame. -/
theorem setKeys_frames_shape (D : Declarations) (fuel : Nat) (model : KeyboardModel)
    (keyValues : List KeyValue) (t : Transport) (sent : List Frame) (retval : Bool)
    (sent' : List Frame) (h : setKeys D fuel model keyValues t sent = some (retval, sent')) :
    ∃ frames, sent' = sent ++ frames ∧
      ∀ f ∈ frames,
        ((f.length = 20 ∧ f.head? = some 0x11) ∨ (f.length = 64 ∧ f.head? = some 0x12)) ∧
        ∃ (data : Frame) (chunk : List KeyValue),
          chunk.Sublist keyValues ∧ data.length ≤ f.length ∧
          f = data ++ List.replicate (f.length - data.length) 0 ∧
          ((∃ c : Color,
              data = [0x11, if model = .g915 then 0x01 else 0xff,
                    if model = .g915 then 0x0b else 0x10, 0x6c, c.red, c.green, c.blue] ++
                  chunk.flatMap (fun kv => pushColorKey D [] kv.key) ++
                  (if (chunk.flatMap (fun kv => pushColorKey D [] kv.key)).length < 13 then
                    [0xff] else [])) ∨
            ∃ kag, kag ≤ 4 ∧
              data = groupData model kag ++
                chunk.flatMap
                  (fun kv => [kv.key &&& 0xff, kv.color.red, kv.color.green,
                    kv.color.blue])) := by
  by_cases hm : model = .g815 ∨ model = .g915
  · obtain ⟨frames, hsent, hfr⟩ :=
      setKeys_color_frames D fuel model keyValues t sent hm retval sent' h
    refine ⟨frames, hsent, ?_⟩
    intro f hf
    obtain ⟨x, hx, gi, hgi, hfe⟩ := hfr f hf
    have hxs : x.2.Sublist keyValues := by
      have := foldl_fileKey_sublist keyValues [] [] (by simp) x hx
      simpa using this
    have hlen : f.length = 20 := by rw [hfe]; exact length_colorFrame _ _ _ _ _
    have hfeq := colorFrame_eq D (if model = .g915 then 0x01 else 0xff)
      (if model = .g915 then 0x0b else 0x10) x.2 gi
    rw [← hfe] at hfeq
    have hb := length_flatMap_pushColorKey D ((x.2.drop gi).take 13)
    have hc : ((x.2.drop gi).take 13).length ≤ 13 := List.length_take_le _ _
    generalize hbytes : ((x.2.drop gi).take 13).flatMap (fun kv => pushColorKey D [] kv.key) =
      bytes at hfeq hb
    refine ⟨Or.inl ⟨hlen, by rw [hfeq]; rfl⟩, ?_⟩
    refine ⟨_, (x.2.drop gi).take 13,
      ((List.take_sublist _ _).trans (List.drop_sublist _ _)).trans hxs, ?_, ?_,
      Or.inl ⟨(x.2.getD 0 ⟨0, ⟨0, 0, 0⟩⟩).color, by rw [hbytes]⟩⟩
    · rw [hlen]
      by_cases hlt : bytes.length < 13
      · simp only [if_pos hlt, List.length_append, List.length_cons, List.length_nil]
        omega
      · simp only [if_neg hlt, List.length_append, List.length_cons, List.length_nil]
        omega
    · rw [hlen]
      by_cases hlt : bytes.length < 13
      · have h12 : 20 - (([0x11, if model = .g915 then 0x01 else 0xff,
              if model = .g915 then 0x0b else 0x10, 0x6c,
              (x.2.getD 0 ⟨0, ⟨0, 0, 0⟩⟩).color.red, (x.2.getD 0 ⟨0, ⟨0, 0, 0⟩⟩).color.green,
              (x.2.getD 0 ⟨0, ⟨0, 0, 0⟩⟩).color.blue] ++ bytes ++ [0xff] : Frame).length) =
            12 - bytes.length := by
          simp only [List.length_append, List.length_cons, List.length_nil]
          omega
        rw [if_pos hlt] at hfeq ⊢
        rw [h12, hfeq]
        simp
      · have h0 : 20 - (([0x11, if model = .g915 then 0x01 else 0xff,
              if model = .g915 then 0x0b else 0x10, 0x6c,
              (x.2.getD 0 ⟨0, ⟨0, 0, 0⟩⟩).color.red, (x.2.getD 0 ⟨0, ⟨0, 0, 0⟩⟩).color.green,
              (x.2.getD 0 ⟨0, ⟨0, 0, 0⟩⟩).color.blue] ++ bytes ++ [] : Frame).length) = 0 := by
          simp only [List.length_append, List.length_cons, List.length_nil]
          omega
        rw [if_neg hlt] at hfeq ⊢
        rw [h0, hfeq]
        simp
  · have hmm : model ≠ .g815 ∧ model ≠ .g915 :=
      ⟨fun h => hm (Or.inl h), fun h => hm (Or.inr h)⟩
    by_cases hne : keyValues = []
    · subst hne
      have h2 : setKeys D fuel model [] t sent = some (false, sent) := rfl
      rw [h2] at h
      simp only [Option.some.injEq, Prod.mk.injEq] at h
      exact ⟨[], by rw [← h.2]; simp, by simp⟩
    · obtain ⟨frames, hplan, hsent, _⟩ :=
        setKeys_some D fuel model keyValues t sent hne retval sent' h
      refine ⟨frames, hsent, ?_⟩
      intro f hf
      rw [setKeysPlan_group D fuel model keyValues hmm] at hplan
      cases hp : partitionKeys D model keyValues fuel 0 [[], [], [], [], []] with
      | none => rw [hp] at hplan; simp at hplan
      | some s =>
        rw [hp] at hplan
        simp only [] at hplan
        obtain ⟨kag, hkag, gi, hd, hfe⟩ := groupPlan_mem_header model s fuel _ frames hplan f hf
        have hk : kag ≤ 4 := by
          simp only [List.mem_cons, List.mem_singleton, List.not_mem_nil, or_false] at hkag
          omega
        obtain ⟨h8, hhead⟩ := groupData_head model kag hmm hk hd
        have hfeq := groupFrame_eq model kag (s.at kag) gi hk h8
        rw [← hfe] at hfeq
        have hlen : f.length = groupDataSize kag := by
          rw [hfe]; unfold groupFrame; exact length_resize _ _ _
        have hsub := (partitionKeys_sublist D model keyValues fuel s hp kag hk).1
        have hc : (((s.at kag).drop gi).take ((groupDataSize kag - 8) / 4)).length ≤
            (groupDataSize kag - 8) / 4 := List.length_take_le _ _
        have hq := length_flatMap_quad
          (fun kv => [kv.key &&& 0xff, kv.color.red, kv.color.green, kv.color.blue])
          (fun _ => rfl) (((s.at kag).drop gi).take ((groupDataSize kag - 8) / 4))
        have hhd : f.head? = (groupData model kag).head? := by
          rw [hfeq]
          cases hg : groupData model kag with
          | nil => rw [hg] at h8; simp at h8
          | cons a rest => rfl
        have hsize : groupDataSize kag = 20 ∨ groupDataSize kag = 64 := by
          rcases hhead with h | h
          · exact Or.inl h.1
          · exact Or.inr h.1
        refine ⟨?_, ?_⟩
        · rcases hhead with ⟨hs, hh⟩ | ⟨hs, hh⟩
          · exact Or.inl ⟨by rw [hlen, hs], by rw [hhd, hh]⟩
          · exact Or.inr ⟨by rw [hlen, hs], by rw [hhd, hh]⟩
        · refine ⟨_, ((s.at kag).drop gi).take ((groupDataSize kag - 8) / 4),
            ((List.take_sublist _ _).trans (List.drop_sublist _ _)).trans hsub, ?_, ?_,
            Or.inr ⟨kag, hk, rfl⟩⟩
          · rw [hlen, List.length_append, hq, h8]
            rcases hsize with h | h <;> rw [h] at hc ⊢ <;> omega
          · have hrep : f.length - (groupData model kag ++
                (((s.at kag).drop gi).take ((groupDataSize kag - 8) / 4)).flatMap
                  (fun kv => [kv.key &&& 0xff, kv.color.red, kv.color.green,
                    kv.color.blue])).length =
                groupDataSize kag - 8 -
                  4 * (((s.at kag).drop gi).take ((groupDataSize kag - 8) / 4)).length := by
              rw [hlen, List.length_append, hq, h8]; omega
            rw [hrep]
            exact hfeq

theorem setGroupKeys_appends (P : Frame → Prop) (D : Declarations) (G : KeyGroups)
    (model : KeyboardModel)
    (hkeys : ∀ fuel keyValues t sent retval sent',
      setKeys D fuel model keyValues t sent = some (retval, sent') →
      ∃ frames, sent' = sent ++ frames ∧ ∀ f ∈ frames, P f)
    (fuel : Nat) (keyGroup : KeyGroup) (color : Color) (t : Transport) (sent : List Frame)
    (retval : Bool) (sent' : List Frame)
    (h : setGroupKeys D G fuel model keyGroup color t sent = some (retval, sent')) :
    ∃ frames, sent' = sent ++ frames ∧ ∀ f ∈ frames, P f := by
  unfold setGroupKeys at h
  cases hp : pushKeyArray (keyArrayOf G keyGroup) color fuel 0 [] with
  | none => rw [hp] at h; simp at h
  | some kvs =>
    rw [hp] at h
    exact hkeys fuel kvs t sent retval sent' h

theorem setNativeEffectIndicators_appends (P : Frame → Prop) (D : Declarations)
    (G : KeyGroups) (E : EffectDeclarations) (model : KeyboardModel)
    (hQ : ∀ f : Frame, f.length = 20 → f.head? = some 0x11 → P f)
    (hkeys : ∀ fuel keyValues t sent retval sent',
      setKeys D fuel model keyValues t sent = some (retval, sent') →
      ∃ frames, sent' = sent ++ frames ∧ ∀ f ∈ frames, P f)
    (fuel effectGroup : Nat) (color : Color) (t : Transport) (sent : List Frame)
    (retval : Bool) (sent' : List Frame)
    (h : setNativeEffectIndicators D G E fuel model effectGroup color t sent =
      some (retval, sent')) :
    ∃ frames, sent' = sent ++ frames ∧ ∀ f ∈ frames, P f := by
  have hstep : ∀ c : Color,
      (setGroupKeys D G fuel model .indicators c t sent).bind
          (fun r => if r.1 then some (commit model t r.2) else some (false, r.2)) =
        some (retval, sent') →
      ∃ frames, sent' = sent ++ frames ∧ ∀ f ∈ frames, P f := by
    intro c hc
    cases hg : setGroupKeys D G fuel model .indicators c t sent with
    | none => rw [hg] at hc; simp at hc
    | some r =>
      rw [hg] at hc
      simp only [Option.some_bind] at hc
      have h1 := setGroupKeys_appends P D G model hkeys fuel .indicators c t sent r.1 r.2 hg
      by_cases hr : r.1 = true
      · rw [if_pos hr] at hc
        simp only [Option.some.injEq] at hc
        have h2 := commit_appends P hQ model t r.2
        rw [hc] at h2
        exact appends_trans P _ _ _ h1 h2
      · rw [if_neg hr] at hc
        simp only [Option.some.injEq, Prod.mk.injEq] at hc
        rw [← hc.2]; exact h1
  rw [setNativeEffectIndicators_eq] at h
  split_ifs at h
  · exact hstep _ h
  · exact hstep _ h
  · simp only [Option.some.injEq, Prod.mk.injEq] at h
    rw [← h.2]; exact appends_nil P sent

/-- The effect buffer, after the overwrites of the g815 branch or without
them, has 20 bytes and starts with `0x11`. -/
theorem nativeEffectData_shape (E : EffectDeclarations) (target pb0 pb1 effect : Nat)
    (part : NativeEffectPart) (period : Nat) (color : Color) (storage : Nat) :
    ((nativeEffectData E target pb0 pb1 effect part period color storage).length = 20 ∧
        (nativeEffectData E target pb0 pb1 effect part period color storage).head? =
          some 0x11) ∧
      (nativeEffectG815Data E
          (nativeEffectData E target pb0 pb1 effect part period color storage) effect part
          period).length = 20 ∧
      (nativeEffectG815Data E
          (nativeEffectData E target pb0 pb1 effect part period color storage) effect part
          period).head? = some 0x11 := by
  refine ⟨⟨rfl, rfl⟩, ?_, ?_⟩ <;> cases part <;>
    simp only [nativeEffectG815Data, nativeEffectData, List.set] <;>
    first | rfl | (split_ifs <;> rfl)

/-- Whenever `setNativeEffect` returns, every frame it has appended satisfies
a property that holds of every 20-byte frame starting with `0x11` and of every
frame appended by `setKeys`. -/
theorem setNativeEffect_appends (P : Frame → Prop) (D : Declarations) (G : KeyGroups)
    (E : EffectDeclarations) (model : KeyboardModel)
    (hQ : ∀ f : Frame, f.length = 20 → f.head? = some 0x11 → P f)
    (hkeys : ∀ fuel keyValues t sent retval sent',
      setKeys D fuel model keyValues t sent = some (retval, sent') →
      ∃ frames, sent' = sent ++ frames ∧ ∀ f ∈ frames, P f) :
    ∀ (fuel effect : Nat) (part : NativeEffectPart) (period : Nat) (color : Color)
      (storage : Nat) (t : Transport) (sent : List Frame) (retval : Bool)
      (sent' : List Frame),
      setNativeEffect D G E model fuel effect part period color storage t sent =
        some (retval, sent') →
      ∃ frames, sent' = sent ++ frames ∧ ∀ f ∈ frames, P f := by
  intro fuel
  induction fuel with
  | zero => intro effect part period color storage t sent retval sent' h; simp [setNativeEffect] at h
  | succ n ih =>
    intro effect part period color storage t sent retval sent' h
    rw [setNativeEffect_succ] at h
    have hsend : ∀ (data : Frame) (s0 : List Frame), data.length = 20 →
        data.head? = some 0x11 →
        ∃ frames, (sendDataInternal t data s0).2 = s0 ++ frames ∧ ∀ f ∈ frames, P f :=
      fun data s0 hl hh => sendDataInternal_appends P t data s0 (hQ data hl hh)
    have hone : ∀ (data : Frame), data.length = 20 → data.head? = some 0x11 →
        some (sendDataInternal t data sent) = some (retval, sent') →
        ∃ frames, sent' = sent ++ frames ∧ ∀ f ∈ frames, P f := by
      intro data hl hh he
      simp only [Option.some.injEq] at he
      have := hsend data sent hl hh
      rw [he] at this
      exact this
    have htwo : ∀ (setup data : Frame), setup.length = 20 → setup.head? = some 0x11 →
        data.length = 20 → data.head? = some 0x11 →
        some (sendDataInternal t data (sendDataInternal t setup sent).2) =
          some (retval, sent') →
        ∃ frames, sent' = sent ++ frames ∧ ∀ f ∈ frames, P f := by
      intro setup data hl1 hh1 hl2 hh2 he
      simp only [Option.some.injEq] at he
      have h1 := hsend setup sent hl1 hh1
      have h2 := hsend data (sendDataInternal t setup sent).2 hl2 hh2
      rw [he] at h2
      exact appends_trans P _ _ _ h1 h2
    unfold setNativeEffectBody at h
    simp only [] at h
    by_cases hp : part = .all
    · rw [if_pos hp] at h
      cases hi : setNativeEffectIndicators D G E n model ((effect % 65536) >>> 8) color t
          sent with
      | none => rw [hi] at h; simp at h
      | some pre =>
        rw [hi] at h
        simp only [] at h
        have h1 := setNativeEffectIndicators_appends P D G E model hQ hkeys n _ color t sent
          pre.1 pre.2 hi
        by_cases hpre : pre.1 = true
        · rw [if_pos hpre] at h
          cases hk : setNativeEffect D G E model n effect .keys period color storage t
              pre.2 with
          | none => rw [hk] at h; simp at h
          | some k =>
            rw [hk] at h
            simp only [] at h
            have h2 := ih effect .keys period color storage t pre.2 k.1 k.2 hk
            by_cases hk1 : k.1 = true
            · rw [if_pos hk1] at h
              have h3 := ih effect .logo period color storage t k.2 retval sent' h
              exact appends_trans P _ _ _ (appends_trans P _ _ _ h1 h2) h3
            · rw [if_neg hk1] at h
              simp only [Option.some.injEq, Prod.mk.injEq] at h
              rw [← h.2]
              exact appends_trans P _ _ _ h1 h2
        · rw [if_neg hpre] at h
          simp only [Option.some.injEq, Prod.mk.injEq] at h
          rw [← h.2]; exact h1
    · rw [if_neg hp] at h
      have hd := fun target pb0 pb1 =>
        nativeEffectData_shape E target pb0 pb1 effect part period color storage
      have hnone : some ((false, sent) : Bool × List Frame) = some (retval, sent') →
          ∃ frames, sent' = sent ++ frames ∧ ∀ f ∈ frames, P f := by
        intro he
        simp only [Option.some.injEq, Prod.mk.injEq] at he
        rw [← he.2]; exact appends_nil P sent
      have hlogo : ∀ pb0 pb1,
          (if part = .logo then some ((true, sent) : Bool × List Frame)
            else some (sendDataInternal t
              (nativeEffectData E 0xff pb0 pb1 effect part period color storage) sent)) =
            some (retval, sent') →
          ∃ frames, sent' = sent ++ frames ∧ ∀ f ∈ frames, P f := by
        intro pb0 pb1 he
        split_ifs at he
        · simp only [Option.some.injEq, Prod.mk.injEq] at he
          rw [← he.2]; exact appends_nil P sent
        · exact hone _ (hd _ _ _).1.1 (hd _ _ _).1.2 he
      have hwave : ∀ pb0 pb1,
          (if (effect % 65536) >>> 8 = E.group.waves ∧ part = .logo then
              setNativeEffect D G E model n E.effect.color part 0 ⟨0x00, 0xff, 0xff⟩ storage
                t sent
            else some (sendDataInternal t
              (nativeEffectData E 0xff pb0 pb1 effect part period color storage) sent)) =
            some (retval, sent') →
          ∃ frames, sent' = sent ++ frames ∧ ∀ f ∈ frames, P f := by
        intro pb0 pb1 he
        split_ifs at he
        · exact ih _ _ _ _ _ t sent retval sent' he
        · exact hone _ (hd _ _ _).1.1 (hd _ _ _).1.2 he
      cases model with
      | unknown => exact hnone h
      | g213 => exact hlogo _ _ h
      | g413 => exact hlogo _ _ h
      | g410 => exact hwave _ _ h
      | g512 => exact hwave _ _ h
      | g513 => exact hwave _ _ h
      | g610 => exact hwave _ _ h
      | g810 => exact hwave _ _ h
      | gpro => exact hwave _ _ h
      | g910 => exact hwave _ _ h
      | g815 => exact htwo _ _ (by rfl) (by rfl) (hd _ _ _).2.1 (hd _ _ _).2.2 h
      | g915 => exact htwo _ _ (by rfl) (by rfl) (hd _ _ _).2.1 (hd _ _ _).2.2 h

theorem setAllKeys_appends (P : Frame → Prop) (D : Declarations) (G : KeyGroups)
    (E : EffectDeclarations) (model : KeyboardModel)
    (hQ : ∀ f : Frame, f.length = 20 → f.head? = some 0x11 → P f)
    (hkeys : ∀ fuel keyValues t sent retval sent',
      setKeys D fuel model keyValues t sent = some (retval, sent') →
      ∃ frames, sent' = sent ++ frames ∧ ∀ f ∈ frames, P f)
    (fuel : Nat) (color : Color) (t : Transport) (sent : List Frame) (retval : Bool)
    (sent' : List Frame)
    (h : setAllKeys D G E fuel model color t sent = some (retval, sent')) :
    ∃ frames, sent' = sent ++ frames ∧ ∀ f ∈ frames, P f := by
  have hk : (match allKeyValues G color fuel with
      | none => none
      | some keyValues => setKeys D fuel model keyValues t sent) = some (retval, sent') →
      ∃ frames, sent' = sent ++ frames ∧ ∀ f ∈ frames, P f := by
    intro he
    cases ha : allKeyValues G color fuel with
    | none => rw [ha] at he; simp at he
    | some kvs =>
      rw [ha] at he
      exact hkeys fuel kvs t sent retval sent' he
  have hno : some ((false, sent) : Bool × List Frame) = some (retval, sent') →
      ∃ frames, sent' = sent ++ frames ∧ ∀ f ∈ frames, P f := by
    intro he
    simp only [Option.some.injEq, Prod.mk.injEq] at he
    rw [← he.2]; exact appends_nil P sent
  unfold setAllKeys at h
  cases model with
  | unknown => exact hno h
  | g915 => exact hno h
  | g213 =>
    simp only [Option.some.injEq] at h
    have := setRegions_appends P hQ .g213 color t [0x01, 0x02, 0x03, 0x04, 0x05] sent
    rw [h] at this
    exact this
  | g413 =>
    simp only [] at h
    cases hn : setNativeEffect D G E .g413 fuel E.effect.color .keys 0 color E.storageNone t
        sent with
    | none => rw [hn] at h; simp at h
    | some r =>
      rw [hn] at h
      simp only [Option.some.injEq, Prod.mk.injEq] at h
      rw [← h.2]
      exact setNativeEffect_appends P D G E .g413 hQ hkeys fuel _ _ _ _ _ t sent r.1 r.2 hn
  | g410 => exact hk h
  | g512 => exact hk h
  | g513 => exact hk h
  | g610 => exact hk h
  | g810 => exact hk h
  | g815 => exact hk h
  | g910 => exact hk h
  | gpro => exact hk h

/-- With the raw-USB back end, on every model other than the g915, a
successful claim at the end of `open` followed by `close` releases the
interface 1 that was claimed, and re-attaches the kernel driver on it exactly
when `open` detached it. -/
theorem libusbClaim_close_interface (lib lib2 : Library) (model : KeyboardModel)
    (s s' : Session) (hm : model ≠ .g915) (hs : s.m_isKernellDetached = false)
    (hopen : libusbClaim lib model s = (true, s'))
    (hrel : lib2 s'.calls (.libusb_release_interface 1) = 0) :
    s'.m_isOpen = true ∧ s'.m_hidHandle = s.m_hidHandle ∧
      (s'.calls = s.calls ++ [.libusb_kernel_driver_active 1, .libusb_detach_kernel_driver 1,
          .libusb_claim_interface 1] ∧ s'.m_isKernellDetached = true ∨
        s'.calls = s.calls ++ [.libusb_kernel_driver_active 1, .libusb_claim_interface 1] ∧
          s'.m_isKernellDetached = false) ∧
      (s'.m_hidHandle = true →
        (close .libusb lib2 s').1 = true ∧
        (close .libusb lib2 s').2.m_isKernellDetached = false ∧
        (close .libusb lib2 s').2.calls =
          s'.calls ++ (if s'.m_isKernellDetached then
            [.libusb_release_interface 1, .libusb_attach_kernel_driver 1, .libusb_close,
              .libusb_exit]
          else [.libusb_release_interface 1, .libusb_close, .libusb_exit])) := by
  have hnum : (match model with | .g915 => 2 | _ => 1) = 1 := by
    cases model <;> first | rfl | exact absurd rfl hm
  unfold libusbClaim at hopen
  simp only [hnum] at hopen
  have hclaim : ∀ s0 : Session, libusbClaimInterface lib 1 s0 = (true, s') →
      s' = { s0 with m_isOpen := true, calls := s0.calls ++ [.libusb_claim_interface 1] } := by
    intro s0 h
    unfold libusbClaimInterface at h
    split_ifs at h <;> simp only [Prod.mk.injEq, Bool.false_eq_true, false_and] at h
    simp only [true_and] at h
    exact h.symm
  have hshape : s'.m_isOpen = true ∧ s'.m_hidHandle = s.m_hidHandle ∧
      (s'.calls = s.calls ++ [.libusb_kernel_driver_active 1, .libusb_detach_kernel_driver 1,
          .libusb_claim_interface 1] ∧ s'.m_isKernellDetached = true ∨
        s'.calls = s.calls ++ [.libusb_kernel_driver_active 1, .libusb_claim_interface 1] ∧
          s'.m_isKernellDetached = false) := by
    split_ifs at hopen
    · simp at hopen
    · rw [hclaim _ hopen]
      exact ⟨rfl, rfl, Or.inl ⟨by simp, rfl⟩⟩
    · rw [hclaim _ hopen]
      exact ⟨rfl, rfl, Or.inr ⟨by simp, hs⟩⟩
  refine ⟨hshape.1, hshape.2.1, hshape.2.2, ?_⟩
  intro hh
  unfold close
  cases hk : s'.m_isKernellDetached <;> simp [hshape.1, hh, hrel, hk]

/-! ### Frame invariants, colour batching, effects and the session: the claims -/

/-- C21: every frame handed to the transport by `commit`, `setRegion`, the
mode setters, `setKeys`, `setGroupKeys`, `setAllKeys` and `setNativeEffect` is
exactly 20 bytes long and starts with the report ID `0x11`, or exactly 64 bytes
long and starts with `0x12`; every frame of `setKeys` is the buffer of the
encoder for a chunk of the list (header, encoded entries, and the `0xff` marker
of a short colour frame) followed by `0x00` bytes only, and the buffer is never
longer than the frame, so the resize never truncates encoded data. -/
theorem frames_report_shape (D : Declarations) (G : KeyGroups) (E : EffectDeclarations) :
    let P : Frame → Prop := fun f =>
      (f.length = 20 ∧ f.head? = some 0x11) ∨ (f.length = 64 ∧ f.head? = some 0x12)
    (∀ model t sent, ∃ frames, (commit model t sent).2 = sent ++ frames ∧
        ∀ f ∈ frames, P f) ∧
      (∀ model region color t sent,
        ∃ frames, (setRegion model region color t sent).2 = sent ++ frames ∧
          ∀ f ∈ frames, P f) ∧
      (∀ model value t sent,
        (∃ frames, (setMRKey model value t sent).2 = sent ++ frames ∧ ∀ f ∈ frames, P f) ∧
        (∃ frames, (setMNKey model value t sent).2 = sent ++ frames ∧ ∀ f ∈ frames, P f) ∧
        (∃ frames, (setGKeysMode model value t sent).2 = sent ++ frames ∧
          ∀ f ∈ frames, P f) ∧
        (∃ frames, (setStartupMode model value t sent).2 = sent ++ frames ∧
          ∀ f ∈ frames, P f) ∧
        (∃ frames, (setOnBoardMode model value t sent).2 = sent ++ frames ∧
          ∀ f ∈ frames, P f)) ∧
      (∀ fuel model keyValues t sent retval sent',
        setKeys D fuel model keyValues t sent = some (retval, sent') →
        ∃ frames, sent' = sent ++ frames ∧
          ∀ f ∈ frames, P f ∧
            ∃ (data : Frame) (chunk : List KeyValue),
              chunk.Sublist keyValues ∧ data.length ≤ f.length ∧
              f = data ++ List.replicate (f.length - data.length) 0 ∧
              ((∃ c : Color,
                  data = [0x11, if model = .g915 then 0x01 else 0xff,
                        if model = .g915 then 0x0b else 0x10, 0x6c, c.red, c.green,
                        c.blue] ++
                      chunk.flatMap (fun kv => pushColorKey D [] kv.key) ++
                      (if (chunk.flatMap (fun kv => pushColorKey D [] kv.key)).length < 13
                        then [0xff] else [])) ∨
                ∃ kag, kag ≤ 4 ∧
                  data = groupData model kag ++
                    chunk.flatMap
                      (fun kv => [kv.key &&& 0xff, kv.color.red, kv.color.green,
                        kv.color.blue]))) ∧
      (∀ fuel model keyGroup color t sent retval sent',
        setGroupKeys D G fuel model keyGroup color t sent = some (retval, sent') →
        ∃ frames, sent' = sent ++ frames ∧ ∀ f ∈ frames, P f) ∧
      (∀ fuel model color t sent retval sent',
        setAllKeys D G E fuel model color t sent = some (retval, sent') →
        ∃ frames, sent' = sent ++ frames ∧ ∀ f ∈ frames, P f) ∧
      (∀ fuel model effect part period color storage t sent retval sent',
        setNativeEffect D G E model fuel effect part period color storage t sent =
          some (retval, sent') →
        ∃ frames, sent' = sent ++ frames ∧ ∀ f ∈ frames, P f) := by
  intro P
  have hQ : ∀ f : Frame, f.length = 20 → f.head? = some 0x11 → P f :=
    fun f hl hh => Or.inl ⟨hl, hh⟩
  have hkeys : ∀ model fuel keyValues t sent retval sent',
      setKeys D fuel model keyValues t sent = some (retval, sent') →
      ∃ frames, sent' = sent ++ frames ∧ ∀ f ∈ frames, P f := by
    intro model fuel keyValues t sent retval sent' h
    obtain ⟨frames, hs, hf⟩ := setKeys_frames_shape D fuel model keyValues t sent retval sent' h
    exact ⟨frames, hs, fun f hfm => (hf f hfm).1⟩
  refine ⟨fun model t sent => commit_appends P hQ model t sent,
    fun model region color t sent => setRegion_appends P hQ model region color t sent,
    fun model value t sent => modeSetters_append P hQ model value t sent,
    fun fuel model keyValues t sent retval sent' h =>
      setKeys_frames_shape D fuel model keyValues t sent retval sent' h,
    fun fuel model keyGroup color t sent retval sent' h =>
      setGroupKeys_appends P D G model (hkeys model) fuel keyGroup color t sent retval sent' h,
    fun fuel model color t sent retval sent' h =>
      setAllKeys_appends P D G E model hQ (hkeys model) fuel color t sent retval sent' h,
    fun fuel model effect part period color storage t sent retval sent' h =>
      setNativeEffect_appends P D G E model hQ (hkeys model) fuel effect part period color
        storage t sent retval sent' h⟩

/-- The shape theorem applied to `setKeys` for the key `a` on a g810 with the
sample table: the call returns one frame, which satisfies the shape. -/
theorem frames_report_shape_witness :
    setKeys sampleDeclarations 256 .g810 [⟨sampleKeyA, ⟨1, 2, 3⟩⟩] (fun _ _ => true) [] =
        some (true,
          [[0x12, 0xff, 0x0c, 0x3a, 0x00, 0x01, 0x00, 0x0e, 0x04, 1, 2, 3] ++
            List.replicate 52 0]) ∧
      ∃ frames : List Frame,
        [[0x12, 0xff, 0x0c, 0x3a, 0x00, 0x01, 0x00, 0x0e, 0x04, 1, 2, 3] ++
            List.replicate 52 0] = [] ++ frames ∧
          ∀ f ∈ frames,
            (f.length = 20 ∧ f.head? = some 0x11) ∨ (f.length = 64 ∧ f.head? = some 0x12) :=
  ⟨by decide,
    ((frames_report_shape sampleDeclarations sampleKeyGroups
      sampleEffectDeclarations).2.2.2.1 256 .g810 [⟨sampleKeyA, ⟨1, 2, 3⟩⟩] (fun _ _ => true) []
      true _ (by decide)).imp (fun _ h => ⟨h.1, fun f hf => (h.2 f hf).1⟩)⟩

/-- C22 (as stated, refuted): on a g815 the indicator key `caps` is given no
byte at all (the frame holds the header, the colour and the marker only), not
the byte `offset + 0x98`; the multimedia key `play` is given the fixed byte
`0x9b`. -/
theorem setKeys_g815_caps_no_byte :
    setKeys sampleDeclarations 256 .g815 [⟨sampleDeclarations.key.caps, ⟨1, 2, 3⟩⟩]
        (fun _ _ => true) [] =
      some (true,
        [[0x11, 0xff, 0x10, 0x6c, 1, 2, 3, 0xff, 0, 0, 0, 0, 0, 0, 0, 0, 0, 0, 0, 0]]) ∧
      pushColorKey sampleDeclarations [] sampleDeclarations.key.caps = [] ∧
      ((sampleDeclarations.key.caps &&& 0xff) + 0x98) % 256 = 0x9b ∧
      pushColorKey sampleDeclarations [] sampleDeclarations.key.play = [0x9b] := by
  decide

/-- C22 (amended): on a colour-batched model the bytes `setKeys` emits for a
key are a function of the key code alone, whatever the colour, the position
and the other assignments: no byte for the keys logo2, game, caps, scroll,
num, stop, g6, g7, g8, g9; the fixed bytes `0x9b`, `0x9c`, `0x9d`, `0x9e` for
play, mute, next, prev; `offset - 0x78` for the eight modifier keys; for every
other key, by the group `(keyCode & 0xff00) / 0xff`: `offset + 0xd1` for logo,
`offset + 0x98` for indicators, `offset + 0xb3` for gkeys, `offset - 0x03` for
keys (all modulo 256, with `offset = keyCode & 0xff`) and no byte for any other
group.  Every transmitted frame holds these bytes for a chunk of the list. -/
theorem setKeys_color_key_byte (D : Declarations) (fuel : Nat) (model : KeyboardModel)
    (keyValues : List KeyValue) (t : Transport) (sent : List Frame)
    (hm : model = .g815 ∨ model = .g915) :
    let keyByte : Nat → List Nat := fun key =>
      if key ∈ [D.key.logo2, D.key.game, D.key.caps, D.key.scroll, D.key.num, D.key.stop,
          D.key.g6, D.key.g7, D.key.g8, D.key.g9] then []
      else if key = D.key.play then [0x9b]
      else if key = D.key.mute then [0x9c]
      else if key = D.key.next then [0x9d]
      else if key = D.key.prev then [0x9e]
      else if key ∈ [D.key.ctrl_left, D.key.shift_left, D.key.alt_left, D.key.win_left,
          D.key.ctrl_right, D.key.shift_right, D.key.alt_right, D.key.win_right] then
        [((key &&& 0xff) + 256 - 0x78) % 256]
      else if toKeyAddressGroup (((key % 65536) &&& 0xff00) / 0xff) = D.group .logo then
        [((key &&& 0xff) + 0xd1) % 256]
      else if toKeyAddressGroup (((key % 65536) &&& 0xff00) / 0xff) = D.group .indicators then
        [((key &&& 0xff) + 0x98) % 256]
      else if toKeyAddressGroup (((key % 65536) &&& 0xff00) / 0xff) = D.group .gkeys then
        [((key &&& 0xff) + 0xb3) % 256]
      else if toKeyAddressGroup (((key % 65536) &&& 0xff00) / 0xff) = D.group .keys then
        [((key &&& 0xff) + 256 - 0x03) % 256]
      else []
    (∀ (data : Frame) (key : Nat), pushColorKey D data key = data ++ keyByte key) ∧
      ∀ (retval : Bool) (sent' : List Frame),
        setKeys D fuel model keyValues t sent = some (retval, sent') →
        ∃ frames, sent' = sent ++ frames ∧
          ∀ f ∈ frames,
            ∃ (c : Color) (chunk : List KeyValue),
              chunk.Sublist keyValues ∧
              f = [0x11, if model = .g915 then 0x01 else 0xff,
                    if model = .g915 then 0x0b else 0x10, 0x6c, c.red, c.green, c.blue] ++
                  chunk.flatMap (fun kv => keyByte kv.key) ++
                  (if (chunk.flatMap (fun kv => keyByte kv.key)).length < 13 then
                    0xff :: List.replicate
                      (12 - (chunk.flatMap (fun kv => keyByte kv.key)).length) 0
                  else []) := by
  intro keyByte
  have hoff : ∀ key : Nat, (key % 256) &&& 0x00ff = key &&& 0xff := by
    intro key
    have h1 := Nat.and_pow_two_sub_one_eq_mod key 8
    have h2 := Nat.and_pow_two_sub_one_eq_mod (key % 256) 8
    norm_num at h1 h2
    rw [h1, h2]
  have hbyte : ∀ key : Nat, pushColorKey D [] key = keyByte key := by
    intro key
    simp only [pushColorKey, keyByte, hoff, List.nil_append, List.mem_cons, List.mem_singleton,
      List.not_mem_nil, or_false]
  refine ⟨?_, ?_⟩
  · intro data key
    rw [(pushColorKey_append D data key).1, hbyte]
  · intro retval sent' h
    obtain ⟨frames, hsent, hfr⟩ :=
      setKeys_color_frames D fuel model keyValues t sent hm retval sent' h
    refine ⟨frames, hsent, ?_⟩
    intro f hf
    obtain ⟨x, hx, gi, _, hfe⟩ := hfr f hf
    have hxs : x.2.Sublist keyValues := by
      have := foldl_fileKey_sublist keyValues [] [] (by simp) x hx
      simpa using this
    refine ⟨(x.2.getD 0 ⟨0, ⟨0, 0, 0⟩⟩).color, (x.2.drop gi).take 13,
      ((List.take_sublist _ _).trans (List.drop_sublist _ _)).trans hxs, ?_⟩
    have hfun : (fun kv : KeyValue => keyByte kv.key) =
        (fun kv : KeyValue => pushColorKey D [] kv.key) := by
      funext kv; rw [hbyte]
    rw [hfe, hfun]
    exact colorFrame_eq D _ _ x.2 gi

/-- The amended byte theorem applied to the key `a` on a g815 with the sample
table: the byte is `0x04 - 0x03`. -/
theorem setKeys_color_key_byte_witness :
    pushColorKey sampleDeclarations [0x11] sampleKeyA = [0x11, 0x01] :=
  ((setKeys_color_key_byte sampleDeclarations 0 .g815 [] (fun _ _ => true) []
    (Or.inl rfl)).1 [0x11] sampleKeyA).trans (by decide)

/-- C23: on a colour-batched model, for every list of assignments with 8-bit
colour channels, every frame `setKeys` has transmitted when it returns holds
the key bytes of a chunk of assignments of the list whose colour is the colour
triple at bytes 4 to 6 of the frame; the colour key used for the grouping
separates colours; and `setKeys` returns for every list of fewer than 256
assignments. -/
theorem setKeys_color_frames_homogeneous (D : Declarations) (fuel : Nat)
    (model : KeyboardModel) (keyValues : List KeyValue) (t : Transport) (sent : List Frame)
    (hm : model = .g815 ∨ model = .g915)
    (h8 : ∀ kv ∈ keyValues, kv.color.red < 256 ∧ kv.color.green < 256 ∧ kv.color.blue < 256) :
    (∀ kv1 ∈ keyValues, ∀ kv2 ∈ keyValues,
        colorkey kv1.color = colorkey kv2.color → kv1.color = kv2.color) ∧
      (keyValues.length < 256 → 256 ≤ fuel →
        (setKeys D fuel model keyValues t sent).isSome = true) ∧
      ∀ (retval : Bool) (sent' : List Frame),
        setKeys D fuel model keyValues t sent = some (retval, sent') →
        ∃ frames, sent' = sent ++ frames ∧
          ∀ f ∈ frames,
            ∃ chunk : List KeyValue,
              chunk ≠ [] ∧ chunk.Sublist keyValues ∧
              (∀ kv ∈ chunk, kv.color = ⟨f.getD 4 0, f.getD 5 0, f.getD 6 0⟩) ∧
              f = [0x11, if model = .g915 then 0x01 else 0xff,
                    if model = .g915 then 0x0b else 0x10, 0x6c, f.getD 4 0, f.getD 5 0,
                    f.getD 6 0] ++
                  chunk.flatMap (fun kv => pushColorKey D [] kv.key) ++
                  (if (chunk.flatMap (fun kv => pushColorKey D [] kv.key)).length < 13 then
                    0xff :: List.replicate
                      (12 - (chunk.flatMap (fun kv => pushColorKey D [] kv.key)).length) 0
                  else []) := by
  have hinj : ∀ kv1 ∈ keyValues, ∀ kv2 ∈ keyValues,
      colorkey kv1.color = colorkey kv2.color → kv1.color = kv2.color :=
    fun kv1 h1 kv2 h2 h => colorkey_injective _ _ (h8 kv1 h1) (h8 kv2 h2) h
  refine ⟨hinj, ?_, ?_⟩
  · intro hlen hfuel
    by_cases hne : keyValues = []
    · subst hne; rfl
    · have hsome := setKeysPlan_isSome D fuel model keyValues hlen hfuel
      cases hp : setKeysPlan D fuel model keyValues with
      | none => rw [hp] at hsome; simp at hsome
      | some frames =>
        obtain ⟨r, hr, _⟩ := setKeys_of_plan D fuel model keyValues t sent hne frames hp
        rw [hr]; rfl
  · intro retval sent' h
    obtain ⟨frames, hsent, hfr⟩ :=
      setKeys_color_frames D fuel model keyValues t sent hm retval sent' h
    refine ⟨frames, hsent, ?_⟩
    intro f hf
    obtain ⟨x, hx, gi, hgi, hfe⟩ := hfr f hf
    have hxs : x.2.Sublist keyValues := by
      have := foldl_fileKey_sublist keyValues [] [] (by simp) x hx
      simpa using this
    have hck := foldl_fileKey_colorkey keyValues [] (by simp) x hx
    have h0 : 0 < x.2.length := by omega
    have hfirst : x.2.getD 0 ⟨0, ⟨0, 0, 0⟩⟩ = x.2[0] := by
      rw [List.getD_eq_getElem?_getD, List.getElem?_eq_getElem h0]; rfl
    have hfeq := colorFrame_eq D (if model = .g915 then 0x01 else 0xff)
      (if model = .g915 then 0x0b else 0x10) x.2 gi
    rw [← hfe, hfirst] at hfeq
    have hc4 : f.getD 4 0 = x.2[0].color.red := by rw [hfeq]; rfl
    have hc5 : f.getD 5 0 = x.2[0].color.green := by rw [hfeq]; rfl
    have hc6 : f.getD 6 0 = x.2[0].color.blue := by rw [hfeq]; rfl
    have hsubl : ((x.2.drop gi).take 13).Sublist x.2 :=
      (List.take_sublist _ _).trans (List.drop_sublist _ _)
    refine ⟨(x.2.drop gi).take 13, ?_, hsubl.trans hxs, ?_, ?_⟩
    · intro hnil
      have := congrArg List.length hnil
      rw [List.length_take, List.length_drop] at this
      simp only [List.length_nil] at this
      omega
    · intro kv hkv
      have hkvx : kv ∈ x.2 := hsubl.subset hkv
      have h0x : x.2[0] ∈ x.2 := List.getElem_mem _
      rw [hc4, hc5, hc6]
      exact hinj kv (hxs.subset hkvx) x.2[0] (hxs.subset h0x)
        ((hck kv hkvx).trans (hck x.2[0] h0x).symm)
    · rw [hc4, hc5, hc6]; exact hfeq

/-- The homogeneity theorem applied to a red and a blue assignment on a g815:
`setKeys` returns. -/
theorem setKeys_color_frames_homogeneous_witness :
    (setKeys sampleDeclarations 256 .g815
      [⟨sampleKeyA, ⟨0xff, 0, 0⟩⟩, ⟨sampleKeyA + 1, ⟨0, 0, 0xff⟩⟩] (fun _ _ => true)
      []).isSome = true :=
  (setKeys_color_frames_homogeneous sampleDeclarations 256 .g815
    [⟨sampleKeyA, ⟨0xff, 0, 0⟩⟩, ⟨sampleKeyA + 1, ⟨0, 0, 0xff⟩⟩] (fun _ _ => true) []
    (Or.inl rfl) (by decide)).2.1 (by decide) (by decide)

/-- C24: in the indicator step of `setNativeEffect` with `part = all`, for an
effect of group cycle, waves or ripple the result and the frames transmitted
are the same for any two requested colours, and are those of `setGroupKeys` on
the indicators with white followed by `commit`; for the groups color and
breathing the step uses the requested colour. -/
theorem setNativeEffectIndicators_white (D : Declarations) (G : KeyGroups)
    (E : EffectDeclarations) (fuel : Nat) (model : KeyboardModel) (effectGroup : Nat)
    (t : Transport) (sent : List Frame) :
    (effectGroup = E.group.cycle ∨ effectGroup = E.group.waves ∨
        effectGroup = E.group.ripple →
      effectGroup ≠ E.group.color ∧ effectGroup ≠ E.group.breathing →
      (∀ c1 c2 : Color,
        setNativeEffectIndicators D G E fuel model effectGroup c1 t sent =
          setNativeEffectIndicators D G E fuel model effectGroup c2 t sent) ∧
      ∀ c : Color,
        setNativeEffectIndicators D G E fuel model effectGroup c t sent =
          (setGroupKeys D G fuel model .indicators ⟨0xff, 0xff, 0xff⟩ t sent).bind
            (fun r => if r.1 then some (commit model t r.2) else some (false, r.2))) ∧
      (effectGroup = E.group.color ∨ effectGroup = E.group.breathing →
        ∀ c : Color,
          setNativeEffectIndicators D G E fuel model effectGroup c t sent =
            (setGroupKeys D G fuel model .indicators c t sent).bind
              (fun r => if r.1 then some (commit model t r.2) else some (false, r.2))) ∧
      (G.keyGroupIndicators.length < 256 → 256 ≤ fuel →
        ∀ c : Color,
          (setNativeEffectIndicators D G E fuel model effectGroup c t sent).isSome = true) := by
  refine ⟨?_, ?_, ?_⟩
  · intro hg hd
    have hw : ∀ c : Color,
        setNativeEffectIndicators D G E fuel model effectGroup c t sent =
          (setGroupKeys D G fuel model .indicators ⟨0xff, 0xff, 0xff⟩ t sent).bind
            (fun r => if r.1 then some (commit model t r.2) else some (false, r.2)) := by
      intro c
      rw [setNativeEffectIndicators_eq, if_neg (by rintro (h | h); exact hd.1 h; exact hd.2 h),
        if_pos hg]
    exact ⟨fun c1 c2 => by rw [hw c1, hw c2], hw⟩
  · intro hg c
    rw [setNativeEffectIndicators_eq, if_pos hg]
  · intro hG hfuel c
    have hgk : ∀ c', (setGroupKeys D G fuel model .indicators c' t sent).isSome = true :=
      fun c' => setGroupKeys_isSome D G fuel model .indicators c' t sent hG hfuel
    rw [setNativeEffectIndicators_eq]
    split_ifs
    · have := hgk c
      cases hs : setGroupKeys D G fuel model .indicators c t sent with
      | none => rw [hs] at this; simp at this
      | some r => simp only [Option.some_bind]; split_ifs <;> rfl
    · have := hgk ⟨0xff, 0xff, 0xff⟩
      cases hs : setGroupKeys D G fuel model .indicators ⟨0xff, 0xff, 0xff⟩ t sent with
      | none => rw [hs] at this; simp at this
      | some r => simp only [Option.some_bind]; split_ifs <;> rfl
    · rfl

/-- The indicator-step theorem applied to the waves group on a g810 with the
sample tables: red and blue give the same result. -/
theorem setNativeEffectIndicators_white_witness :
    setNativeEffectIndicators sampleDeclarations sampleKeyGroups sampleEffectDeclarations 256
        .g810 4 ⟨0xff, 0, 0⟩ (fun _ _ => true) [] =
      setNativeEffectIndicators sampleDeclarations sampleKeyGroups sampleEffectDeclarations 256
        .g810 4 ⟨0, 0, 0xff⟩ (fun _ _ => true) [] :=
  ((setNativeEffectIndicators_white sampleDeclarations sampleKeyGroups sampleEffectDeclarations
    256 .g810 4 (fun _ _ => true) []).1 (by decide) (by decide)).1 ⟨0xff, 0, 0⟩ ⟨0, 0, 0xff⟩

/-- C25 (as stated, refuted): on a g815, a horizontal wave on the logo
requested with the colour (1, 2, 3) transmits the setup frame and an effect
frame whose colour triple is (1, 2, 3), not cyan. -/
theorem setNativeEffect_g815_wave_logo_not_cyan :
    setNativeEffect sampleDeclarations sampleKeyGroups sampleEffectDeclarations .g815 1
        sampleEffectDeclarations.effect.hwave .logo 1000 ⟨1, 2, 3⟩ 0 (fun _ _ => true) [] =
      some (true,
        [[0x11, 0xff, 0x0f, 0x5c, 0x01, 0x03, 0x03, 0, 0, 0, 0, 0, 0, 0, 0, 0, 0, 0, 0, 0],
         [0x11, 0xff, 0x0f, 0x1c, 0x00, 0x02, 1, 2, 3, 0x03, 0xe8, 0x03, 0xe8, 0x64, 0x64,
           0x03, 0x01, 0, 0, 0]]) := by
  decide

/-- C25 (amended): on a g815 or g915, `setNativeEffect` with a wave effect
(hwave, vwave, cwave) and `part = logo` transmits the setup frame and then an
effect frame that carries the requested colour at bytes 6 to 8; the part byte
is `0x00`, the effect-group byte and byte 13 are overwritten with `0x02` and
`0x64`, byte 16 is `0x01`, and the result is the outcome of the second
send. -/
theorem setNativeEffect_g815_wave_logo (D : Declarations) (G : KeyGroups)
    (E : EffectDeclarations) (fuel effect period : Nat) (color : Color) (storage : Nat)
    (t : Transport) (sent : List Frame)
    (hw : effect = E.effect.hwave ∨ effect = E.effect.vwave ∨ effect = E.effect.cwave)
    (hb : effect ≠ E.effect.breathing) :
    let frame : Nat → Nat → Frame := fun target pb0 =>
      [0x11, target, pb0, 0x1c, 0x00, 0x02, color.red, color.green, color.blue,
        ((period % 65536) >>> 8) % 256, ((period % 65536) &&& 0xff) % 256,
        ((period % 65536) >>> 8) % 256, ((period % 65536) &&& 0xff) % 256,
        0x64, 0x64, ((period % 65536) >>> 8) % 256, 0x01, 0, 0, 0]
    setNativeEffect D G E .g815 (fuel + 1) effect .logo period color storage t sent =
        some (t (sent.length + 1) (frame 0xff 0x0f),
          sent ++ [[0x11, 0xff, 0x0f, 0x5c, 0x01, 0x03, 0x03, 0, 0, 0, 0, 0, 0, 0, 0, 0, 0, 0,
            0, 0], frame 0xff 0x0f]) ∧
      setNativeEffect D G E .g915 (fuel + 1) effect .logo period color storage t sent =
        some (t (sent.length + 1) (frame 0x01 0x0a),
          sent ++ [[0x11, 0x01, 0x0a, 0x5c, 0x01, 0x03, 0x03, 0, 0, 0, 0, 0, 0, 0, 0, 0, 0, 0,
            0, 0], frame 0x01 0x0a]) := by
  intro frame
  have hc : effect = E.effect.cwave ∨ effect = E.effect.vwave ∨ effect = E.effect.hwave := by
    rcases hw with h | h | h
    · exact Or.inr (Or.inr h)
    · exact Or.inr (Or.inl h)
    · exact Or.inl h
  have hdata : ∀ target pb0,
      nativeEffectG815Data E
        (nativeEffectData E target pb0 0x1c effect .logo period color storage) effect .logo
        period = frame target pb0 := by
    intro target pb0
    simp only [nativeEffectG815Data, nativeEffectData, if_neg hb, if_pos hc, List.set, frame]
  constructor
  · rw [setNativeEffect_succ]
    simp only [setNativeEffectBody, hdata]
    simp [sendDataInternal, resize, frame]
  · rw [setNativeEffect_succ]
    simp only [setNativeEffectBody, hdata]
    simp [sendDataInternal, resize, frame]

/-- The amended wave theorem applied to a horizontal wave of period 1000 ms on
the logo of a g915, requested in red. -/
theorem setNativeEffect_g815_wave_logo_witness :
    setNativeEffect sampleDeclarations sampleKeyGroups sampleEffectDeclarations .g915 1
        0x0401 .logo 1000 ⟨0xff, 0, 0⟩ 0 (fun _ _ => true) [] =
      some (true,
        [[0x11, 0x01, 0x0a, 0x5c, 0x01, 0x03, 0x03, 0, 0, 0, 0, 0, 0, 0, 0, 0, 0, 0, 0, 0],
         [0x11, 0x01, 0x0a, 0x1c, 0x00, 0x02, 0xff, 0, 0, 0x03, 0xe8, 0x03, 0xe8, 0x64, 0x64,
           0x03, 0x01, 0, 0, 0]]) :=
  (setNativeEffect_g815_wave_logo sampleDeclarations sampleKeyGroups sampleEffectDeclarations 0
    0x0401 1000 ⟨0xff, 0, 0⟩ 0 (fun _ _ => true) [] (by decide) (by decide)).2

/-- C27: with the raw-USB back end on a g915 whose kernel driver is active,
the end of `open` detaches the driver from interface 2 and claims interface 2;
the following `close` returns `true` after releasing interface 1 and
re-attaching the driver on interface 1, so interface 2 is never released and
its driver is never re-attached. -/
theorem libusbClaim_close_g915 :
    libusbClaim (fun _ c => if c = .libusb_kernel_driver_active 2 then 1 else 0) .g915
        ⟨false, false, true, true, []⟩ =
      (true, ⟨true, true, true, true,
        [.libusb_kernel_driver_active 2, .libusb_detach_kernel_driver 2,
          .libusb_claim_interface 2]⟩) ∧
    close .libusb (fun _ c => if c = .libusb_kernel_driver_active 2 then 1 else 0)
        ⟨true, true, true, true,
          [.libusb_kernel_driver_active 2, .libusb_detach_kernel_driver 2,
            .libusb_claim_interface 2]⟩ =
      (true, ⟨false, false, false, false,
        [.libusb_kernel_driver_active 2, .libusb_detach_kernel_driver 2,
          .libusb_claim_interface 2, .libusb_release_interface 1,
          .libusb_attach_kernel_driver 1, .libusb_close, .libusb_exit]⟩) := by
  decide

/-- C28: on a g915, a list of 300 assignments keeps the 8-bit index `i` of the
first loop of `setKeys` below the list size for ever: whatever the fuel, the
transport and the history, `setKeys` does not return; the same holds on a g810
for the partition loop. -/
theorem setKeys_300_never_terminates (fuel : Nat) (t : Transport) (sent : List Frame) :
    setKeys sampleDeclarations fuel .g915
        (List.replicate 300 ⟨sampleKeyA, ⟨1, 2, 3⟩⟩) t sent = none ∧
      setKeys sampleDeclarations fuel .g810
        (List.replicate 300 ⟨sampleKeyA, ⟨1, 2, 3⟩⟩) t sent = none :=
  ⟨setKeys_diverges sampleDeclarations .g915 _ (by rw [List.length_replicate]; decide) fuel t
      sent,
    setKeys_diverges sampleDeclarations .g810 _ (by rw [List.length_replicate]; decide) fuel t
      sent⟩

/-- C29: on a g815 or g915, for a concrete part the result of
`setNativeEffect` and the frames it transmits are the same for any two storage
values, and byte 16 of the effect frame is `0x01`; on every other supported
model a call for a concrete part either transmits no frame (the logo of a g213
or g413) or transmits one 20-byte frame whose byte 16 is the storage
argument. -/
theorem setNativeEffect_storage (D : Declarations) (G : KeyGroups) (E : EffectDeclarations)
    (fuel effect period : Nat) (part : NativeEffectPart) (color : Color) (t : Transport)
    (sent : List Frame) (hpart : part ≠ .all) :
    (∀ model ∈ [KeyboardModel.g815, .g915], ∀ storage1 storage2 : Nat,
        setNativeEffect D G E model (fuel + 1) effect part period color storage1 t sent =
          setNativeEffect D G E model (fuel + 1) effect part period color storage2 t sent) ∧
      (∀ model ∈ [KeyboardModel.g815, .g915], ∀ storage : Nat,
        ∃ setup frame : Frame,
          setNativeEffect D G E model (fuel + 1) effect part period color storage t sent =
            some (t (sent.length + 1) frame, sent ++ [setup, frame]) ∧
          frame.length = 20 ∧ frame.getD 16 0 = 0x01) ∧
      ((E.effect.color % 65536) >>> 8 ≠ E.group.waves →
        ∀ model ∈ [KeyboardModel.g213, .g413, .g410, .g512, .g513, .g610, .g810, .gpro, .g910],
          ∀ storage : Nat,
            setNativeEffect D G E model (fuel + 2) effect part period color storage t sent =
                some (true, sent) ∧ (model = .g213 ∨ model = .g413) ∧ part = .logo ∨
              ∃ frame : Frame,
                setNativeEffect D G E model (fuel + 2) effect part period color storage t sent =
                  some (t sent.length frame, sent ++ [frame]) ∧
                frame.length = 20 ∧ frame.getD 16 0 = storage % 256) := by
  have hset : ∀ (target pb0 pb1 storage : Nat),
      (nativeEffectG815Data E
          (nativeEffectData E target pb0 pb1 effect part period color storage) effect part
          period).length = 20 ∧
        (nativeEffectG815Data E
          (nativeEffectData E target pb0 pb1 effect part period color storage) effect part
          period).getD 16 0 = 0x01 ∧
        ∀ storage2,
          nativeEffectG815Data E
              (nativeEffectData E target pb0 pb1 effect part period color storage) effect part
              period =
            nativeEffectG815Data E
              (nativeEffectData E target pb0 pb1 effect part period color storage2) effect part
              period := by
    intro target pb0 pb1 storage
    cases part with
    | all => exact absurd rfl hpart
    | keys =>
      refine ⟨?_, ?_, fun _ => ?_⟩ <;>
        simp only [nativeEffectG815Data, nativeEffectData, List.set] <;>
        first | rfl | (split_ifs <;> rfl)
    | logo =>
      refine ⟨?_, ?_, fun _ => ?_⟩ <;>
        simp only [nativeEffectG815Data, nativeEffectData, List.set] <;>
        first | rfl | (split_ifs <;> rfl)
  have hall : (part = .all) = False := by simp [hpart]
  have h815 : ∀ storage,
      setNativeEffect D G E .g815 (fuel + 1) effect part period color storage t sent =
        some (t (sent.length + 1)
            (nativeEffectG815Data E
              (nativeEffectData E 0xff 0x0f 0x1c effect part period color storage) effect part
              period),
          sent ++ [resize [0x11, 0xff, 0x0f, 0x5c, 0x01, 0x03, 0x03] 20 0x00,
            nativeEffectG815Data E
              (nativeEffectData E 0xff 0x0f 0x1c effect part period color storage) effect part
              period]) := by
    intro storage
    have hl := (hset 0xff 0x0f 0x1c storage).1
    rw [setNativeEffect_succ]
    simp only [setNativeEffectBody, hall, if_false]
    simp [sendDataInternal, hl, resize]
  have h915 : ∀ storage,
      setNativeEffect D G E .g915 (fuel + 1) effect part period color storage t sent =
        some (t (sent.length + 1)
            (nativeEffectG815Data E
              (nativeEffectData E 0x01 0x0a 0x1c effect part period color storage) effect part
              period),
          sent ++ [resize [0x11, 0x01, 0x0a, 0x5c, 0x01, 0x03, 0x03] 20 0x00,
            nativeEffectG815Data E
              (nativeEffectData E 0x01 0x0a 0x1c effect part period color storage) effect part
              period]) := by
    intro storage
    have hl := (hset 0x01 0x0a 0x1c storage).1
    rw [setNativeEffect_succ]
    simp only [setNativeEffectBody, hall, if_false]
    simp [sendDataInternal, hl, resize]
  refine ⟨?_, ?_, ?_⟩
  · intro model hm storage1 storage2
    simp only [List.mem_cons, List.mem_singleton, List.not_mem_nil, or_false] at hm
    rcases hm with h | h <;> subst h
    · rw [h815, h815, (hset 0xff 0x0f 0x1c storage1).2.2 storage2]
    · rw [h915, h915, (hset 0x01 0x0a 0x1c storage1).2.2 storage2]
  · intro model hm storage
    simp only [List.mem_cons, List.mem_singleton, List.not_mem_nil, or_false] at hm
    rcases hm with h | h <;> subst h
    · exact ⟨_, _, h815 storage, (hset 0xff 0x0f 0x1c storage).1,
        (hset 0xff 0x0f 0x1c storage).2.1⟩
    · exact ⟨_, _, h915 storage, (hset 0x01 0x0a 0x1c storage).1,
        (hset 0x01 0x0a 0x1c storage).2.1⟩
  · intro hE model hm storage
    have hsend : ∀ (f : Frame), f.length = 20 →
        sendDataInternal t f sent = (t sent.length f, sent ++ [f]) := by
      intro f hf
      simp [sendDataInternal, hf]
    have hd : ∀ (pb0 pb1 eff per : Nat) (p : NativeEffectPart) (c : Color),
        (nativeEffectData E 0xff pb0 pb1 eff p per c storage).length = 20 ∧
          (nativeEffectData E 0xff pb0 pb1 eff p per c storage).getD 16 0 = storage % 256 :=
      fun _ _ _ _ _ _ => ⟨rfl, rfl⟩
    have hplain : ∀ pb0 pb1, ∃ frame : Frame,
        some (sendDataInternal t
            (nativeEffectData E 0xff pb0 pb1 effect part period color storage) sent) =
          some (t sent.length frame, sent ++ [frame]) ∧
        frame.length = 20 ∧ frame.getD 16 0 = storage % 256 :=
      fun pb0 pb1 => ⟨_, by rw [hsend _ (hd _ _ _ _ _ _).1], (hd _ _ _ _ _ _).1,
        (hd _ _ _ _ _ _).2⟩
    have hsimple : ∀ model, model = .g213 ∨ model = .g413 →
        setNativeEffect D G E model (fuel + 2) effect part period color storage t sent =
            some (true, sent) ∧ (model = .g213 ∨ model = .g413) ∧ part = .logo ∨
          ∃ frame : Frame,
            setNativeEffect D G E model (fuel + 2) effect part period color storage t sent =
              some (t sent.length frame, sent ++ [frame]) ∧
            frame.length = 20 ∧ frame.getD 16 0 = storage % 256 := by
      intro model hm
      by_cases hl : part = .logo
      · left
        refine ⟨?_, hm, hl⟩
        rw [setNativeEffect_succ]
        rcases hm with h | h <;> subst h <;>
          simp only [setNativeEffectBody, hl, reduceCtorEq, if_false, if_true]
      · right
        rw [setNativeEffect_succ]
        rcases hm with h | h <;> subst h <;>
          simp only [setNativeEffectBody, hall, if_false, hl] <;>
          exact hplain _ _
    have hwave : ∀ (model : KeyboardModel) (pb0 : Nat),
        setNativeEffect D G E model (fuel + 2) effect part period color storage t sent =
          (if (effect % 65536) >>> 8 = E.group.waves ∧ part = .logo then
            setNativeEffect D G E model (fuel + 1) E.effect.color part 0 ⟨0x00, 0xff, 0xff⟩
              storage t sent
          else
            some (sendDataInternal t
              (nativeEffectData E 0xff pb0 0x3c effect part period color storage) sent)) →
        setNativeEffect D G E model (fuel + 1) E.effect.color .logo 0 ⟨0x00, 0xff, 0xff⟩
            storage t sent =
          some (sendDataInternal t
            (nativeEffectData E 0xff pb0 0x3c E.effect.color .logo 0 ⟨0x00, 0xff, 0xff⟩
              storage) sent) →
        ∃ frame : Frame,
          setNativeEffect D G E model (fuel + 2) effect part period color storage t sent =
            some (t sent.length frame, sent ++ [frame]) ∧
          frame.length = 20 ∧ frame.getD 16 0 = storage % 256 := by
      intro model pb0 h1 h2
      rw [h1]
      by_cases hwl : (effect % 65536) >>> 8 = E.group.waves ∧ part = .logo
      · rw [if_pos hwl, hwl.2, h2]
        exact ⟨_, by rw [hsend _ (hd _ _ _ _ _ _).1], (hd _ _ _ _ _ _).1, (hd _ _ _ _ _ _).2⟩
      · rw [if_neg hwl]
        exact hplain _ _
    simp only [List.mem_cons, List.mem_singleton, List.not_mem_nil, or_false] at hm
    rcases hm with h | h | h | h | h | h | h | h | h
    · exact hsimple model (Or.inl h)
    · exact hsimple model (Or.inr h)
    all_goals
      subst h
      right
      first
      | (refine hwave _ 0x0d ?_ ?_ <;>
          (rw [setNativeEffect_succ]
           simp only [setNativeEffectBody, hall, if_false, hE, false_and, reduceCtorEq]
           done))
      | (refine hwave _ 0x10 ?_ ?_ <;>
          (rw [setNativeEffect_succ]
           simp only [setNativeEffectBody, hall, if_false, hE, false_and, reduceCtorEq]))

/-- The storage theorem applied to the keys of a g815 with the sample tables:
storage values 0 and 2 give the same result. -/
theorem setNativeEffect_storage_witness :
    setNativeEffect sampleDeclarations sampleKeyGroups sampleEffectDeclarations .g815 1 0x0100
        .keys 0 ⟨1, 2, 3⟩ 0 (fun _ _ => true) [] =
      setNativeEffect sampleDeclarations sampleKeyGroups sampleEffectDeclarations .g815 1 0x0100
        .keys 0 ⟨1, 2, 3⟩ 2 (fun _ _ => true) [] :=
  (setNativeEffect_storage sampleDeclarations sampleKeyGroups sampleEffectDeclarations 0 0x0100 0
    .keys ⟨1, 2, 3⟩ (fun _ _ => true) [] (by decide)).1 .g815 (by decide) 0 2

/-- C30: on a g810, six assignments to the five indicator keys (the key `caps`
is assigned twice) are all retained (the capacity test is `size() <= 5`) and
are transmitted in one 64-byte frame with six entries, while the eighth byte
of the indicators header announces 5. -/
theorem setKeys_g810_six_indicators :
    setKeys sampleDeclarations 256 .g810
        [⟨0x0101, ⟨1, 1, 1⟩⟩, ⟨0x0102, ⟨2, 2, 2⟩⟩, ⟨0x0103, ⟨3, 3, 3⟩⟩, ⟨0x0104, ⟨4, 4, 4⟩⟩,
          ⟨0x0105, ⟨5, 5, 5⟩⟩, ⟨0x0103, ⟨6, 6, 6⟩⟩] (fun _ _ => true) [] =
      some (true,
        [[0x12, 0xff, 0x0c, 0x3a, 0x00, 0x40, 0x00, 0x05,
          0x01, 1, 1, 1, 0x02, 2, 2, 2, 0x03, 3, 3, 3, 0x04, 4, 4, 4, 0x05, 5, 5, 5,
          0x03, 6, 6, 6] ++ List.replicate 32 0]) ∧
      (getKeyGroupAddress .g810 .indicators).getD 7 0 = 5 := by
  decide

/-- On the models whose wave effects on the logo are replaced by the static
colour call, that call would recurse for ever if the effect `color` itself
belonged to the effect group waves: no amount of fuel makes it return. -/
theorem setNativeEffect_color_in_waves_never_returns (D : Declarations) (G : KeyGroups)
    (E : EffectDeclarations) (model : KeyboardModel)
    (hm : model ∈ [KeyboardModel.g410, .g512, .g513, .g610, .g810, .gpro, .g910])
    (hE : (E.effect.color % 65536) >>> 8 = E.group.waves) (storage : Nat) (t : Transport)
    (sent : List Frame) :
    ∀ (fuel period : Nat) (color : Color),
      setNativeEffect D G E model fuel E.effect.color .logo period color storage t sent =
        none := by
  intro fuel
  induction fuel with
  | zero => intro period color; rfl
  | succ n ih =>
    intro period color
    have hstep : setNativeEffect D G E model (n + 1) E.effect.color .logo period color storage
        t sent =
          setNativeEffect D G E model n E.effect.color .logo 0 ⟨0x00, 0xff, 0xff⟩ storage t
            sent := by
      simp only [List.mem_cons, List.mem_singleton, List.not_mem_nil, or_false] at hm
      rw [setNativeEffect_succ]
      rcases hm with h | h | h | h | h | h | h <;> subst h <;>
        simp only [setNativeEffectBody, reduceCtorEq, if_false, hE, and_self, if_true]
    rw [hstep]
    exact ih 0 ⟨0x00, 0xff, 0xff⟩

/-- C31: on the models g410, g512, g513, g610, g810, gpro and g910,
`setNativeEffect` with an effect of the waves group and `part = logo` returns
(given fuel for the two nested calls) exactly what `setNativeEffect` returns
for the effect `color`, `part = logo`, period 0, the colour (0x00, 0xff, 0xff)
and the same storage: it transmits the single 20-byte frame of that static
colour, which does not depend on the requested colour and period, and returns
the outcome of that send. -/
theorem setNativeEffect_wave_logo_cyan (D : Declarations) (G : KeyGroups)
    (E : EffectDeclarations) (fuel effect period : Nat) (color : Color) (storage : Nat)
    (t : Transport) (sent : List Frame)
    (hw : (effect % 65536) >>> 8 = E.group.waves)
    (hE : (E.effect.color % 65536) >>> 8 ≠ E.group.waves) :
    let frame : Nat → Frame := fun pb0 =>
      [0x11, 0xff, pb0, 0x3c, E.part .logo % 256, ((E.effect.color % 65536) >>> 8) % 256,
        0x00, 0xff, 0xff, 0, 0, 0, 0, ((E.effect.color % 65536) &&& 0xff) % 256, 0x64, 0,
        storage % 256, 0, 0, 0]
    (∀ model ∈ [KeyboardModel.g410, .g512, .g513, .g610, .g810, .gpro],
        setNativeEffect D G E model (fuel + 2) effect .logo period color storage t sent =
            setNativeEffect D G E model (fuel + 1) E.effect.color .logo 0 ⟨0x00, 0xff, 0xff⟩
              storage t sent ∧
          setNativeEffect D G E model (fuel + 2) effect .logo period color storage t sent =
            some (t sent.length (frame 0x0d), sent ++ [frame 0x0d])) ∧
      (setNativeEffect D G E .g910 (fuel + 2) effect .logo period color storage t sent =
          setNativeEffect D G E .g910 (fuel + 1) E.effect.color .logo 0 ⟨0x00, 0xff, 0xff⟩
            storage t sent ∧
        setNativeEffect D G E .g910 (fuel + 2) effect .logo period color storage t sent =
          some (t sent.length (frame 0x10), sent ++ [frame 0x10])) := by
  intro frame
  have hdata : ∀ pb0,
      nativeEffectData E 0xff pb0 0x3c E.effect.color .logo 0 ⟨0x00, 0xff, 0xff⟩ storage =
        frame pb0 := fun _ => rfl
  have hsend : ∀ pb0, sendDataInternal t (frame pb0) sent =
      (t sent.length (frame pb0), sent ++ [frame pb0]) := fun _ => rfl
  have key : ∀ (model : KeyboardModel) (pb0 : Nat),
      (∀ (f eff per : Nat) (c : Color),
        setNativeEffect D G E model (f + 1) eff .logo per c storage t sent =
          if (eff % 65536) >>> 8 = E.group.waves ∧ NativeEffectPart.logo = .logo then
            setNativeEffect D G E model f E.effect.color .logo 0 ⟨0x00, 0xff, 0xff⟩ storage t
              sent
          else
            some (sendDataInternal t
              (nativeEffectData E 0xff pb0 0x3c eff .logo per c storage) sent)) →
      setNativeEffect D G E model (fuel + 2) effect .logo period color storage t sent =
          setNativeEffect D G E model (fuel + 1) E.effect.color .logo 0 ⟨0x00, 0xff, 0xff⟩
            storage t sent ∧
        setNativeEffect D G E model (fuel + 2) effect .logo period color storage t sent =
          some (t sent.length (frame pb0), sent ++ [frame pb0]) := by
    intro model pb0 hbody
    have h1 : setNativeEffect D G E model (fuel + 1) E.effect.color .logo 0 ⟨0x00, 0xff, 0xff⟩
        storage t sent = some (t sent.length (frame pb0), sent ++ [frame pb0]) := by
      rw [hbody fuel, if_neg (fun h => hE h.1), hdata, hsend]
    have h2 : setNativeEffect D G E model (fuel + 2) effect .logo period color storage t sent =
        setNativeEffect D G E model (fuel + 1) E.effect.color .logo 0 ⟨0x00, 0xff, 0xff⟩
          storage t sent := by
      rw [hbody (fuel + 1), if_pos ⟨hw, rfl⟩]
    exact ⟨h2, h2.trans h1⟩
  refine ⟨?_, ?_⟩
  · intro model hm
    simp only [List.mem_cons, List.mem_singleton, List.not_mem_nil, or_false] at hm
    rcases hm with h | h | h | h | h | h <;> subst h <;>
      exact key _ 0x0d (fun f eff per c => by
        rw [setNativeEffect_succ]
        simp only [setNativeEffectBody, reduceCtorEq, if_false])
  · exact key _ 0x10 (fun f eff per c => by
      rw [setNativeEffect_succ]
      simp only [setNativeEffectBody, reduceCtorEq, if_false])

/-- The wave theorem applied to a horizontal wave of period 1000 ms requested
in red on the logo of a g810, with the sample tables: the frame is the static
cyan frame. -/
theorem setNativeEffect_wave_logo_cyan_witness :
    setNativeEffect sampleDeclarations sampleKeyGroups sampleEffectDeclarations .g810 2 0x0401
        .logo 1000 ⟨0xff, 0, 0⟩ 0 (fun _ _ => true) [] =
      some (true,
        [[0x11, 0xff, 0x0d, 0x3c, 0x01, 0x01, 0x00, 0xff, 0xff, 0, 0, 0, 0, 0x00, 0x64, 0, 0,
          0, 0, 0]]) :=
  ((setNativeEffect_wave_logo_cyan sampleDeclarations sampleKeyGroups sampleEffectDeclarations 0
    0x0401 1000 ⟨0xff, 0, 0⟩ 0 (fun _ _ => true) [] (by decide) (by decide)).1 .g810
    (by decide)).2

/-! ### The hidapi back end -/

/-- When the re-open leaves `currentDevice` as it was, a send with the hidapi
back end is the send of the transport whose outcome is "the re-open succeeded
and `hid_write` did not fail". -/
theorem sendDataInternalHidapi_stable (SupportedKeyboards : List SupportedKeyboard)
    (lib : HidapiLibrary) (currentDevice : DeviceInfo)
    (hst : ∀ n, (openHidapi SupportedKeyboards (lib n) currentDevice.vendorID
      currentDevice.productID currentDevice.serialNumber currentDevice).2 = currentDevice)
    (data : Frame) (sent : List Frame) :
    sendDataInternalHidapi SupportedKeyboards lib data sent currentDevice =
      ((sendDataInternal
          (fun n d => (openHidapi SupportedKeyboards (lib n) currentDevice.vendorID
            currentDevice.productID currentDevice.serialNumber currentDevice).1 &&
            decide (¬ (lib n).hid_write d < 0)) data sent).1,
        (sendDataInternal
          (fun n d => (openHidapi SupportedKeyboards (lib n) currentDevice.vendorID
            currentDevice.productID currentDevice.serialNumber currentDevice).1 &&
            decide (¬ (lib n).hid_write d < 0)) data sent).2,
        currentDevice) := by
  unfold sendDataInternalHidapi sendDataInternal
  by_cases hd : data.length > 0
  · simp only [if_pos hd, hst]
    cases ho : (openHidapi SupportedKeyboards (lib sent.length) currentDevice.vendorID
      currentDevice.productID currentDevice.serialNumber currentDevice).1
    · simp
    · by_cases hw : (lib sent.length).hid_write data < 0
      · simp [hw]
      · simp [hw]
  · simp only [if_neg hd]

theorem sendColorChunksHidapi_stable (SupportedKeyboards : List SupportedKeyboard)
    (lib : HidapiLibrary) (currentDevice : DeviceInfo)
    (hst : ∀ n, (openHidapi SupportedKeyboards (lib n) currentDevice.vendorID
      currentDevice.productID currentDevice.serialNumber currentDevice).2 = currentDevice)
    (D : Declarations) (tg fi : Nat) (keys : List KeyValue) :
    ∀ (fuel gi : Nat) (retval : Bool) (sent : List Frame),
      sendColorChunksHidapi SupportedKeyboards lib D tg fi keys fuel gi retval sent
          currentDevice =
        (sendColorChunks D
          (fun n d => (openHidapi SupportedKeyboards (lib n) currentDevice.vendorID
            currentDevice.productID currentDevice.serialNumber currentDevice).1 &&
            decide (¬ (lib n).hid_write d < 0)) tg fi keys fuel gi retval sent).map
          (fun r => (r.1, r.2, currentDevice)) := by
  intro fuel
  induction fuel with
  | zero => intro gi retval sent; rfl
  | succ n ih =>
    intro gi retval sent
    rw [sendColorChunksHidapi, sendColorChunks]
    by_cases hgi : gi < keys.length
    · simp only [if_pos hgi, sendDataInternalHidapi_stable SupportedKeyboards lib currentDevice
        hst]
      exact ih _ _ _
    · simp only [if_neg hgi, Option.map_some']

theorem sendColorsHidapi_stable (SupportedKeyboards : List SupportedKeyboard)
    (lib : HidapiLibrary) (currentDevice : DeviceInfo)
    (hst : ∀ n, (openHidapi SupportedKeyboards (lib n) currentDevice.vendorID
      currentDevice.productID currentDevice.serialNumber currentDevice).2 = currentDevice)
    (D : Declarations) (tg fi fuel : Nat) :
    ∀ (m : ColorMap) (retval : Bool) (sent : List Frame),
      sendColorsHidapi SupportedKeyboards lib D tg fi fuel m retval sent currentDevice =
        (sendColors D
          (fun n d => (openHidapi SupportedKeyboards (lib n) currentDevice.vendorID
            currentDevice.productID currentDevice.serialNumber currentDevice).1 &&
            decide (¬ (lib n).hid_write d < 0)) tg fi fuel m retval sent).map
          (fun r => (r.1, r.2, currentDevice)) := by
  intro m
  induction m with
  | nil => intro retval sent; rfl
  | cons x rest ih =>
    intro retval sent
    rw [sendColorsHidapi, sendColors]
    by_cases hx : x.2.length > 0
    · simp only [if_pos hx,
        sendColorChunksHidapi_stable SupportedKeyboards lib currentDevice hst]
      cases sendColorChunks D
          (fun n d => (openHidapi SupportedKeyboards (lib n) currentDevice.vendorID
            currentDevice.productID currentDevice.serialNumber currentDevice).1 &&
            decide (¬ (lib n).hid_write d < 0)) tg fi x.2 fuel 0 retval sent with
      | none => rfl
      | some r => exact ih _ _
    · simp only [if_neg hx]
      exact ih _ _

theorem sendGroupChunksHidapi_stable (SupportedKeyboards : List SupportedKeyboard)
    (lib : HidapiLibrary) (currentDevice : DeviceInfo)
    (hst : ∀ n, (openHidapi SupportedKeyboards (lib n) currentDevice.vendorID
      currentDevice.productID currentDevice.serialNumber currentDevice).2 = currentDevice)
    (kag : Nat) (keys : List KeyValue) :
    ∀ (fuel gi : Nat) (retval : Bool) (sent : List Frame),
      sendGroupChunksHidapi SupportedKeyboards lib kag keys fuel gi retval sent
          currentDevice =
        (sendGroupChunks currentDevice.model
          (fun n d => (openHidapi SupportedKeyboards (lib n) currentDevice.vendorID
            currentDevice.productID currentDevice.serialNumber currentDevice).1 &&
            decide (¬ (lib n).hid_write d < 0)) kag keys fuel gi retval sent).map
          (fun r => (r.1, r.2, currentDevice)) := by
  intro fuel
  induction fuel with
  | zero => intro gi retval sent; rfl
  | succ n ih =>
    intro gi retval sent
    rw [sendGroupChunksHidapi, sendGroupChunks]
    by_cases hgi : gi < keys.length
    · by_cases hd : (groupData currentDevice.model kag).length > 0
      · simp only [if_pos hgi, if_pos hd,
          sendDataInternalHidapi_stable SupportedKeyboards lib currentDevice hst]
        exact ih _ _ _
      · simp only [if_pos hgi, if_neg hd]
        exact ih _ _ _
    · simp only [if_neg hgi, Option.map_some']

theorem sendGroupsHidapi_stable (SupportedKeyboards : List SupportedKeyboard)
    (lib : HidapiLibrary) (currentDevice : DeviceInfo)
    (hst : ∀ n, (openHidapi SupportedKeyboards (lib n) currentDevice.vendorID
      currentDevice.productID currentDevice.serialNumber currentDevice).2 = currentDevice)
    (s : SortedKeys) (fuel : Nat) :
    ∀ (kags : List Nat) (retval : Bool) (sent : List Frame),
      sendGroupsHidapi SupportedKeyboards lib s fuel kags retval sent currentDevice =
        (sendGroups currentDevice.model
          (fun n d => (openHidapi SupportedKeyboards (lib n) currentDevice.vendorID
            currentDevice.productID currentDevice.serialNumber currentDevice).1 &&
            decide (¬ (lib n).hid_write d < 0)) s fuel kags retval sent).map
          (fun r => (r.1, r.2, currentDevice)) := by
  intro kags
  induction kags with
  | nil => intro retval sent; rfl
  | cons kag rest ih =>
    intro retval sent
    rw [sendGroupsHidapi, sendGroups]
    by_cases hx : (s.at kag).length > 0
    · simp only [if_pos hx,
        sendGroupChunksHidapi_stable SupportedKeyboards lib currentDevice hst]
      cases sendGroupChunks currentDevice.model
          (fun n d => (openHidapi SupportedKeyboards (lib n) currentDevice.vendorID
            currentDevice.productID currentDevice.serialNumber currentDevice).1 &&
            decide (¬ (lib n).hid_write d < 0)) kag (s.at kag) fuel 0 retval sent with
      | none => rfl
      | some r => exact ih _ _
    · simp only [if_neg hx]
      exact ih _ _

/-- With the hidapi back end, as long as every re-open leaves `currentDevice`
as it was (the same device is found again, or the re-open fails after finding
it), `setKeys` hands over the frames and returns the result of `setKeys` for
the transport whose outcome is "the re-open succeeded and `hid_write` did not
fail", and `currentDevice` is unchanged. -/
theorem setKeysHidapi_stable (SupportedKeyboards : List SupportedKeyboard)
    (lib : HidapiLibrary) (currentDevice : DeviceInfo)
    (hst : ∀ n, (openHidapi SupportedKeyboards (lib n) currentDevice.vendorID
      currentDevice.productID currentDevice.serialNumber currentDevice).2 = currentDevice)
    (D : Declarations) (fuel : Nat) (keyValues : List KeyValue) (sent : List Frame) :
    setKeysHidapi SupportedKeyboards lib D fuel keyValues sent currentDevice =
      (setKeys D fuel currentDevice.model keyValues
        (fun n d => (openHidapi SupportedKeyboards (lib n) currentDevice.vendorID
          currentDevice.productID currentDevice.serialNumber currentDevice).1 &&
          decide (¬ (lib n).hid_write d < 0)) sent).map
        (fun r => (r.1, r.2, currentDevice)) := by
  unfold setKeysHidapi setKeys
  by_cases he : keyValues.isEmpty
  · simp only [he, if_true, Option.map_some']
  · simp only [he, Bool.false_eq_true, if_false]
    cases hmodel : currentDevice.model <;>
      simp only [] <;>
      first
      | (cases partitionKeys D _ keyValues fuel 0 [[], [], [], [], []] with
          | none => rfl
          | some s =>
            have := sendGroupsHidapi_stable SupportedKeyboards lib currentDevice hst s fuel
              [0, 1, 2, 3, 4] true sent
            rw [hmodel] at this
            exact this)
      | (cases groupByColor keyValues fuel 0 [] with
          | none => rfl
          | some m =>
            exact sendColorsHidapi_stable SupportedKeyboards lib currentDevice hst D _ _ fuel m
              true sent)

/-- With the hidapi back end, a g810 that is unplugged before `setKeys` is
called for the logo and the key `a`: the send of the logo frame fails in the
re-open, which leaves the model `unknown`; the header of the keys group is then
empty and the frame of the key `a` is never built.  With a device that stays
plugged in, and in the libusb build whatever the outcome of the sends, both
frames are handed over. -/
theorem setKeysHidapi_device_lost :
    setKeysHidapi sampleSupportedKeyboards (fun _ => sampleHidapiAbsent) sampleDeclarations 256
        [⟨0x0001, ⟨9, 8, 7⟩⟩, ⟨sampleKeyA, ⟨1, 2, 3⟩⟩] [] sampleDevice =
      some (false,
        [[0x11, 0xff, 0x0c, 0x3a, 0x00, 0x10, 0x00, 0x01, 0x01, 9, 8, 7] ++
          List.replicate 8 0],
        { sampleDevice with model := .unknown }) ∧
    setKeysHidapi sampleSupportedKeyboards (fun _ => sampleHidapiPresent) sampleDeclarations 256
        [⟨0x0001, ⟨9, 8, 7⟩⟩, ⟨sampleKeyA, ⟨1, 2, 3⟩⟩] [] sampleDevice =
      some (true,
        [[0x11, 0xff, 0x0c, 0x3a, 0x00, 0x10, 0x00, 0x01, 0x01, 9, 8, 7] ++
          List.replicate 8 0,
         [0x12, 0xff, 0x0c, 0x3a, 0x00, 0x01, 0x00, 0x0e, 0x04, 1, 2, 3] ++
          List.replicate 52 0],
        sampleDevice) ∧
    setKeys sampleDeclarations 256 .g810
        [⟨0x0001, ⟨9, 8, 7⟩⟩, ⟨sampleKeyA, ⟨1, 2, 3⟩⟩] (fun _ _ => false) [] =
      some (false,
        [[0x11, 0xff, 0x0c, 0x3a, 0x00, 0x10, 0x00, 0x01, 0x01, 9, 8, 7] ++
          List.replicate 8 0,
         [0x12, 0xff, 0x0c, 0x3a, 0x00, 0x01, 0x00, 0x0e, 0x04, 1, 2, 3] ++
          List.replicate 52 0]) := by
  decide

/-- The stability condition holds for `sampleDevice` while the keyboard is
plugged in. -/
theorem openHidapi_sampleDevice :
    openHidapi sampleSupportedKeyboards sampleHidapiPresent sampleDevice.vendorID
      sampleDevice.productID sampleDevice.serialNumber sampleDevice = (true, sampleDevice) := by
  decide

/-- On a group-addressed model, for a list of fewer than 256 assignments the
partition pass returns the retained assignments (for each group the first
assignments offered to it, up to its capacity), and `setKeys` returns after
handing over, for each group whose header is not empty, one frame per chunk of
`(frameLength - 8) / 4` retained assignments: header, quadruples, zero bytes. -/
theorem setKeys_group_frames_short_list (D : Declarations) (fuel : Nat)
    (model : KeyboardModel) (keyValues : List KeyValue) (t : Transport) (sent : List Frame)
    (hm : model ≠ .g815 ∧ model ≠ .g915) (hlen : keyValues.length < 256)
    (hfuel : 256 ≤ fuel) :
    ∃ s, partitionKeys D model keyValues fuel 0 [[], [], [], [], []] = some s ∧
      (∀ idx, idx ≤ 4 →
        s.at idx =
          (keyValues.filter (fun kv => sortSlot D model kv = some idx)).take
            (sortCapacity model idx)) ∧
      ∃ retval, setKeys D fuel model keyValues t sent =
        some (retval, sent ++
          [0, 1, 2, 3, 4].flatMap (fun kag =>
            if groupData model kag = [] then []
            else
              (List.range (((s.at kag).length + (groupDataSize kag - 8) / 4 - 1) /
                  ((groupDataSize kag - 8) / 4))).map
                (fun j =>
                  groupData model kag ++
                    (((s.at kag).drop ((groupDataSize kag - 8) / 4 * j)).take
                        ((groupDataSize kag - 8) / 4)).flatMap
                      (fun kv =>
                        [kv.key &&& 0xff, kv.color.red, kv.color.green, kv.color.blue]) ++
                    List.replicate
                      (groupDataSize kag - 8 -
                        4 * (((s.at kag).drop ((groupDataSize kag - 8) / 4 * j)).take
                          ((groupDataSize kag - 8) / 4)).length) 0))) := by
  obtain ⟨s, hs, hat⟩ := partitionKeys_eq_filter_take D model keyValues fuel hlen hfuel
  exact ⟨s, hs, hat,
    (setKeys_group_frames D fuel model keyValues s t sent hm (by omega) hs).1⟩

/-- C2: on a g910, 256 assignments of the key G1 keep the 8-bit index of the
partition loop below the list size for ever: for every fuel, transport and
history `setKeys` does not return, so no frame is transmitted, although the
gkeys group has an 8-byte header on this model and the partition switch offers
the key to that group; the claim promises frames of 14 entries for the
retained assignments. -/
theorem setKeys_g910_256_gkeys_no_frame (fuel : Nat) (t : Transport) (sent : List Frame) :
    setKeys sampleDeclarations fuel .g910 (List.replicate 256 ⟨0x0301, ⟨1, 2, 3⟩⟩) t sent =
        none ∧
      (getKeyGroupAddress .g910 .gkeys).length = 8 ∧
      sortSlot sampleDeclarations .g910 ⟨0x0301, ⟨1, 2, 3⟩⟩ = some 3 :=
  ⟨setKeys_diverges sampleDeclarations .g910 _ (by rw [List.length_replicate]) fuel t sent,
    by decide, by decide⟩

end LedKeyboard
